import Mathlib

/-! A verification development for the `jv` JSON view of rpcxx.

Shallow embedding of `include/json_view/json_view.hpp` and
`include/json_view/trace_frame.hpp`, and of the request-scoped store of
`src/rpcxx/context.cpp`.

* Cells (`JsonView`) are values: a pointer payload together with its `size`
  becomes the list of the elements it points to.
* A pointer to an entry of an object (`const JsonPair*`) becomes the offset of
  that entry from the start of the entry array; the null pointer is `none`.
* Exceptions become the error side of `Except JsonError`.
* `unsigned` counters are natural numbers; every counter of the functions below
  stays bounded by the `size` it starts from, so no wrap-around is involved.
  Fixed-width integers that are converted (`intChecked`) are integers with
  explicit reduction modulo `2 ^ bits`.
-/

namespace jv

/-! ## Keys, trace frames, errors -/

/-- A `std::string_view`: the sequence of its characters.  `operator<` and
`operator==` of `string_view` compare element by element and then by length,
which is the lexicographic order of lists. -/
abbrev string_view := List Char

/-- A `TraceFrame`: a default-constructed frame (no `prev`) or a frame holding
an index or a key and the frame it was created from. -/
inductive TraceFrame where
  | root : TraceFrame
  | idx (i : Nat) (prev : TraceFrame) : TraceFrame
  | key (k : string_view) (prev : TraceFrame) : TraceFrame
  deriving DecidableEq, Repr

/-- A failure raised by user code (a validator); its content is not inspected. -/
abbrev Failure := String

/-- The exceptions of json_view.hpp, each `JsonException` with the frame it was
constructed from, and `std::bad_alloc` / `std::runtime_error`. -/
inductive JsonError where
  | ForeignError (msg : String) (nested : Option Failure) (frame : TraceFrame)
  | KeyError (missing : string_view) (frame : TraceFrame)
  | IndexError (wanted actualSize : Nat) (frame : TraceFrame)
  | TypeMissmatch (wanted was : Nat) (frame : TraceFrame)
  | IntRangeError (isUnsigned : Bool) (was : Int) (min : Int) (max : Int) (frame : TraceFrame)
  | DepthError
  | bad_alloc
  | runtime_error (msg : String)
  deriving DecidableEq, Repr

/-! ## Cells -/

/-- Modelled from the spec: the `Type` enumeration of data.hpp, a bit-flag
enumeration so that a set of kinds is one mask; `t_null` is the empty mask
(`Is` tests it with `!data.type`). -/
abbrev Type_ := Nat

def t_null : Type_ := 0
def t_binary : Type_ := 1
def t_boolean : Type_ := 2
def t_number : Type_ := 4
def t_string : Type_ := 8
def t_signed : Type_ := 16
def t_unsigned : Type_ := 32
def t_array : Type_ := 64
def t_object : Type_ := 128
def t_discarded : Type_ := 256
def t_custom : Type_ := 512

/-- Modelled from the spec: the `Flags` bit-field of data.hpp; its one defined
bit marks the entries of an object as sorted by key. -/
abbrev Flags := Nat

def f_sorted : Flags := 1

/-- The payload of a cell that holds no other cell: the active member of the
union `Data::d` together with the tag that selects it.  A double is carried as
an uninterpreted bit pattern. -/
inductive Scalar where
  | null
  | boolean (b : Bool)
  | integer (i : Int)
  | uinteger (u : Nat)
  | number (bits : Nat)
  | string (s : string_view)
  | binary (s : string_view)
  | discarded (why : string_view)
  | custom (size : Nat)
  deriving DecidableEq, Repr

/-- A key/value entry of an object. -/
structure JsonPair (V : Type) where
  key : string_view
  value : V
  deriving DecidableEq, Repr

/-- A cell: flags, and either a scalar payload, an array of cells or an array
of entries. -/
inductive JsonView where
  | scalar (flags : Flags) (d : Scalar)
  | array (flags : Flags) (items : List JsonView)
  | object (flags : Flags) (entries : List (JsonPair JsonView))

namespace JsonView

/-- The constructor `JsonView(nullptr)`. -/
def ofNull : JsonView := scalar 0 Scalar.null

/-- The constructor `JsonView(T val)` for a signed integral `T`. -/
def ofSigned (i : Int) : JsonView := scalar 0 (Scalar.integer i)

/-- The constructor `JsonView(T val)` for an unsigned integral `T`. -/
def ofUnsigned (u : Nat) : JsonView := scalar 0 (Scalar.uinteger u)

/-- The function `JsonView::GetType`. -/
def GetType : JsonView → Type_
  | scalar _ Scalar.null => t_null
  | scalar _ (Scalar.boolean _) => t_boolean
  | scalar _ (Scalar.integer _) => t_signed
  | scalar _ (Scalar.uinteger _) => t_unsigned
  | scalar _ (Scalar.number _) => t_number
  | scalar _ (Scalar.string _) => t_string
  | scalar _ (Scalar.binary _) => t_binary
  | scalar _ (Scalar.discarded _) => t_discarded
  | scalar _ (Scalar.custom _) => t_custom
  | array _ _ => t_array
  | object _ _ => t_object

/-- The function `JsonView::GetFlags`. -/
def GetFlags : JsonView → Flags
  | scalar f _ => f
  | array f _ => f
  | object f _ => f

/-- The `size` member of the cell's data. -/
def size : JsonView → Nat
  | scalar _ (Scalar.string s) => s.length
  | scalar _ (Scalar.binary s) => s.length
  | scalar _ (Scalar.discarded s) => s.length
  | scalar _ (Scalar.custom n) => n
  | scalar _ _ => 0
  | array _ items => items.length
  | object _ entries => entries.length

/-- The function `JsonView::Is`: `t ? (data.type & t) : !data.type`. -/
def Is (j : JsonView) (t : Type_) : Bool :=
  if t ≠ 0 then j.GetType &&& t ≠ 0 else j.GetType = 0

/-- The function `JsonView::HasFlag`. -/
def HasFlag (j : JsonView) (f : Flags) : Bool :=
  j.GetFlags &&& f ≠ 0

/-- Modelled from the spec: `throwMissmatch` (defined outside the header): a
TypeMismatch carrying the wanted kind-set, the actual kind and the trace. -/
def throwMissmatch {α : Type} (j : JsonView) (wanted : Type_) (frame : TraceFrame) :
    Except JsonError α :=
  .error (JsonError.TypeMissmatch wanted j.GetType frame)

/-- Modelled from the spec: `throwKeyError` (defined outside the header): a
KeyError carrying the missing key name and the trace. -/
def throwKeyError {α : Type} (_j : JsonView) (key : string_view) (frame : TraceFrame) :
    Except JsonError α :=
  .error (JsonError.KeyError key frame)

/-- Modelled from the spec: `throwIndexError` (defined outside the header): an
IndexError carrying the wanted index, the actual size and the trace. -/
def throwIndexError {α : Type} (j : JsonView) (key : Nat) (frame : TraceFrame) :
    Except JsonError α :=
  .error (JsonError.IndexError key j.size frame)

/-- Modelled from the spec: `throwIntRangeError` (defined outside the header):
an IntRangeError with the destination bounds it is given and the offending
value of the cell, tagged signed or unsigned. -/
def throwIntRangeError {α : Type} (j : JsonView) (min max : Int) (frame : TraceFrame) :
    Except JsonError α :=
  .error (match j with
    | scalar _ (Scalar.uinteger u) => JsonError.IntRangeError true u min max frame
    | scalar _ (Scalar.integer i) => JsonError.IntRangeError false i min max frame
    | _ => JsonError.IntRangeError false 0 min max frame)

/-- The function `JsonView::AssertType`. -/
def AssertType (j : JsonView) (wanted : Type_) (frame : TraceFrame) : Except JsonError Unit :=
  let ok := j.Is wanted
  if !ok then j.throwMissmatch wanted frame else pure ()

end JsonView

/-! ## Lookup in objects -/

/-- A non-null `const JsonPair*` into an entry array: its offset from the start
of the array and the entry it points to. -/
abbrev EntryPtr (V : Type) := Nat × JsonPair V

namespace detail

/-- The loop of `detail::sortedFind`, for the current values of `first` (as an
offset from `object`) and `len`.  Reading `middle` outside the array, which the
callers exclude by passing the array's own size, yields no entry. -/
def sortedFindLoop {V : Type} (object : List (JsonPair V)) (key : string_view)
    (first len : Nat) : Option (EntryPtr V) :=
  if len > 0 then
    let half := len >>> 1
    let middle := first + half
    match object[middle]? with
    | none => none
    | some m =>
      if m.key < key then
        sortedFindLoop object key (middle + 1) (len - half - 1)
      else if m.key = key then
        some (middle, m)
      else
        sortedFindLoop object key first half
  else
    none
termination_by len
decreasing_by
  all_goals simp_wf
  all_goals (rw [Nat.shiftRight_eq_div_pow]; omega)

/-- The function `detail::sortedFind`. -/
def sortedFind {V : Type} (object : List (JsonPair V)) (len : Nat) (key : string_view) :
    Option (EntryPtr V) :=
  sortedFindLoop object key 0 len

/-- The linear scan of `JsonView::Find`, `for (i = 0u; i < size; ++i)`, over the
entries from offset `i` on. -/
def linearFind {V : Type} : List (JsonPair V) → string_view → Nat → Option (EntryPtr V)
  | [], _, _ => none
  | p :: rest, key, i => if p.key = key then some (i, p) else linearFind rest key (i + 1)

end detail

namespace JsonView

/-- The function `JsonView::Find(string_view)`. -/
def Find (j : JsonView) (key : string_view) (frame : TraceFrame) :
    Except JsonError (Option (EntryPtr JsonView)) := do
  j.AssertType t_object frame
  match j with
  | object _ entries =>
    if j.HasFlag f_sorted then
      pure (detail.sortedFind entries entries.length key)
    else
      pure (detail.linearFind entries key 0)
  | _ => pure none

/-- The function `JsonView::FindVal`. -/
def FindVal (j : JsonView) (key : string_view) (frame : TraceFrame) :
    Except JsonError (Option JsonView) := do
  match ← j.Find key frame with
  | some res => pure (some res.2.value)
  | none => pure none

/-- The function `JsonView::At(string_view)`. -/
def At (j : JsonView) (key : string_view) (frame : TraceFrame) : Except JsonError JsonView := do
  match ← j.Find key frame with
  | some res => pure res.2.value
  | none => j.throwKeyError key frame

end JsonView

/-! ## Integer narrowing -/

/-- A fixed-width integer type: signedness and width in bits. -/
structure IntType where
  isSigned : Bool
  bits : Nat
  deriving DecidableEq, Repr

namespace IntType

def int8 : IntType := ⟨true, 8⟩
def int16 : IntType := ⟨true, 16⟩
def int32 : IntType := ⟨true, 32⟩
def int64 : IntType := ⟨true, 64⟩
def uint8 : IntType := ⟨false, 8⟩
def uint16 : IntType := ⟨false, 16⟩
def uint32 : IntType := ⟨false, 32⟩
def uint64 : IntType := ⟨false, 64⟩

/-- The constant `std::numeric_limits<T>::min()`. -/
def min (t : IntType) : Int :=
  if t.isSigned then -(2 ^ (t.bits - 1)) else 0

/-- The constant `std::numeric_limits<T>::max()`. -/
def max (t : IntType) : Int :=
  if t.isSigned then 2 ^ (t.bits - 1) - 1 else 2 ^ t.bits - 1

/-- The conversion `static_cast<T>(v)` of an integer: the value of type `T` congruent to `v`
modulo `2 ^ bits`. -/
def cast (t : IntType) (v : Int) : Int :=
  let m := v % 2 ^ t.bits
  if t.isSigned && decide (2 ^ (t.bits - 1) ≤ m) then m - 2 ^ t.bits else m

/-- Integral promotion: types narrower than `int` become `int`. -/
def promote (t : IntType) : IntType :=
  if t.bits < 32 then int32 else t

/-- The usual arithmetic conversions: the type in which a binary operator on
operands of types `a` and `b` is evaluated. -/
def common (a b : IntType) : IntType :=
  let a := promote a
  let b := promote b
  if a.isSigned = b.isSigned then ⟨a.isSigned, Nat.max a.bits b.bits⟩
  else
    let s := if a.isSigned then a else b
    let u := if a.isSigned then b else a
    if s.bits ≤ u.bits then u else s

/-- The built-in `x < y` for `x` of type `a` and `y` of type `b`. -/
def lt (a b : IntType) (x y : Int) : Bool :=
  decide ((common a b).cast x < (common a b).cast y)

end IntType

namespace detail

/-- The constant `is_lossless<From, To>::same_sign`. -/
def same_sign (From To : IntType) : Bool :=
  From.isSigned == To.isSigned

/-- The constant `is_lossless<From, To>::value`. -/
def is_lossless (From To : IntType) : Bool :=
  same_sign From To && decide (From.bits ≤ To.bits)

/-- The function `detail::intChecked<To, FromT>`; `our` is a value of type `FromT`, the
result a value of type `To`. -/
def intChecked (To FromT : IntType) (j : JsonView) (our : Int) (frame : TraceFrame) :
    Except JsonError Int := do
  if !is_lossless FromT To then
    let _min := To.min
    let _max := To.max
    let fail : Except JsonError Unit :=
      j.throwIntRangeError (IntType.int64.cast _min) (IntType.uint64.cast _max) frame
    if same_sign FromT To then
      if IntType.lt FromT To our _min || IntType.lt To FromT _max our then fail
    else if FromT.isSigned then
      if IntType.lt To FromT _max FromT.max then
        if IntType.lt FromT IntType.int32 our 0 || IntType.lt To FromT _max our then fail
      else
        if IntType.lt FromT IntType.int32 our 0 then fail
    else
      if IntType.lt FromT FromT (FromT.cast _max) our then fail
  return To.cast our

end detail

/-! ## Arena and builders -/

/-- Modelled from the spec: the `Arena` capability of alloc.hpp: given a size
and an alignment it returns a block or fails.  The arena is the record of the
requests made so far (`log`) and the rule (`grants`) that tells, from the
requests made up to and including the current one, whether that one is
served. -/
structure Arena where
  grants : List (Nat × Nat) → Bool
  log : List (Nat × Nat)

/-- The call `alloc(size, align)`: whether the returned pointer is non-null,
and the arena afterwards. -/
def Arena.alloc (a : Arena) (size align : Nat) : Bool × Arena :=
  let log := a.log ++ [(size, align)]
  (a.grants log, { a with log := log })

/-- The constants `sizeof(JsonView)` and `alignof(JsonView)` (LP64: a 8-byte union, a 16-bit
tag, 16 bits of flags and a 32-bit size). -/
def sizeof_JsonView : Nat := 16
def alignof_JsonView : Nat := 8

/-- The constants `sizeof(JsonPair)` and `alignof(JsonPair)` (LP64: a `string_view` and a
`JsonView`). -/
def sizeof_JsonPair : Nat := 32
def alignof_JsonPair : Nat := 8

/-- The function `MakeArrayOf`: whether the returned pointer is non-null, and the arena
afterwards. -/
def MakeArrayOf (count : Nat) (alloc : Arena) : Except JsonError (Bool × Arena) :=
  if count = 0 then pure (false, alloc)
  else
    let res := alloc.alloc (sizeof_JsonView * count) alignof_JsonView
    if !res.1 then throw JsonError.bad_alloc
    else pure (true, res.2)

/-- The function `MakeObjectOf`: whether the returned pointer is non-null, and the arena
afterwards. -/
def MakeObjectOf (count : Nat) (alloc : Arena) : Except JsonError (Bool × Arena) :=
  if count = 0 then pure (false, alloc)
  else
    let res := alloc.alloc (sizeof_JsonPair * count) alignof_JsonPair
    if !res.1 then throw JsonError.bad_alloc
    else pure (true, res.2)

/-- The content of a slot of a block that was allocated and not written. -/
def JsonView.indeterminate : JsonView := JsonView.scalar 0 (Scalar.discarded [])

/-- The elements of an array cell (`data.d.array` with `data.size`). -/
def JsonView.items : JsonView → List JsonView
  | JsonView.array _ xs => xs
  | _ => []

/-- The entries of an object cell (`data.d.object` with `data.size`). -/
def JsonView.entries : JsonView → List (JsonPair JsonView)
  | JsonView.object _ xs => xs
  | _ => []

/-! ## Sorted insertion -/

/-- Modelled from the spec: the binary search of `SortedInsertJson` (data.hpp)
for the insertion point of `key` in the sorted prefix `[first, first + len)`:
the offset of the first entry whose key is not less than `key`. -/
def lowerBoundLoop {V : Type} (object : List (JsonPair V)) (key : string_view)
    (first len : Nat) : Nat :=
  if len > 0 then
    let half := len >>> 1
    let middle := first + half
    match object[middle]? with
    | none => first
    | some m =>
      if m.key < key then
        lowerBoundLoop object key (middle + 1) (len - half - 1)
      else
        lowerBoundLoop object key first half
  else
    first
termination_by len
decreasing_by
  all_goals simp_wf
  all_goals (rw [Nat.shiftRight_eq_div_pow]; omega)

/-- Modelled from the spec: `SortedInsertJson` (data.hpp): given the partially
built sorted prefix of length `count` and a new entry, binary-search for the
insertion point by key, shift existing entries right by one slot, insert,
return `count + 1`.  `obj` is the storage, of which the first `count` slots
are filled; the result is the storage afterwards and the new count. -/
def SortedInsertJson {V : Type} (obj : List (JsonPair V)) (count : Nat) (entry : JsonPair V)
    (_cap : Nat) : List (JsonPair V) × Nat :=
  let pos := lowerBoundLoop obj entry.key 0 count
  (obj.take pos ++ entry :: (obj.take count).drop pos, count + 1)

/-! ## Type descriptions -/

/-- The trait `Convert<T>`: the two conversions of a type `T`.  `DoFromJson` receives the
current value of its output parameter and returns the value stored to it. -/
structure Convert (T : Type) where
  DoIntoJson : T → Arena → Except JsonError (JsonView × Arena)
  DoFromJson : T → JsonView → TraceFrame → Except JsonError T

/-- A validator `V::validate(U&)`: it may change its argument, or raise. -/
abbrev Validator (T : Type) := T → Except Failure T

/-- A described field of the class `Cls`: its name, its type, the accessor
`get` (`set` is a store through the reference `get` returns), the conversion
of its type, and what its attributes say. -/
structure Field (Cls : Type) where
  name : string_view
  type : Type
  get : Cls → type
  set : Cls → type → Cls
  conv : Convert type
  /-- Attribute `describe::has_attr_v<Required, F>` -/
  attrRequired : Bool
  /-- Attribute `describe::has_attr_v<SkipMissing, F>` -/
  attrSkipMissing : Bool
  /-- Attribute `is_optional<typename F::type>::value` -/
  isOptional : Bool
  /-- Attribute `describe::extract_attr_t<FieldIndexBase, F>`, `none` for `void` -/
  fieldIndex : Option Nat
  /-- Attribute `describe::extract_attr_t<FieldValidator, F>`, `none` for `void` -/
  validator : Option (Validator type)

/-- The description `describe::Get<Cls>()` of a class: its name, its fields in
declaration order, and what its attributes say. -/
structure Description (Cls : Type) where
  name : string_view
  fields : List (Field Cls)
  /-- Attribute `describe::has_attr_v<StructAsTuple, Cls>` -/
  attrStructAsTuple : Bool
  /-- Attribute `describe::has_attr_v<SkipMissing, Cls>` -/
  attrSkipMissing : Bool
  /-- Attribute `describe::extract_attr_t<ClassValidator, Cls>`, `none` for `void` -/
  classValidator : Option (Validator Cls)

namespace detail

/-- The struct `detail::fieldHelper`. -/
structure fieldHelper where
  name : string_view := []
  hit : Bool := false
  required : Bool := false
  deriving DecidableEq, Repr

/-- The function `detail::isRequired<F>()`; `cls` is the description of `F::cls`. -/
def isRequired {Cls : Type} (cls : Description Cls) (F : Field Cls) : Bool :=
  let isRequired := F.attrRequired
  let skip := cls.attrSkipMissing || F.attrSkipMissing || F.isOptional
  isRequired || !skip

/-- The function `detail::prepFields<Cls>()`.  The body of the loop takes a copy
`auto curr = res[idx++]` and assigns to the copy; `res` itself is returned as
it was value-initialised. -/
def prepFields {Cls : Type} (desc : Description Cls) : List fieldHelper :=
  let res : List fieldHelper := List.replicate desc.fields.length {}
  let st := desc.fields.foldl
    (fun (st : List fieldHelper × Nat) field =>
      let res := st.1
      let idx := st.2
      let curr := res.getD idx {}
      let curr := { curr with name := field.name }
      let curr := { curr with hit := false }
      let _curr := { curr with required := isRequired desc field }
      (res, idx + 1))
    (res, 0)
  st.1

/-- The function `detail::runValidator<Validator>(output, next)`; the result is `output`
afterwards. -/
def runValidator {T : Type} (validator : Option (Validator T)) (output : T) (next : TraceFrame) :
    Except JsonError T :=
  match validator with
  | none => pure output
  | some validate =>
    match validate output with
    | .ok output => pure output
    | .error e => throw (JsonError.ForeignError "" (some e) next)

/-- The function `detail::tupleGet`; `arr[idx]` is read only for `idx < sz`. -/
def tupleGet (required : Bool) (idx : Nat) (arr : List JsonView) (sz : Nat) (frame : TraceFrame) :
    Except JsonError JsonView :=
  if sz ≤ idx then
    if required then throw (JsonError.IndexError idx sz frame)
    else pure JsonView.ofNull
  else pure (arr.getD idx JsonView.indeterminate)

/-- The body of the loop of `detail::deserializeAsTuple` for the field `f`:
the state is the object and `count`. -/
def deserializeAsTupleField {T : Type} (desc : Description T) (arr : List JsonView) (sz : Nat)
    (frame : TraceFrame) (st : T × Nat) (f : Field T) : Except JsonError (T × Nat) := do
  let obj := st.1
  let count := st.2
  let index := match f.fieldIndex with
    | some value => value
    | none => count
  let output := f.get obj
  let src ← tupleGet (isRequired desc f) index arr sz frame
  let fieldFrame := TraceFrame.key f.name frame
  let output ← f.conv.DoFromJson output src fieldFrame
  let output ← runValidator f.validator output fieldFrame
  pure (f.set obj output, count + 1)

/-- The function `detail::deserializeAsTuple`; the result is `obj` afterwards. -/
def deserializeAsTuple {T : Type} (desc : Description T) (obj : T) (json : JsonView)
    (frame : TraceFrame) : Except JsonError T := do
  let arr := json.items
  let sz := json.size
  let st ← desc.fields.foldlM (deserializeAsTupleField desc arr sz frame) (obj, 0)
  pure st.1

/-- The function `detail::getIdxFor<Field>()`. -/
def getIdxFor {Cls : Type} (F : Field Cls) : Nat :=
  match F.fieldIndex with
  | none => 0
  | some value => value

/-- The loop of `detail::maxIdxFor` over `fromAttr`. -/
def maxIdxForLoop (simple : Nat) : List Nat → Nat
  | [] => simple
  | i :: rest => if i > simple then i else maxIdxForLoop simple rest

/-- The function `detail::maxIdxFor`. -/
def maxIdxFor {T : Type} (desc : Description T) : Nat :=
  let simple := desc.fields.length
  let fromAttr := desc.fields.map getIdxFor
  maxIdxForLoop simple fromAttr

/-- The body of the loop of `detail::serializeAsTuple` for the field `f`: the
state is the array, `count` and the arena.  A store to `arr[idx]` outside the
allocated block is not recorded in the array. -/
def serializeAsTupleField {T : Type} (value : T) (st : List JsonView × Nat × Arena) (f : Field T) :
    Except JsonError (List JsonView × Nat × Arena) := do
  let arr := st.1
  let count := st.2.1
  let alloc := st.2.2
  let manual := getIdxFor f
  let idx := if manual ≠ 0 then manual else count
  let res ← f.conv.DoIntoJson (f.get value) alloc
  pure (arr.set idx res.1, count + 1, res.2)

/-- The function `detail::serializeAsTuple`. -/
def serializeAsTuple {T : Type} (desc : Description T) (value : T) (alloc : Arena) :
    Except JsonError (JsonView × Arena) := do
  let total := maxIdxFor desc
  let made ← MakeArrayOf total alloc
  let arr := List.replicate total JsonView.indeterminate
  let st ← desc.fields.foldlM (serializeAsTupleField value) (arr, 0, made.2)
  pure (JsonView.array 0 st.1, st.2.2)

/-- The store `thisRun[count].hit = true`. -/
def markHit (thisRun : List fieldHelper) (count : Nat) : List fieldHelper :=
  thisRun.modify (fun h => { h with hit := true }) count

/-- The body of the inner loop of `detail::deserializeFields` for the entry
`pair` and the field `field`: the state is the object, `thisRun` and `count`. -/
def deserializeFieldsField {T : Type} (pair : JsonPair JsonView) (frame : TraceFrame)
    (st : T × List fieldHelper × Nat) (field : Field T) :
    Except JsonError (T × List fieldHelper × Nat) := do
  let obj := st.1
  let thisRun := st.2.1
  let count := st.2.2
  if pair.key = field.name then
    let thisRun := markHit thisRun count
    let count := count + 1
    let output := field.get obj
    let next := TraceFrame.key field.name frame
    let output ← field.conv.DoFromJson output pair.value next
    let output ← runValidator field.validator output next
    pure (field.set obj output, thisRun, count)
  else
    pure (obj, thisRun, count)

/-- The body of the outer loop of `detail::deserializeFields` for the entry
`pair`: the state is the object and `thisRun`. -/
def deserializeFieldsPair {T : Type} (desc : Description T) (frame : TraceFrame)
    (st : T × List fieldHelper) (pair : JsonPair JsonView) :
    Except JsonError (T × List fieldHelper) := do
  let count := 0
  let st ← desc.fields.foldlM (deserializeFieldsField pair frame) (st.1, st.2, count)
  pure (st.1, st.2.1)

/-- The closing loop of `detail::deserializeFields` over `thisRun`. -/
def checkRequired (json : JsonView) (frame : TraceFrame) : List fieldHelper → Except JsonError Unit
  | [] => pure ()
  | field :: rest =>
    if field.required && !field.hit then json.throwKeyError field.name frame
    else checkRequired json frame rest

/-- The function `detail::deserializeFields`; the result is `obj` afterwards.
`json.Object()` asserts the type with a default frame. -/
def deserializeFields {T : Type} (desc : Description T) (obj : T) (json : JsonView)
    (frame : TraceFrame) : Except JsonError T := do
  let helpers := prepFields desc
  let thisRun := helpers
  json.AssertType t_object TraceFrame.root
  let st ← json.entries.foldlM (deserializeFieldsPair desc frame) (obj, thisRun)
  checkRequired json frame st.2
  pure st.1

/-- The body of the loop of `detail::deserializeFieldsSorted` for the field
`field`; the result is `obj` afterwards. -/
def deserializeFieldsSortedField {T : Type} (desc : Description T) (json : JsonView)
    (frame : TraceFrame) (obj : T) (field : Field T) : Except JsonError T := do
  let output := field.get obj
  let next := TraceFrame.key field.name frame
  let output ←
    if isRequired desc field then do
      let f ← json.At field.name frame
      field.conv.DoFromJson output f next
    else do
      match ← json.FindVal field.name frame with
      | some f => field.conv.DoFromJson output f next
      | none => pure output
  let output ← runValidator field.validator output next
  pure (field.set obj output)

/-- The function `detail::deserializeFieldsSorted`; the result is `obj` afterwards. -/
def deserializeFieldsSorted {T : Type} (desc : Description T) (obj : T) (json : JsonView)
    (frame : TraceFrame) : Except JsonError T :=
  desc.fields.foldlM (deserializeFieldsSortedField desc json frame) obj

end detail

/-- The overload of `FromJson` for a described struct; the result is `out` afterwards. -/
def FromJsonStruct {T : Type} (desc : Description T) (out : T) (json : JsonView)
    (frame : TraceFrame) : Except JsonError T := do
  let out ←
    if desc.attrStructAsTuple then do
      json.AssertType t_array frame
      detail.deserializeAsTuple desc out json frame
    else if json.HasFlag f_sorted then do
      json.AssertType t_object frame
      detail.deserializeFieldsSorted desc out json frame
    else do
      json.AssertType t_object frame
      detail.deserializeFields desc out json frame
  detail.runValidator desc.classValidator out (TraceFrame.key desc.name frame)

/-- The body of the loop of `IntoJson` of a described struct for the field
`field`: the state is the storage `obj`, `count` and the arena. -/
def IntoJsonStructField {T : Type} (value : T) (size : Nat)
    (st : List (JsonPair JsonView) × Nat × Arena) (field : Field T) :
    Except JsonError (List (JsonPair JsonView) × Nat × Arena) := do
  let obj := st.1
  let count := st.2.1
  let ctx := st.2.2
  let res ← field.conv.DoIntoJson (field.get value) ctx
  let entry : JsonPair JsonView := { key := field.name, value := res.1 }
  let ins := SortedInsertJson obj count entry size
  pure (ins.1, ins.2, res.2)

/-- The overload of `IntoJson` for a described struct.  The result has `size = count` and the
storage `obj` as its entries. -/
def IntoJsonStruct {T : Type} (desc : Description T) (value : T) (ctx : Arena) :
    Except JsonError (JsonView × Arena) :=
  if desc.attrStructAsTuple then
    detail.serializeAsTuple desc value ctx
  else do
    let size := desc.fields.length
    let made ← MakeObjectOf size ctx
    let count := 0
    let st ← desc.fields.foldlM (IntoJsonStructField value size) ([], count, made.2)
    pure (JsonView.object f_sorted (st.1.take st.2.1), st.2.2)

/-- The overload of `IntoJson` for an integral `T`. -/
def IntoJsonIntegral (T : IntType) (value : Int) : JsonView :=
  if T.isSigned then JsonView.ofSigned (IntType.int64.cast value)
  else JsonView.ofUnsigned (IntType.uint64.cast value).toNat

/-- The overload of `FromJson` for an integral `T`; the result is the value stored to `value`. -/
def FromJsonIntegral (T : IntType) (json : JsonView) (frame : TraceFrame) :
    Except JsonError Int :=
  match json with
  | JsonView.scalar _ (Scalar.integer i) => detail.intChecked T IntType.int64 json i frame
  | JsonView.scalar _ (Scalar.uinteger u) => detail.intChecked T IntType.uint64 json u frame
  | _ => json.throwMissmatch (t_signed ||| t_unsigned) frame

/-- The trait `Convert<T>` for an integral `T`; the values of `T` are integers. -/
def convertIntegral (T : IntType) : Convert Int where
  DoIntoJson value ctx := pure (IntoJsonIntegral T value, ctx)
  DoFromJson _ json frame := FromJsonIntegral T json frame

deriving instance DecidableEq for Except

/-! ## Predicates used in the statements -/

/-- The keys of the entries are strictly ascending. -/
def keysAscending {V : Type} (object : List (JsonPair V)) : Prop :=
  (object.map (fun p => p.key)).Pairwise (fun a b => a < b)

instance {V : Type} (object : List (JsonPair V)) : Decidable (keysAscending object) := by
  unfold keysAscending; infer_instance

/-- The fields of a description are the members of the class: reading a field
after a store to it gives the stored value, a store to one field leaves the
other fields as they were, and two objects with equal fields are equal. -/
structure Description.Lawful {T : Type} (desc : Description T) : Prop where
  get_set : ∀ f ∈ desc.fields, ∀ (o : T) (v : f.type), f.get (f.set o v) = v
  independent : desc.fields.Pairwise (fun f g =>
    (∀ (o : T) (v : f.type), g.get (f.set o v) = g.get o) ∧
    (∀ (o : T) (v : g.type), f.get (g.set o v) = f.get o))
  ext : ∀ a b : T, (∀ f ∈ desc.fields, f.get a = f.get b) → a = b

/-! ## Example descriptions -/

/-- A struct with three integer members. -/
structure Point3 where
  x : Int
  y : Int
  z : Int
  deriving DecidableEq, Repr

/-- A described field of integral type `T` without attributes. -/
def plainField {Cls : Type} (name : string_view) (T : IntType) (get : Cls → Int)
    (set : Cls → Int → Cls) : Field Cls where
  name := name
  type := Int
  get := get
  set := set
  conv := convertIntegral T
  attrRequired := false
  attrSkipMissing := false
  isOptional := false
  fieldIndex := none
  validator := none

def Point3.fieldX : Field Point3 :=
  plainField ['x'] IntType.int32 Point3.x (fun p v => { p with x := v })

def Point3.fieldY : Field Point3 :=
  plainField ['y'] IntType.int32 Point3.y (fun p v => { p with y := v })

def Point3.fieldZ : Field Point3 :=
  plainField ['z'] IntType.int32 Point3.z (fun p v => { p with z := v })

/-- The struct `Point3` described in the order `z`, `x`, `y`, object-encoded. -/
def Point3.asObject : Description Point3 where
  name := ['P', 'o', 'i', 'n', 't', '3']
  fields := [Point3.fieldZ, Point3.fieldX, Point3.fieldY]
  attrStructAsTuple := false
  attrSkipMissing := false
  classValidator := none

/-- The struct `Point3` described in the order `x`, `y`, `z` with `StructAsTuple`. -/
def Point3.asTuple : Description Point3 where
  name := ['P', 'o', 'i', 'n', 't', '3']
  fields := [Point3.fieldX, Point3.fieldY, Point3.fieldZ]
  attrStructAsTuple := true
  attrSkipMissing := false
  classValidator := none

/-- An arena that serves every request. -/
def Arena.unbounded : Arena where
  grants := fun _ => true
  log := []

/-- A struct with the one member `id`. -/
structure WithId where
  id : Int
  deriving DecidableEq, Repr

/-- The struct `WithId` described with the required field `id`, object-encoded. -/
def WithId.desc : Description WithId where
  name := ['W', 'i', 't', 'h', 'I', 'd']
  fields := [plainField ['i', 'd'] IntType.int32 WithId.id (fun _ v => { id := v })]
  attrStructAsTuple := false
  attrSkipMissing := false
  classValidator := none

/-- The struct `Point3` with `SkipMissing` on the class and `Required` on its field `x`. -/
def Point3.skipMissing : Description Point3 where
  name := ['P', 'o', 'i', 'n', 't', '3']
  fields := [{ Point3.fieldX with attrRequired := true }, Point3.fieldY, Point3.fieldZ]
  attrStructAsTuple := false
  attrSkipMissing := true
  classValidator := none

/-- A struct of two fields with `StructAsTuple`, the first with `FieldIndex<5>`. -/
def Point3.sparseTuple : Description Point3 where
  name := ['P', 'o', 'i', 'n', 't', '3']
  fields := [{ Point3.fieldX with fieldIndex := some 5 }, Point3.fieldY]
  attrStructAsTuple := true
  attrSkipMissing := false
  classValidator := none

/-- The struct `Point3` described in the order `x`, `y`, `z`, object-encoded, with
`SkipMissing` on its field `y`. -/
def Point3.optionalY : Description Point3 where
  name := ['P', 'o', 'i', 'n', 't', '3']
  fields := [Point3.fieldX, { Point3.fieldY with attrSkipMissing := true }, Point3.fieldZ]
  attrStructAsTuple := false
  attrSkipMissing := false
  classValidator := none

/-! ## Optionals and fixed tuples -/

/-- The overload of `IntoJson` for `std::optional<T>`. -/
def IntoJsonOptional {T : Type} (conv : Convert T) (value : Option T) (ctx : Arena) :
    Except JsonError (JsonView × Arena) :=
  match value with
  | some v => conv.DoIntoJson v ctx
  | none => pure (JsonView.ofNull, ctx)

/-- The overload of `FromJson` for `std::optional<T>`; `init` is the
value-initialised `T` that `out.emplace()` constructs, the result is `out`
afterwards. -/
def FromJsonOptional {T : Type} (conv : Convert T) (init : T) (_out : Option T) (json : JsonView)
    (frame : TraceFrame) : Except JsonError (Option T) :=
  if json.Is t_null then
    pure none
  else do
    let v ← conv.DoFromJson init json frame
    pure (some v)

/-- The trait `Convert<std::optional<T>>`. -/
def convertOptional {T : Type} (conv : Convert T) (init : T) : Convert (Option T) where
  DoIntoJson := IntoJsonOptional conv
  DoFromJson := FromJsonOptional conv init

/-- An element `std::get<Is>` of a `std::tuple<Ts...>` modelled by `Tup`: its
type, the accessor (`set` is a store through the reference `get` returns) and
the conversion of its type. -/
structure TupleElement (Tup : Type) where
  type : Type
  get : Tup → type
  set : Tup → type → Tup
  conv : Convert type

/-- The alignment an arena call `ctx(size)` without an alignment argument asks
for (the default argument of alloc.hpp, `alignof(std::max_align_t)` on LP64). -/
def alignof_default : Nat := 16

namespace detail

/-- The fold `detail::impl_into` for the element `e`: the state is the array,
the index `Is` and the arena. -/
def impl_intoElement {Tup : Type} (object : Tup) (st : List JsonView × Nat × Arena)
    (e : TupleElement Tup) : Except JsonError (List JsonView × Nat × Arena) := do
  let res ← e.conv.DoIntoJson (e.get object) st.2.2
  pure (st.1.set st.2.1 res.1, st.2.1 + 1, res.2)

/-- The function `detail::impl_into`. -/
def impl_into {Tup : Type} (elems : List (TupleElement Tup)) (arr : List JsonView)
    (object : Tup) (ctx : Arena) : Except JsonError (List JsonView × Arena) := do
  let st ← elems.foldlM (impl_intoElement object) (arr, 0, ctx)
  pure (st.1, st.2.2)

/-- The fold `detail::impl_from` for the element `e`: the state is the tuple
and the index `Is`; `source[Is]` is read. -/
def impl_fromElement {Tup : Type} (source : List JsonView) (frame : TraceFrame)
    (st : Tup × Nat) (e : TupleElement Tup) : Except JsonError (Tup × Nat) := do
  let out ← e.conv.DoFromJson (e.get st.1) (source.getD st.2 JsonView.indeterminate)
    (TraceFrame.idx st.2 frame)
  pure (e.set st.1 out, st.2 + 1)

/-- The function `detail::impl_from`; the result is `out` afterwards. -/
def impl_from {Tup : Type} (elems : List (TupleElement Tup)) (source : List JsonView)
    (out : Tup) (frame : TraceFrame) : Except JsonError Tup := do
  let st ← elems.foldlM (impl_fromElement source frame) (out, 0)
  pure st.1

end detail

/-- The overload of `IntoJson` for `std::tuple<Ts...>`.  The block the arena
returns is used as it is, without a test for null. -/
def IntoJsonTuple {Tup : Type} (elems : List (TupleElement Tup)) (value : Tup) (ctx : Arena) :
    Except JsonError (JsonView × Arena) := do
  let count := elems.length
  let got := ctx.alloc (sizeof_JsonView * count) alignof_default
  let arr := List.replicate count JsonView.indeterminate
  let res ← detail.impl_into elems arr value got.2
  pure (JsonView.array 0 res.1, res.2)

/-- The overload of `FromJson` for `std::tuple<Ts...>`; the result is `value`
afterwards. -/
def FromJsonTuple {Tup : Type} (elems : List (TupleElement Tup)) (value : Tup) (json : JsonView)
    (frame : TraceFrame) : Except JsonError Tup := do
  let count := elems.length
  json.AssertType t_array frame
  if json.size ≤ count then
    json.throwIndexError count frame
  else
    detail.impl_from elems json.items value frame

/-- The elements of `std::tuple<int, int>`, modelled by pairs of integers. -/
def intPairElements : List (TupleElement (Int × Int)) :=
  [{ type := Int, get := Prod.fst, set := fun t v => (v, t.2),
     conv := convertIntegral IntType.int32 },
   { type := Int, get := Prod.snd, set := fun t v => (t.1, v),
     conv := convertIntegral IntType.int32 }]

/-- The struct `Point3` with `StructAsTuple` and `SkipMissing` on its field `z`. -/
def Point3.tupleSkipZ : Description Point3 where
  name := ['P', 'o', 'i', 'n', 't', '3']
  fields := [Point3.fieldX, Point3.fieldY, { Point3.fieldZ with attrSkipMissing := true }]
  attrStructAsTuple := true
  attrSkipMissing := false
  classValidator := none

/-- A struct with an integer member and an optional integer member. -/
structure WithOpt where
  a : Int
  b : Option Int
  deriving DecidableEq, Repr

/-- The field `b` of `WithOpt`, of type `std::optional<int>`. -/
def WithOpt.fieldB : Field WithOpt where
  name := ['b']
  type := Option Int
  get := WithOpt.b
  set := fun o v => { o with b := v }
  conv := convertOptional (convertIntegral IntType.int32) 0
  attrRequired := false
  attrSkipMissing := false
  isOptional := true
  fieldIndex := none
  validator := none

/-- The struct `WithOpt` described with `StructAsTuple`. -/
def WithOpt.asTuple : Description WithOpt where
  name := ['W', 'i', 't', 'h', 'O', 'p', 't']
  fields := [plainField ['a'] IntType.int32 WithOpt.a (fun o v => { o with a := v }),
    WithOpt.fieldB]
  attrStructAsTuple := true
  attrSkipMissing := false
  classValidator := none

/-- The members `x` and `y` of `Point3` with `StructAsTuple`, `x` with
`FieldIndex<1>` and `y` with `FieldIndex<0>`. -/
def Point3.swappedTuple : Description Point3 where
  name := ['P', 'o', 'i', 'n', 't', '3']
  fields := [{ Point3.fieldX with fieldIndex := some 1 },
             { Point3.fieldY with fieldIndex := some 0 }]
  attrStructAsTuple := true
  attrSkipMissing := false
  classValidator := none

/-! ## Trace frames in memory -/

/-- Modelled from the spec: the `Key` of key.hpp that a `TraceFrame` holds: a
record-field name or an array index. -/
inductive Key where
  | name (key : string_view)
  | index (idx : Nat)
  deriving DecidableEq, Repr

/-- A `TraceFrame` object: its members `prev`, `next` (addresses of frames,
`none` for the null pointer) and `key`. -/
structure FrameCell where
  prev : Option Nat
  next : Option Nat
  key : Key
  deriving DecidableEq, Repr

/-- The `TraceFrame` objects that exist, by address. -/
abbrev FrameMemory := List FrameCell

/-- The store `frame->next = current`. -/
def FrameMemory.setNext (m : FrameMemory) (frame : Nat) (current : Nat) : FrameMemory :=
  match m[frame]? with
  | some c => m.set frame { c with next := some current }
  | none => m

/-- The loop of `TraceFrame::prepareWalk`, `while(parent)`, for the current
values of `parent` and `current`: the memory and `current` afterwards.  There
is no result when a pointer that is followed is no frame, or when the loop has
not ended after as many rounds as there are frames. -/
def prepareWalkLoop : Nat → FrameMemory → Option Nat → Nat → Option (FrameMemory × Nat)
  | _, m, none, current => some (m, current)
  | 0, _, some _, _ => none
  | fuel + 1, m, some parent, current =>
    match m[parent]? with
    | none => none
    | some c => prepareWalkLoop fuel (m.setNext parent current) c.prev parent

/-- The function `TraceFrame::prepareWalk` called on the frame at `this`: the
memory afterwards and the node returned. -/
def prepareWalk (m : FrameMemory) (this : Nat) : Option (FrameMemory × Option Nat) :=
  match m[this]? with
  | none => none
  | some c =>
    match c.prev with
    | none => some (m, none)
    | some parent =>
      match prepareWalkLoop m.length m (some parent) this with
      | none => none
      | some (m', current) =>
        match m'[current]? with
        | none => none
        | some root => some (m', root.next)

/-- The loop of `TraceFrame::Walk`, `while(node)`, with the visitor `f` acting
on a state. -/
def WalkLoop {σ : Type} (f : σ → Key → σ) : Nat → FrameMemory → Option Nat → σ → Option σ
  | _, _, none, s => some s
  | 0, _, some _, _ => none
  | fuel + 1, m, some node, s =>
    match m[node]? with
    | none => none
    | some c => WalkLoop f fuel m c.next (f s c.key)

/-- The function `TraceFrame::Walk` called on the frame at `this`: the state
of the visitor and the memory afterwards. -/
def Walk {σ : Type} (f : σ → Key → σ) (m : FrameMemory) (this : Nat) (s : σ) :
    Option (σ × FrameMemory) :=
  match prepareWalk m this with
  | none => none
  | some (m', node) =>
    match WalkLoop f m'.length m' node s with
    | none => none
    | some s' => some (s', m')

/-- What the visitor of `TraceFrame::PrintTrace` appends for a key;
`std::to_string(idx)` is the decimal numeral. -/
def renderKey : Key → List Char
  | Key.name key => '.' :: key
  | Key.index idx => ['.', '['] ++ Nat.toDigits 10 idx ++ [']']

/-- The function `TraceFrame::PrintTrace` called on the frame at `this`: the
string returned and the memory afterwards. -/
def PrintTrace (m : FrameMemory) (this : Nat) : Option (List Char × FrameMemory) :=
  Walk (fun result key => result ++ renderKey key) m this []

/-- The frame at address `i` of a chain built from a default-constructed frame
at address 0 by constructing, for each segment in turn, a frame from the
segment and the frame before; `linked` tells from which address on the `next`
members have been set by a walk. -/
def chainCell (segs : List Key) (linked : Nat) (i : Nat) : FrameCell where
  prev := if i = 0 then none else some (i - 1)
  next := if linked ≤ i ∧ i < segs.length then some (i + 1) else none
  key := if i = 0 then Key.index 0 else segs.getD (i - 1) (Key.index 0)

/-- The memory of the chain of `segs`, with `next` set from `linked` on. -/
def chainMemory (segs : List Key) (linked : Nat) : FrameMemory :=
  (List.range (segs.length + 1)).map (chainCell segs linked)

/-- The memory of a chain as it is built: no `next` member is set. -/
def freshChain (segs : List Key) : FrameMemory :=
  chainMemory segs segs.length

/-- The segments of a frame, from the root to the frame. -/
def TraceFrame.segments : TraceFrame → List Key
  | TraceFrame.root => []
  | TraceFrame.idx i prev => prev.segments ++ [Key.index i]
  | TraceFrame.key k prev => prev.segments ++ [Key.name k]

/-! ## Class validators -/

/-- The statements of `FromJson` for a described struct that come before the
class validator: the fields of `out` are populated by the path the encoding
and the sorted flag select; the result is `out` afterwards. -/
def FromJsonStructFields {T : Type} (desc : Description T) (out : T) (json : JsonView)
    (frame : TraceFrame) : Except JsonError T :=
  if desc.attrStructAsTuple then do
    json.AssertType t_array frame
    detail.deserializeAsTuple desc out json frame
  else if json.HasFlag f_sorted then do
    json.AssertType t_object frame
    detail.deserializeFieldsSorted desc out json frame
  else do
    json.AssertType t_object frame
    detail.deserializeFields desc out json frame

/-- The struct `WithId` with a class validator that accepts positive `id`. -/
def WithId.validated : Description WithId where
  name := ['W', 'i', 't', 'h', 'I', 'd']
  fields := [plainField ['i', 'd'] IntType.int32 WithId.id (fun _ v => { id := v })]
  attrStructAsTuple := false
  attrSkipMissing := false
  classValidator := some (fun o => if 0 < o.id then .ok o else .error "id must be positive")

/-! ## Enums -/

/-- The description `describe::Get<T>()` of an enum `T`: its name, its
underlying type, its declared enumerators (name and value, by the underlying
representation) in declaration order, and what its attributes say.  A value
of `T` is its underlying representation. -/
structure EnumDescription where
  name : string_view
  underlying : IntType
  fields : List (string_view × Int)
  /-- Attribute `describe::has_attr_v<EnumAsInteger, T>` -/
  attrEnumAsInteger : Bool
  /-- Attribute `describe::extract_attr_t<EnumFallbackBase, T>`, its `value`, `none` for `void` -/
  fallback : Option Int

/-- Modelled from the spec: the lookup `describe::enum_to_name` in the name
table of the descriptor: the name of the first enumerator with the value. -/
def enum_to_name (desc : EnumDescription) (value : Int) : Option string_view :=
  (desc.fields.find? (fun f => decide (f.2 = value))).map Prod.fst

/-- Modelled from the spec: the lookup `describe::name_to_enum` in the name
table of the descriptor: the value of the first enumerator with the name. -/
def name_to_enum (desc : EnumDescription) (name : string_view) : Option Int :=
  (desc.fields.find? (fun f => decide (f.1 = name))).map Prod.snd

/-- The constructor `JsonView(string_view str)`. -/
def JsonView.ofString (str : string_view) : JsonView :=
  JsonView.scalar 0 (Scalar.string str)

/-- The function `JsonView::GetStringUnsafe`. -/
def JsonView.GetStringUnsafe : JsonView → string_view
  | JsonView.scalar _ (Scalar.string s) => s
  | JsonView.scalar _ (Scalar.discarded s) => s
  | _ => []

/-- The overload of `FromJson` for a string-like `T`; the result is the value
stored to `value`. -/
def FromJsonString (json : JsonView) (frame : TraceFrame) : Except JsonError string_view := do
  json.AssertType t_string frame
  pure json.GetStringUnsafe

/-- The overload of `IntoJson` for a described enum; the arena is not used. -/
def IntoJsonEnum (desc : EnumDescription) (value : Int) (ctx : Arena) :
    Except JsonError (JsonView × Arena) :=
  if desc.attrEnumAsInteger then
    pure (IntoJsonIntegral desc.underlying value, ctx)
  else
    match enum_to_name desc value with
    | some name => pure (JsonView.ofString name, ctx)
    | none =>
      match desc.fallback with
      | none =>
        throw (JsonError.runtime_error
          ("invalid enum value for '" ++ String.mk desc.name ++ "': " ++ toString value))
      | some fallback =>
        match enum_to_name desc fallback with
        | some name => pure (JsonView.ofString name, ctx)
        | none => pure (JsonView.ofString [], ctx)

/-- The overload of `FromJson` for a described enum; the result is the value
stored to `out`. -/
def FromJsonEnum (desc : EnumDescription) (_out : Int) (json : JsonView) (frame : TraceFrame) :
    Except JsonError Int :=
  if desc.attrEnumAsInteger then do
    let asUnder ← FromJsonIntegral desc.underlying json frame
    pure asUnder
  else do
    let name ← FromJsonString json frame
    match name_to_enum desc name with
    | some value => pure value
    | none =>
      match desc.fallback with
      | none =>
        throw (JsonError.ForeignError
          ("invalid string for enum '" ++ String.mk desc.name ++ "': " ++ String.mk name)
          none frame)
      | some fallback => pure fallback

/-- The trait `Convert<T>` for a described enum `T`. -/
def convertEnum (desc : EnumDescription) : Convert Int where
  DoIntoJson := IntoJsonEnum desc
  DoFromJson := FromJsonEnum desc

/-- An enum `Color { RED = 1, GREEN = 2 }` without attributes. -/
def Color.desc : EnumDescription where
  name := ['C', 'o', 'l', 'o', 'r']
  underlying := IntType.int32
  fields := [(['R', 'E', 'D'], 1), (['G', 'R', 'E', 'E', 'N'], 2)]
  attrEnumAsInteger := false
  fallback := none

/-- The enum `Color` with `EnumFallback<RED>`. -/
def Color.withFallback : EnumDescription :=
  { Color.desc with fallback := some 1 }

/-- The enum `Color` with `EnumAsInteger`. -/
def Color.asInteger : EnumDescription :=
  { Color.desc with attrEnumAsInteger := true }

/-! ## Ordered sequences and the depth check -/

/-- The constant `JV_DEFAULT_DEPTH`. -/
def JV_DEFAULT_DEPTH : Nat := 300

/-- The function `DepthError::Check`. -/
def DepthError.Check (depth : Nat) : Except JsonError Unit :=
  if depth = 0 then throw JsonError.DepthError else pure ()

/-- The body of the loop of `FromJson` for a vector-like `T` for the element
`i` of the array: the state is `out` and `count`; `init` is the
value-initialised element that `out.emplace_back()` constructs. -/
def FromJsonVectorElement {E : Type} (conv : Convert E) (init : E) (frame : TraceFrame)
    (st : List E × Nat) (i : JsonView) : Except JsonError (List E × Nat) := do
  let v ← conv.DoFromJson init i (TraceFrame.idx st.2 frame)
  pure (st.1 ++ [v], st.2 + 1)

/-- The overload of `FromJson` for a vector-like `T` with elements `E`; the
result is `out` afterwards. -/
def FromJsonVector {E : Type} (conv : Convert E) (init : E) (_out : List E) (json : JsonView)
    (frame : TraceFrame) : Except JsonError (List E) := do
  json.AssertType t_array frame
  let out : List E := []
  let count := 0
  let st ← json.items.foldlM (FromJsonVectorElement conv init frame) (out, count)
  pure st.1

/-- The body of the loop of `IntoJson` for a vector-like `T` for the element
`v`: the state is the array, `count` and the arena. -/
def IntoJsonVectorElement {E : Type} (conv : Convert E) (st : List JsonView × Nat × Arena)
    (v : E) : Except JsonError (List JsonView × Nat × Arena) := do
  let res ← conv.DoIntoJson v st.2.2
  pure (st.1.set st.2.1 res.1, st.2.1 + 1, res.2)

/-- The overload of `IntoJson` for a vector-like `T` with elements `E`. -/
def IntoJsonVector {E : Type} (conv : Convert E) (value : List E) (ctx : Arena) :
    Except JsonError (JsonView × Arena) := do
  let made ← MakeArrayOf value.length ctx
  let arr := List.replicate value.length JsonView.indeterminate
  let count := 0
  let st ← value.foldlM (IntoJsonVectorElement conv) (arr, count, made.2)
  pure (JsonView.array 0 (st.1.take st.2.1), st.2.2)

/-- The trait `Convert<T>` for a vector-like `T` with elements `E`. -/
def convertVector {E : Type} (conv : Convert E) (init : E) : Convert (List E) where
  DoIntoJson := IntoJsonVector conv
  DoFromJson := FromJsonVector conv init

/-- The type `std::vector<...std::vector<int>...>` with `k + 1` levels. -/
def NestedVector : Nat → Type
  | 0 => List Int
  | k + 1 => List (NestedVector k)

/-- The value-initialised (empty) nested vector. -/
def NestedVector.empty : (k : Nat) → NestedVector k
  | 0 => ([] : List Int)
  | _ + 1 => ([] : List _)

/-- The trait `Convert<T>` for the nested vector type with `k + 1` levels. -/
def convertNested : (k : Nat) → Convert (NestedVector k)
  | 0 => convertVector (convertIntegral IntType.int32) 0
  | k + 1 => convertVector (convertNested k) (NestedVector.empty k)

/-- The nested vector with `k + 1` levels that holds one vector at each level
and nothing at the innermost. -/
def NestedVector.nest : (k : Nat) → NestedVector k
  | 0 => ([] : List Int)
  | k + 1 => ([NestedVector.nest k] : List _)

/-- The array cell nested `k + 1` levels deep: `[]`, `[[]]`, `[[[]]]`, ... -/
def nestedArray : Nat → JsonView
  | 0 => JsonView.array 0 []
  | k + 1 => JsonView.array 0 [nestedArray k]

/-! ## Floating destinations, sizes, sets of kinds -/

/-- A value of a floating type `T` as `FromJson` stores it: the conversion
`static_cast<T>` of the payload it is taken from.  The rounding of the
conversion is not interpreted. -/
inductive FloatValue where
  | ofInteger (i : Int)
  | ofUinteger (u : Nat)
  | ofNumber (bits : Nat)
  deriving DecidableEq, Repr

/-- The overload of `FromJson` for a floating `T`; the result is the value
stored to `value`. -/
def FromJsonFloating (json : JsonView) (frame : TraceFrame) : Except JsonError FloatValue :=
  match json with
  | JsonView.scalar _ (Scalar.integer i) => pure (FloatValue.ofInteger i)
  | JsonView.scalar _ (Scalar.uinteger u) => pure (FloatValue.ofUinteger u)
  | JsonView.scalar _ (Scalar.number d) => pure (FloatValue.ofNumber d)
  | _ => json.throwMissmatch (t_signed ||| t_unsigned ||| t_number) frame

/-- The function `JsonView::Size`; `AssertType` is called with its default frame. -/
def JsonView.Size (j : JsonView) : Except JsonError Nat := do
  let sized := t_array ||| t_object ||| t_string ||| t_binary
  j.AssertType sized TraceFrame.root
  pure j.size

/-- The kinds of a cell: the values `data.type` takes, which are the
enumerators that `PrintType` names. -/
def kinds : List Type_ :=
  [t_null, t_binary, t_boolean, t_number, t_string, t_signed, t_unsigned, t_array, t_object,
    t_discarded, t_custom]

/-- The value of type `Type` that stands for a set of kinds: `a | b | ...`. -/
def kindMask : List Type_ → Type_
  | [] => 0
  | w :: rest => w ||| kindMask rest

/-! ## Copying strings -/

/-- The constant `alignof(char)`. -/
def alignof_char : Nat := 1

/-- The function `CopyString`: the view returned (the bytes `memcpy` wrote to
the block, with the size of `src`) and the arena afterwards. -/
def CopyString (src : string_view) (alloc : Arena) : Except JsonError (string_view × Arena) :=
  if src.isEmpty then pure ([], alloc)
  else
    let ptr := alloc.alloc src.length alignof_char
    if !ptr.1 then throw JsonError.bad_alloc
    else pure (src, ptr.2)

/-- Modelled from the spec: the degenerate null arena, which fails every
request. -/
def Arena.null : Arena where
  grants := fun _ => false
  log := []

/-! ## Field validators -/

/-- The field `id` of `WithId` with `SkipMissing` and a field validator that
accepts positive values. -/
def WithId.fieldChecked : Field WithId where
  name := ['i', 'd']
  type := Int
  get := WithId.id
  set := fun _ v => { id := v }
  conv := convertIntegral IntType.int32
  attrRequired := false
  attrSkipMissing := true
  isOptional := false
  fieldIndex := none
  validator := some (fun v => if 0 < v then .ok v else .error "id must be positive")

/-- The struct `WithId` described with the field `id` above, object-encoded. -/
def WithId.checked : Description WithId where
  name := ['W', 'i', 't', 'h', 'I', 'd']
  fields := [WithId.fieldChecked]
  attrStructAsTuple := false
  attrSkipMissing := false
  classValidator := none

/-- The struct `WithOpt` with `StructAsTuple`, its optional field `b` with a
field validator that accepts engaged optionals. -/
def WithOpt.checkedTuple : Description WithOpt where
  name := ['W', 'i', 't', 'h', 'O', 'p', 't']
  fields := [plainField ['a'] IntType.int32 WithOpt.a (fun o v => { o with a := v }),
    { WithOpt.fieldB with
      validator := some (fun (v : Option Int) =>
        if v.isSome then .ok v else .error "b must hold a value") }]
  attrStructAsTuple := true
  attrSkipMissing := false
  classValidator := none

/-! ## Slots of the tuple encoding -/

namespace detail

/-- The slot `idx` of the store `arr[idx] = ...` in the loop of
`detail::serializeAsTuple` for the field `f` when `count` fields came before
it: `manual ? manual : count`. -/
def serializeAsTupleSlot {T : Type} (f : Field T) (count : Nat) : Nat :=
  let manual := getIdxFor f
  if manual ≠ 0 then manual else count

/-- The slots the loop of `detail::serializeAsTuple` stores to, in the order of
the fields, the first of them with `count` fields before it. -/
def serializeAsTupleSlotsFrom {T : Type} : Nat → List (Field T) → List Nat
  | _, [] => []
  | count, f :: rest => serializeAsTupleSlot f count :: serializeAsTupleSlotsFrom (count + 1) rest

/-- The slots `detail::serializeAsTuple` stores to, in the order of the fields. -/
def serializeAsTupleSlots {T : Type} (desc : Description T) : List Nat :=
  serializeAsTupleSlotsFrom 0 desc.fields

end detail

/-- A struct of two fields with `StructAsTuple`, the second with `FieldIndex<2>`. -/
def Point3.indexTwoTuple : Description Point3 where
  name := ['P', 'o', 'i', 'n', 't', '3']
  fields := [Point3.fieldX, { Point3.fieldY with fieldIndex := some 2 }]
  attrStructAsTuple := true
  attrSkipMissing := false
  classValidator := none

end jv

/-! ## The request-scoped store -/

namespace rpcxx

/-- Modelled from the spec: the key-value store of a `Context`, its member
`data` (declared in context.hpp): an associative container of the standard
library from names to `std::any` values with at most one entry for a name.
The container is given by the value `find` reaches for each name, `none` when
`find` returns `end()`.  `Any` stands for `std::any`, and `default` for the
value-initialised one, which holds nothing. -/
structure Context (Any : Type) where
  data : List Char → Option Any

/-- A reference or non-null pointer to the mapped value of an entry of `data`:
the name of the entry.  The container holds one entry for a name and does not
move it. -/
abbrev SlotRef := List Char

namespace Context

/-- The constructor `Context::Context()`: `data` is empty. -/
def construct {Any : Type} : rpcxx.Context Any where
  data := fun _ => none

/-- The function `Context::CloneFrom`: the context afterwards. -/
def CloneFrom {Any : Type} (_this other : rpcxx.Context Any) : rpcxx.Context Any where
  data := other.data

/-- The call `data[string{name}]`: the reference to the entry of the name,
which is inserted with a value-initialised value when there is none, and the
container afterwards. -/
def dataIndex {Any : Type} [Inhabited Any] (data : List Char → Option Any) (name : List Char) :
    SlotRef × (List Char → Option Any) :=
  match data name with
  | some _ => (name, data)
  | none => (name, fun k => if k = name then some default else data k)

/-- The function `Context::SetValue`: the reference returned and the context
afterwards. -/
def SetValue {Any : Type} [Inhabited Any] (this : rpcxx.Context Any) (name : List Char) :
    SlotRef × rpcxx.Context Any :=
  match this.data name with
  | some _ => (name, this)
  | none =>
    let r := dataIndex this.data name
    (r.1, { data := r.2 })

/-- The function `Context::Value`: the pointer returned, `none` for the null
pointer, and the context afterwards. -/
def Value {Any : Type} (this : rpcxx.Context Any) (name : List Char) :
    Option SlotRef × rpcxx.Context Any :=
  match this.data name with
  | some _ => (some name, this)
  | none => (none, this)

end Context

/-- A call of a member function on a `Context`. -/
inductive ContextCall (Any : Type) where
  | SetValue (name : List Char)
  | Value (name : List Char)
  | CloneFrom (other : Context Any)

/-- The context after a call. -/
def Context.after {Any : Type} [Inhabited Any] (this : Context Any) :
    ContextCall Any → Context Any
  | ContextCall.SetValue name => (this.SetValue name).2
  | ContextCall.Value name => (this.Value name).2
  | ContextCall.CloneFrom other => this.CloneFrom other

/-- The context after a sequence of calls on a newly constructed context. -/
def Context.run {Any : Type} [Inhabited Any] (calls : List (ContextCall Any)) : Context Any :=
  calls.foldl Context.after Context.construct

end rpcxx

namespace jv

/-! # Theorems -/

/-! ## Lookup -/

theorem keysAscending_lt {V : Type} {object : List (JsonPair V)} (h : keysAscending object)
    {i j : Nat} {p q : JsonPair V} (hi : object[i]? = some p) (hj : object[j]? = some q)
    (hij : i < j) : p.key < q.key := by
  unfold keysAscending at h
  rw [List.pairwise_map, List.pairwise_iff_getElem] at h
  obtain ⟨hi', rfl⟩ := List.getElem?_eq_some.mp hi
  obtain ⟨hj', rfl⟩ := List.getElem?_eq_some.mp hj
  exact h i j hi' hj' hij

/-- Whatever `sortedFind` returns is an entry of the window with the key asked for. -/
theorem sortedFindLoop_sound {V : Type} (object : List (JsonPair V)) (key : string_view) :
    ∀ (len first : Nat) (r : EntryPtr V), detail.sortedFindLoop object key first len = some r →
      object[r.1]? = some r.2 ∧ r.2.key = key ∧ first ≤ r.1 ∧ r.1 < first + len := by
  intro len
  induction len using Nat.strong_induction_on with
  | _ len ih =>
    intro first r h
    rw [detail.sortedFindLoop] at h
    split at h
    · rename_i hpos
      have hhalf : len >>> 1 = len / 2 := by rw [Nat.shiftRight_eq_div_pow]
      simp only [hhalf] at h
      split at h
      · exact absurd h (by simp)
      · rename_i m hm
        split at h
        · have := ih (len - len / 2 - 1) (by omega) _ _ h
          refine ⟨this.1, this.2.1, ?_, ?_⟩ <;> omega
        · split at h
          · rename_i heq
            cases h
            exact ⟨hm, heq, by simp, by simp; omega⟩
          · have := ih (len / 2) (by omega) _ _ h
            refine ⟨this.1, this.2.1, ?_, ?_⟩ <;> omega
    · exact absurd h (by simp)

/-- On ascending keys the binary search reaches every entry of its window. -/
theorem sortedFindLoop_complete {V : Type} (object : List (JsonPair V)) (key : string_view)
    (hs : keysAscending object) (i : Nat) (p : JsonPair V) (hp : object[i]? = some p)
    (hk : p.key = key) :
    ∀ (len first : Nat), first ≤ i → i < first + len → first + len ≤ object.length →
      detail.sortedFindLoop object key first len = some (i, p) := by
  intro len
  induction len using Nat.strong_induction_on with
  | _ len ih =>
    intro first h1 h2 h3
    rw [detail.sortedFindLoop]
    have hpos : len > 0 := by omega
    have hhalf : len >>> 1 = len / 2 := by rw [Nat.shiftRight_eq_div_pow]
    simp only [hpos, if_true, hhalf]
    have hlt : first + len / 2 < object.length := by omega
    obtain ⟨m, hm⟩ : ∃ m, object[first + len / 2]? = some m :=
      ⟨object[first + len / 2], List.getElem?_eq_getElem hlt⟩
    rw [hm]
    simp only
    rcases Nat.lt_trichotomy (first + len / 2) i with hlt' | heq | hgt
    · have hmk : m.key < key := hk ▸ keysAscending_lt hs hm hp hlt'
      rw [if_pos hmk]
      exact ih _ (by omega) _ (by omega) (by omega) (by omega)
    · subst heq
      rw [hp] at hm
      cases hm
      rw [if_neg (by rw [hk]; exact lt_irrefl _), if_pos hk]
    · have hmk : key < m.key := hk ▸ keysAscending_lt hs hp hm hgt
      rw [if_neg (lt_asymm hmk), if_neg (ne_of_gt hmk)]
      exact ih _ (by omega) _ (by omega) (by omega) (by omega)

theorem sortedFind_of_getElem {V : Type} (object : List (JsonPair V)) (key : string_view)
    (hs : keysAscending object) (i : Nat) (p : JsonPair V) (hp : object[i]? = some p)
    (hk : p.key = key) : detail.sortedFind object object.length key = some (i, p) := by
  have hi : i < object.length := (List.getElem?_eq_some.mp hp).1
  exact sortedFindLoop_complete object key hs i p hp hk _ 0 (Nat.zero_le _) (by omega) (by omega)

theorem sortedFind_of_absent {V : Type} (object : List (JsonPair V)) (len : Nat)
    (key : string_view) (ha : ∀ p ∈ object, p.key ≠ key) :
    detail.sortedFind object len key = none := by
  cases h : detail.sortedFind object len key with
  | none => rfl
  | some r =>
    have := sortedFindLoop_sound object key len 0 r h
    exact absurd this.2.1 (ha _ (List.getElem?_mem this.1))

theorem linearFind_some {V : Type} (object : List (JsonPair V)) (key : string_view) :
    ∀ (off : Nat) (r : EntryPtr V), detail.linearFind object key off = some r →
      off ≤ r.1 ∧ object[r.1 - off]? = some r.2 ∧ r.2.key = key := by
  induction object with
  | nil => intro off r h; simp [detail.linearFind] at h
  | cons p rest ih =>
    intro off r h
    rw [detail.linearFind] at h
    split at h
    · rename_i hk
      cases h
      simp [hk]
    · obtain ⟨h1, h2, h3⟩ := ih _ _ h
      refine ⟨by omega, ?_, h3⟩
      have : r.1 - off = (r.1 - (off + 1)) + 1 := by omega
      rw [this, List.getElem?_cons_succ]
      exact h2

theorem linearFind_none {V : Type} (object : List (JsonPair V)) (key : string_view) :
    ∀ (off : Nat), detail.linearFind object key off = none → ∀ p ∈ object, p.key ≠ key := by
  induction object with
  | nil => intro off _ p hp; simp at hp
  | cons q rest ih =>
    intro off h p hp
    rw [detail.linearFind] at h
    split at h
    · simp at h
    · rename_i hk
      rcases List.mem_cons.mp hp with rfl | hp
      · exact hk
      · exact ih _ h p hp

/-- On ascending keys the binary search and the linear scan return the same pointer. -/
theorem sortedFind_eq_linearFind {V : Type} (object : List (JsonPair V)) (key : string_view)
    (hs : keysAscending object) :
    detail.sortedFind object object.length key = detail.linearFind object key 0 := by
  cases h : detail.linearFind object key 0 with
  | none => exact sortedFind_of_absent object _ key (linearFind_none object key 0 h)
  | some r =>
    obtain ⟨_, h2, h3⟩ := linearFind_some object key 0 r h
    exact sortedFind_of_getElem object key hs r.1 r.2 h2 h3

theorem AssertType_object (flags : Flags) (entries : List (JsonPair JsonView))
    (frame : TraceFrame) :
    (JsonView.object flags entries).AssertType t_object frame = .ok () := by
  simp [JsonView.AssertType, JsonView.Is, JsonView.GetType, t_object]
  rfl

theorem Find_object (flags : Flags) (entries : List (JsonPair JsonView)) (key : string_view)
    (frame : TraceFrame) (hs : keysAscending entries) :
    (JsonView.object flags entries).Find key frame = .ok (detail.linearFind entries key 0) := by
  unfold JsonView.Find
  rw [AssertType_object]
  show (if (JsonView.object flags entries).HasFlag f_sorted = true then _ else _) = _
  split
  · rw [sortedFind_eq_linearFind entries key hs]; rfl
  · rfl

/-- C3: for an array of entries with strictly ascending keys (of any length)
and every key, `sortedFind` returns the pointer to the entry with that key if
there is one, and the null pointer if there is none. -/
theorem sortedFind_correct {V : Type} (object : List (JsonPair V)) (key : string_view)
    (hs : keysAscending object) :
    (∀ (i : Nat) (p : JsonPair V), object[i]? = some p → p.key = key →
        detail.sortedFind object object.length key = some (i, p)) ∧
    ((∀ p ∈ object, p.key ≠ key) → detail.sortedFind object object.length key = none) :=
  ⟨fun i p hp hk => sortedFind_of_getElem object key hs i p hp hk,
   fun ha => sortedFind_of_absent object _ key ha⟩

theorem sortedFind_correct_witness :
    detail.sortedFind [⟨['a'], 1⟩, ⟨['b'], 2⟩, ⟨['c'], 3⟩] 3 ['c'] = some (2, ⟨['c'], 3⟩) ∧
    detail.sortedFind [⟨['a'], 1⟩, ⟨['b'], 2⟩, ⟨['c'], 3⟩] 3 ['b', 'b'] = none ∧
    detail.sortedFind ([] : List (JsonPair Nat)) 0 ['a'] = none :=
  ⟨(sortedFind_correct [⟨['a'], 1⟩, ⟨['b'], 2⟩, ⟨['c'], 3⟩] ['c'] (by decide)).1 2 _ rfl rfl,
   (sortedFind_correct [⟨['a'], 1⟩, ⟨['b'], 2⟩, ⟨['c'], 3⟩] ['b', 'b'] (by decide)).2 (by decide),
   (sortedFind_correct [] ['a'] (by decide)).2 (by decide)⟩

/-- C4: for an object cell whose entries have strictly ascending keys and for
every key, `Find` returns the same pointer (or null) when the cell carries the
sorted flag, where it searches by bisection, as when it does not, where it
scans the entries in order. -/
theorem Find_sorted_flag_irrelevant (fs fu : Flags) (entries : List (JsonPair JsonView))
    (key : string_view) (frame : TraceFrame) (hs : keysAscending entries)
    (hfs : (JsonView.object fs entries).HasFlag f_sorted = true)
    (hfu : (JsonView.object fu entries).HasFlag f_sorted = false) :
    (JsonView.object fs entries).Find key frame = (JsonView.object fu entries).Find key frame ∧
    (JsonView.object fs entries).Find key frame
      = .ok (detail.sortedFind entries entries.length key) ∧
    (JsonView.object fu entries).Find key frame = .ok (detail.linearFind entries key 0) := by
  have h1 : (JsonView.object fs entries).Find key frame
      = .ok (detail.sortedFind entries entries.length key) := by
    unfold JsonView.Find
    rw [AssertType_object]
    show (if (JsonView.object fs entries).HasFlag f_sorted = true then _ else _) = _
    rw [if_pos hfs]; rfl
  have h2 : (JsonView.object fu entries).Find key frame
      = .ok (detail.linearFind entries key 0) := by
    unfold JsonView.Find
    rw [AssertType_object]
    show (if (JsonView.object fu entries).HasFlag f_sorted = true then _ else _) = _
    rw [if_neg (by simp [hfu])]; rfl
  exact ⟨by rw [h1, h2, sortedFind_eq_linearFind entries key hs], h1, h2⟩

theorem Find_sorted_flag_irrelevant_witness :
    (JsonView.object f_sorted [⟨['a'], .ofSigned 1⟩, ⟨['b'], .ofSigned 2⟩]).Find ['b'] .root
      = (JsonView.object 0 [⟨['a'], .ofSigned 1⟩, ⟨['b'], .ofSigned 2⟩]).Find ['b'] .root :=
  (Find_sorted_flag_irrelevant f_sorted 0 [⟨['a'], .ofSigned 1⟩, ⟨['b'], .ofSigned 2⟩] ['b']
    .root (by decide) (by decide) (by decide)).1

/-! ## Integer narrowing -/

section
open IntType detail

theorem intChecked_eq (To FromT : IntType) (j : JsonView) (v : Int) (frame : TraceFrame)
    (hF : FromT = int64 ∨ FromT = uint64)
    (hT : To.bits = 8 ∨ To.bits = 16 ∨ To.bits = 32 ∨ To.bits = 64)
    (hv : FromT.min ≤ v ∧ v ≤ FromT.max) :
    intChecked To FromT j v frame =
      if To.min ≤ v ∧ v ≤ To.max then .ok v else j.throwIntRangeError To.min To.max frame := by
  obtain ⟨s, b⟩ := To
  simp only at hT
  rcases hF with rfl | rfl <;> rcases hT with rfl | rfl | rfl | rfl <;> cases s <;>
    simp [intChecked, is_lossless, same_sign, IntType.lt, common, promote, IntType.cast,
      IntType.min, IntType.max, int64, uint64, int32, JsonView.throwIntRangeError] at hv ⊢ <;>
    first
    | omega
    | (split_ifs <;>
        first | rfl | omega | (show Except.ok _ = Except.ok _; congr 1; omega))

theorem throwIntRangeError_eq {α : Type} (j : JsonView) (mn mx : Int) (frame : TraceFrame) :
    ∃ (u : Bool) (w : Int),
      (j.throwIntRangeError mn mx frame : Except JsonError α)
        = .error (JsonError.IntRangeError u w mn mx frame) := by
  unfold JsonView.throwIntRangeError
  split
  · exact ⟨_, _, rfl⟩
  · exact ⟨_, _, rfl⟩
  · exact ⟨_, _, rfl⟩

/-- C2: for a source value held as a 64-bit signed or unsigned integer and a
destination type of 8, 16, 32 or 64 bits, signed or unsigned, `intChecked`
succeeds exactly when the value lies between the destination's minimum and
maximum, the result is then the value itself, and otherwise it raises
IntRangeError with exactly the destination's minimum and maximum. -/
theorem intChecked_in_range_iff (To FromT : IntType) (j : JsonView) (v : Int)
    (frame : TraceFrame) (hF : FromT = int64 ∨ FromT = uint64)
    (hT : To.bits = 8 ∨ To.bits = 16 ∨ To.bits = 32 ∨ To.bits = 64)
    (hv : FromT.min ≤ v ∧ v ≤ FromT.max) :
    ((∃ r, intChecked To FromT j v frame = .ok r) ↔ (To.min ≤ v ∧ v ≤ To.max)) ∧
    (∀ r, intChecked To FromT j v frame = .ok r → r = v) ∧
    (¬(To.min ≤ v ∧ v ≤ To.max) →
      intChecked To FromT j v frame = j.throwIntRangeError To.min To.max frame ∧
      ∃ (u : Bool) (w : Int), intChecked To FromT j v frame
        = .error (JsonError.IntRangeError u w To.min To.max frame)) := by
  have h := intChecked_eq To FromT j v frame hF hT hv
  obtain ⟨u, w, hu⟩ := throwIntRangeError_eq (α := Int) j To.min To.max frame
  by_cases hr : To.min ≤ v ∧ v ≤ To.max
  · rw [if_pos hr] at h
    refine ⟨⟨fun _ => hr, fun _ => ⟨v, h⟩⟩, ?_, fun hn => absurd hr hn⟩
    intro r hr'
    rw [h] at hr'
    cases hr'
    rfl
  · rw [if_neg hr] at h
    refine ⟨⟨?_, fun h' => absurd h' hr⟩, ?_, fun _ => ⟨h, u, w, by rw [h, hu]⟩⟩
    · rintro ⟨r, hr'⟩
      rw [h, hu] at hr'
      cases hr'
    · intro r hr'
      rw [h, hu] at hr'
      cases hr'

theorem intChecked_in_range_iff_witness :
    intChecked uint8 uint64 (JsonView.ofUnsigned 300) 300 TraceFrame.root
      = .error (JsonError.IntRangeError true 300 0 255 TraceFrame.root) :=
  ((intChecked_in_range_iff uint8 uint64 (JsonView.ofUnsigned 300) 300 TraceFrame.root
    (Or.inr rfl) (Or.inl rfl) (by decide)).2.2 (by decide)).1


end

open detail

/-! ## Required fields -/

/-- C8 (refuted as stated): a field that carries `Required` inside a class that
carries `SkipMissing` is required, although the enclosing record is marked
skip-missing. -/
theorem isRequired_not_only_skip :
    ¬ (isRequired Point3.skipMissing { Point3.fieldX with attrRequired := true } = false ↔
        (({ Point3.fieldX with attrRequired := true } : Field Point3).isOptional = true ∨
         ({ Point3.fieldX with attrRequired := true } : Field Point3).attrSkipMissing = true ∨
         Point3.skipMissing.attrSkipMissing = true)) := by
  decide

/-- C8 (amended): `isRequired` is false exactly when the field does not carry
the `Required` attribute and its type is optional-of-T, or the field carries
`SkipMissing`, or the enclosing class carries `SkipMissing`; otherwise true. -/
theorem isRequired_false_iff {Cls : Type} (cls : Description Cls) (F : Field Cls) :
    isRequired cls F = false ↔
      (F.attrRequired = false ∧
        (F.isOptional = true ∨ F.attrSkipMissing = true ∨ cls.attrSkipMissing = true)) := by
  unfold isRequired
  cases F.attrRequired <;> cases F.isOptional <;> cases F.attrSkipMissing <;>
    cases cls.attrSkipMissing <;> simp

/-! ## Tuple encoding -/

/-- C9 (the code at the failing input): for two fields of which the first
carries `FieldIndex<5>`, `maxIdxFor` is 5, not `max 2 (1 + 5) = 6`, and
`serializeAsTuple` returns an array of 5 slots. -/
theorem maxIdxFor_sparse :
    maxIdxFor Point3.sparseTuple = 5 ∧
    Point3.sparseTuple.fields.length = 2 ∧
    Point3.sparseTuple.fields.map getIdxFor = [5, 0] ∧
    (serializeAsTuple Point3.sparseTuple ⟨1, 2, 3⟩ Arena.unbounded).map (fun r => r.1.size)
      = .ok 5 := by
  decide

theorem ok_bind {ε α β : Type} (a : α) (f : α → Except ε β) :
    (Except.ok a >>= f) = f a := rfl

theorem error_bind {ε α β : Type} (e : ε) (f : α → Except ε β) :
    ((Except.error e : Except ε α) >>= f) = Except.error e := rfl

theorem throw_eq {ε α : Type} (e : ε) : (throw e : Except ε α) = Except.error e := rfl

theorem pure_eq {ε α : Type} (a : α) : (pure a : Except ε α) = Except.ok a := rfl

theorem bind_eq_ok {ε α β : Type} (x : Except ε α) (f : α → Except ε β) (b : β) :
    (x >>= f) = .ok b ↔ ∃ a, x = .ok a ∧ f a = .ok b := by
  cases x with
  | error e => simp [bind, Except.bind]
  | ok a => simp [bind, Except.bind]

theorem deserializeAsTupleField_count {T : Type} (desc : Description T) (arr : List JsonView)
    (sz : Nat) (frame : TraceFrame) (fs : List (Field T)) :
    ∀ (st st' : T × Nat),
      fs.foldlM (deserializeAsTupleField desc arr sz frame) st = .ok st' →
      st'.2 = st.2 + fs.length := by
  induction fs with
  | nil =>
    intro st st' h
    simp only [List.foldlM_nil] at h
    cases h
    simp
  | cons f rest ih =>
    intro st st' h
    rw [List.foldlM_cons] at h
    cases hstep : deserializeAsTupleField desc arr sz frame st f with
    | error e => rw [hstep] at h; cases h
    | ok st1 =>
      rw [hstep] at h
      change rest.foldlM (deserializeAsTupleField desc arr sz frame) st1 = .ok st' at h
      have h1 := ih st1 st' h
      have h2 : st1.2 = st.2 + 1 := by
        simp only [deserializeAsTupleField, bind_eq_ok] at hstep
        obtain ⟨src, _, out, _, out', _, hret⟩ := hstep
        cases hret
        rfl
      simp only [List.length_cons]
      omega

/-- C10: in `deserializeAsTuple`, when the fields before a required field `f`
have been deserialized successfully and the index of `f` (its explicit index,
or else its position) is not below the size `sz` of the source array, the call
raises IndexError with `wanted` that index and `actualSize = sz`. -/
theorem deserializeAsTuple_IndexError {T : Type} (desc : Description T) (obj : T)
    (json : JsonView) (frame : TraceFrame) (pre post : List (Field T)) (f : Field T)
    (st : T × Nat)
    (hfields : desc.fields = pre ++ f :: post)
    (hpre : pre.foldlM (deserializeAsTupleField desc json.items json.size frame) (obj, 0)
      = .ok st)
    (hreq : isRequired desc f = true)
    (hidx : json.size ≤ f.fieldIndex.getD pre.length) :
    deserializeAsTuple desc obj json frame
      = .error (JsonError.IndexError (f.fieldIndex.getD pre.length) json.size frame) := by
  have hcount := deserializeAsTupleField_count desc json.items json.size frame pre _ _ hpre
  simp only [Nat.zero_add] at hcount
  have hidx' : (match f.fieldIndex with
      | some value => value
      | none => st.2) = f.fieldIndex.getD pre.length := by
    cases f.fieldIndex <;> simp [hcount]
  simp only [deserializeAsTuple, hfields, List.foldlM_append, hpre, ok_bind]
  simp only [List.foldlM_cons, deserializeAsTupleField, hidx', tupleGet, hidx, hreq, if_true,
    throw_eq, error_bind]

theorem deserializeAsTuple_IndexError_witness :
    deserializeAsTuple Point3.asTuple ⟨0, 0, 0⟩
        (JsonView.array 0 [JsonView.ofSigned 1, JsonView.ofSigned 2]) TraceFrame.root
      = .error (JsonError.IndexError 2 2 TraceFrame.root) :=
  deserializeAsTuple_IndexError Point3.asTuple ⟨0, 0, 0⟩
    (JsonView.array 0 [JsonView.ofSigned 1, JsonView.ofSigned 2]) TraceFrame.root
    [Point3.fieldX, Point3.fieldY] [] Point3.fieldZ (⟨1, 2, 0⟩, 2) rfl (by decide) (by decide)
    (by decide)

/-! ## Object encoding, input not flagged sorted -/

/-- C6 (the code at the failing input): deserializing the empty object, not
flagged sorted, into a record with the single required field `id` raises
nothing and leaves the record as it was; `prepFields` returns helpers none of
which is marked required. -/
theorem deserializeFields_empty_object :
    isRequired WithId.desc (plainField ['i', 'd'] IntType.int32 WithId.id
      (fun _ v => { id := v })) = true ∧
    prepFields WithId.desc = [{ name := [], hit := false, required := false }] ∧
    deserializeFields WithId.desc ⟨7⟩ (JsonView.object 0 []) TraceFrame.root = .ok ⟨7⟩ ∧
    FromJsonStruct WithId.desc ⟨7⟩ (JsonView.object 0 []) TraceFrame.root = .ok ⟨7⟩ := by
  decide

/-! ## Object encoding, input flagged sorted -/

theorem linearFind_of_mem (entries : List (JsonPair JsonView)) (key : string_view)
    (c : JsonView) (hs : keysAscending entries) (hmem : ⟨key, c⟩ ∈ entries) :
    ∃ i, linearFind entries key 0 = some (i, ⟨key, c⟩) := by
  obtain ⟨i, hi⟩ := List.mem_iff_getElem?.mp hmem
  exact ⟨i, by rw [← sortedFind_eq_linearFind entries key hs,
    sortedFind_of_getElem entries key hs i _ hi rfl]⟩

theorem linearFind_of_absent (entries : List (JsonPair JsonView)) (key : string_view)
    (ha : ∀ p ∈ entries, p.key ≠ key) : linearFind entries key 0 = none := by
  cases h : linearFind entries key 0 with
  | none => rfl
  | some r =>
    obtain ⟨_, h2, h3⟩ := linearFind_some entries key 0 r h
    exact absurd h3 (ha _ (List.getElem?_mem h2))

theorem At_present (flags : Flags) (entries : List (JsonPair JsonView)) (key : string_view)
    (c : JsonView) (frame : TraceFrame) (hs : keysAscending entries)
    (hmem : ⟨key, c⟩ ∈ entries) :
    (JsonView.object flags entries).At key frame = .ok c := by
  obtain ⟨i, hi⟩ := linearFind_of_mem entries key c hs hmem
  simp only [JsonView.At, Find_object flags entries key frame hs, hi, ok_bind]
  rfl

theorem At_absent (flags : Flags) (entries : List (JsonPair JsonView)) (key : string_view)
    (frame : TraceFrame) (hs : keysAscending entries) (ha : ∀ p ∈ entries, p.key ≠ key) :
    (JsonView.object flags entries).At key frame = .error (JsonError.KeyError key frame) := by
  simp only [JsonView.At, Find_object flags entries key frame hs,
    linearFind_of_absent entries key ha, ok_bind]
  rfl

theorem FindVal_present (flags : Flags) (entries : List (JsonPair JsonView))
    (key : string_view) (c : JsonView) (frame : TraceFrame) (hs : keysAscending entries)
    (hmem : ⟨key, c⟩ ∈ entries) :
    (JsonView.object flags entries).FindVal key frame = .ok (some c) := by
  obtain ⟨i, hi⟩ := linearFind_of_mem entries key c hs hmem
  simp only [JsonView.FindVal, Find_object flags entries key frame hs, hi, ok_bind]
  rfl

theorem FindVal_absent (flags : Flags) (entries : List (JsonPair JsonView))
    (key : string_view) (frame : TraceFrame) (hs : keysAscending entries)
    (ha : ∀ p ∈ entries, p.key ≠ key) :
    (JsonView.object flags entries).FindVal key frame = .ok none := by
  simp only [JsonView.FindVal, Find_object flags entries key frame hs,
    linearFind_of_absent entries key ha, ok_bind]
  rfl

/-- The step of the sorted path for a field whose name is a key of the input. -/
theorem sortedField_present {T : Type} (desc : Description T) (flags : Flags)
    (entries : List (JsonPair JsonView)) (frame : TraceFrame) (o : T) (f : Field T)
    (c : JsonView) (hs : keysAscending entries) (hmem : ⟨f.name, c⟩ ∈ entries)
    (hval : f.validator = none) :
    deserializeFieldsSortedField desc (JsonView.object flags entries) frame o f
      = (f.conv.DoFromJson (f.get o) c (TraceFrame.key f.name frame)) >>=
          fun out => .ok (f.set o out) := by
  unfold deserializeFieldsSortedField
  cases hreq : isRequired desc f
  · simp only [FindVal_present flags entries f.name c frame hs hmem, ok_bind, hval,
      runValidator, Bool.false_eq_true, if_false]
    cases f.conv.DoFromJson (f.get o) c (TraceFrame.key f.name frame) <;> rfl
  · simp only [At_present flags entries f.name c frame hs hmem, ok_bind, hval,
      runValidator, if_true]
    cases f.conv.DoFromJson (f.get o) c (TraceFrame.key f.name frame) <;> rfl

/-- The step of the sorted path for a required field whose name is no key of the input. -/
theorem sortedField_required_absent {T : Type} (desc : Description T) (flags : Flags)
    (entries : List (JsonPair JsonView)) (frame : TraceFrame) (o : T) (f : Field T)
    (hs : keysAscending entries) (ha : ∀ p ∈ entries, p.key ≠ f.name)
    (hreq : isRequired desc f = true) :
    deserializeFieldsSortedField desc (JsonView.object flags entries) frame o f
      = .error (JsonError.KeyError f.name frame) := by
  unfold deserializeFieldsSortedField
  simp only [hreq, if_true, At_absent flags entries f.name frame hs ha, error_bind]

/-- The step of the sorted path for a non-required field whose name is no key of the input. -/
theorem sortedField_optional_absent {T : Type} (desc : Description T) (flags : Flags)
    (entries : List (JsonPair JsonView)) (frame : TraceFrame) (o : T) (f : Field T)
    (hs : keysAscending entries) (ha : ∀ p ∈ entries, p.key ≠ f.name)
    (hreq : isRequired desc f = false) (hval : f.validator = none) :
    deserializeFieldsSortedField desc (JsonView.object flags entries) frame o f
      = .ok (f.set o (f.get o)) := by
  unfold deserializeFieldsSortedField
  simp only [hreq, Bool.false_eq_true, if_false,
    FindVal_absent flags entries f.name frame hs ha, ok_bind, hval, runValidator]
  rfl

/-- A successful step of the sorted path is a store to the field it is for. -/
theorem sortedField_shape {T : Type} (desc : Description T) (json : JsonView)
    (frame : TraceFrame) (o o' : T) (f : Field T)
    (h : deserializeFieldsSortedField desc json frame o f = .ok o') :
    ∃ out, o' = f.set o out := by
  unfold deserializeFieldsSortedField at h
  cases hreq : isRequired desc f
  · simp only [hreq, Bool.false_eq_true, if_false, bind_eq_ok] at h
    obtain ⟨r, _, h⟩ := h
    cases r with
    | none =>
      simp only [bind_eq_ok] at h
      obtain ⟨_, _, out, _, hret⟩ := h
      cases hret
      exact ⟨out, rfl⟩
    | some c =>
      simp only [bind_eq_ok] at h
      obtain ⟨_, _, out, _, hret⟩ := h
      cases hret
      exact ⟨out, rfl⟩
  · simp only [hreq, if_true, bind_eq_ok] at h
    obtain ⟨_, _, _, _, out, _, hret⟩ := h
    cases hret
    exact ⟨out, rfl⟩

/-- Stores to fields that leave the field `f` alone leave it alone together. -/
theorem sortedFold_frame {T : Type} (desc : Description T) (json : JsonView)
    (frame : TraceFrame) (f : Field T) (gs : List (Field T))
    (hind : ∀ g ∈ gs, ∀ (o : T) (v : g.type), f.get (g.set o v) = f.get o) :
    ∀ (o o' : T), gs.foldlM (deserializeFieldsSortedField desc json frame) o = .ok o' →
      f.get o' = f.get o := by
  induction gs with
  | nil =>
    intro o o' h
    cases h
    rfl
  | cons g rest ih =>
    intro o o' h
    simp only [List.foldlM_cons, bind_eq_ok] at h
    obtain ⟨o1, h1, h2⟩ := h
    obtain ⟨out, rfl⟩ := sortedField_shape desc json frame o o1 g h1
    rw [ih (fun g' hg' => hind g' (List.mem_cons_of_mem _ hg')) _ _ h2,
      hind g (List.mem_cons_self _ _)]

theorem Point3.optionalY_lawful : Point3.optionalY.Lawful := by
  constructor
  · intro f hf o v
    simp only [Point3.optionalY, List.mem_cons, List.mem_singleton, List.not_mem_nil, or_false] at hf
    rcases hf with rfl | rfl | rfl <;> rfl
  · simp only [Point3.optionalY, List.pairwise_cons, List.mem_cons, List.mem_singleton,
      List.not_mem_nil, or_false, forall_eq_or_imp, forall_eq, List.Pairwise.nil, and_true,
      IsEmpty.forall_iff, implies_true]
    refine ⟨⟨⟨?_, ?_⟩, ⟨?_, ?_⟩⟩, ⟨?_, ?_⟩⟩ <;> intro o v <;> rfl
  · intro a b h
    have hx := h Point3.fieldX (by simp [Point3.optionalY])
    have hy := h { Point3.fieldY with attrSkipMissing := true } (by simp [Point3.optionalY])
    have hz := h Point3.fieldZ (by simp [Point3.optionalY])
    cases a; cases b
    simp only [Point3.fieldX, Point3.fieldY, Point3.fieldZ, plainField] at hx hy hz
    simp only [Point3.mk.injEq]
    exact ⟨hx, hy, hz⟩

/-- C7 (refuted as stated): with the required fields `z`, `x`, `y` and the
empty object flagged sorted, the field `y` is required and absent, and the
KeyError raised names `z`, not `y`. -/
theorem deserializeFieldsSorted_names_first_missing :
    Point3.asObject.fields = [Point3.fieldZ, Point3.fieldX, Point3.fieldY] ∧
    isRequired Point3.asObject Point3.fieldY = true ∧
    (JsonView.object f_sorted []).HasFlag f_sorted = true ∧
    deserializeFieldsSorted Point3.asObject ⟨0, 0, 0⟩ (JsonView.object f_sorted [])
        TraceFrame.root = .error (JsonError.KeyError ['z'] TraceFrame.root) ∧
    deserializeFieldsSorted Point3.asObject ⟨0, 0, 0⟩ (JsonView.object f_sorted [])
        TraceFrame.root ≠ .error (JsonError.KeyError Point3.fieldY.name TraceFrame.root) := by
  have h : deserializeFieldsSorted Point3.asObject ⟨0, 0, 0⟩ (JsonView.object f_sorted [])
      TraceFrame.root = .error (JsonError.KeyError ['z'] TraceFrame.root) := by
    simp only [deserializeFieldsSorted, Point3.asObject, List.foldlM_cons]
    rw [sortedField_required_absent _ f_sorted [] TraceFrame.root _ Point3.fieldZ (by decide)
      (by decide) (by decide)]
    rfl
  refine ⟨rfl, by decide, by decide, h, ?_⟩
  rw [h]
  decide

/-- C7 (amended): for an object cell with strictly ascending keys (flagged
sorted or not) and a declared field `f` whose name is no key of the input:
if `f` is required and the fields declared before it were deserialized
successfully, `deserializeFieldsSorted` raises KeyError naming `f`; if `f` is
not required and has no validator, its step raises nothing, and on a lawful
description the destination field holds the value it had before the call
after every run of successfully processed fields that includes `f`, the whole
call among them. -/
theorem deserializeFieldsSorted_absent_field {T : Type} (desc : Description T) (flags : Flags)
    (entries : List (JsonPair JsonView)) (frame : TraceFrame) (obj : T)
    (pre post : List (Field T)) (f : Field T)
    (hs : keysAscending entries) (hfields : desc.fields = pre ++ f :: post)
    (habs : ∀ p ∈ entries, p.key ≠ f.name) :
    (isRequired desc f = true →
      ∀ obj1, pre.foldlM (deserializeFieldsSortedField desc (JsonView.object flags entries)
          frame) obj = .ok obj1 →
        deserializeFieldsSorted desc obj (JsonView.object flags entries) frame
          = .error (JsonError.KeyError f.name frame)) ∧
    (isRequired desc f = false → f.validator = none →
      (∀ o, deserializeFieldsSortedField desc (JsonView.object flags entries) frame o f
          = .ok (f.set o (f.get o))) ∧
      (desc.Lawful → ∀ (mid rest : List (Field T)) (obj' : T), post = mid ++ rest →
        (pre ++ f :: mid).foldlM
          (deserializeFieldsSortedField desc (JsonView.object flags entries) frame) obj
          = .ok obj' →
        f.get obj' = f.get obj) ∧
      (desc.Lawful → ∀ obj',
        deserializeFieldsSorted desc obj (JsonView.object flags entries) frame = .ok obj' →
        f.get obj' = f.get obj)) := by
  constructor
  · intro hreq obj1 hpre
    simp only [deserializeFieldsSorted, hfields, List.foldlM_append, hpre, ok_bind,
      List.foldlM_cons, sortedField_required_absent desc flags entries frame obj1 f hs habs hreq,
      error_bind]
  · intro hreq hval
    have hrun : desc.Lawful → ∀ (mid rest : List (Field T)) (obj' : T), post = mid ++ rest →
        (pre ++ f :: mid).foldlM
          (deserializeFieldsSortedField desc (JsonView.object flags entries) frame) obj
          = .ok obj' →
        f.get obj' = f.get obj := by
      intro hlaw mid rest obj' hpost hrun
      have hind := hlaw.independent
      rw [hfields, List.pairwise_append, List.pairwise_cons] at hind
      obtain ⟨_, ⟨hpost', _⟩, hpre⟩ := hind
      simp only [List.foldlM_append, List.foldlM_cons, bind_eq_ok] at hrun
      obtain ⟨o1, h1, o2, h2, h3⟩ := hrun
      rw [sortedField_optional_absent desc flags entries frame o1 f hs habs hreq hval] at h2
      cases h2
      rw [sortedFold_frame desc _ frame f mid
          (fun g hg => (hpost' g (by rw [hpost]; exact List.mem_append_left _ hg)).2) _ _ h3,
        hlaw.get_set f (by rw [hfields]; simp),
        sortedFold_frame desc _ frame f pre
          (fun g hg => (hpre g hg f (List.mem_cons_self _ _)).1) _ _ h1]
    refine ⟨fun o => sortedField_optional_absent desc flags entries frame o f hs habs hreq hval,
      hrun, ?_⟩
    intro hlaw obj' hcall
    refine hrun hlaw post [] obj' (List.append_nil _).symm ?_
    rw [← hfields]
    exact hcall

/-- On ascending keys the step of the sorted path does not depend on the flags. -/
theorem sortedField_flags {T : Type} (desc : Description T) (flags : Flags)
    (entries : List (JsonPair JsonView)) (frame : TraceFrame) (hs : keysAscending entries) :
    deserializeFieldsSortedField desc (JsonView.object flags entries) frame
      = deserializeFieldsSortedField desc (JsonView.object 0 entries) frame := by
  funext o f
  simp only [deserializeFieldsSortedField, JsonView.At, JsonView.FindVal,
    Find_object flags entries _ frame hs, Find_object 0 entries _ frame hs]
  rfl

theorem Point3.optionalY_first_two :
    [Point3.fieldX, { Point3.fieldY with attrSkipMissing := true }].foldlM
      (deserializeFieldsSortedField Point3.optionalY
        (JsonView.object f_sorted [⟨['x'], JsonView.ofSigned 1⟩]) TraceFrame.root) ⟨0, 5, 0⟩
      = .ok ⟨1, 5, 0⟩ := by
  rw [sortedField_flags _ _ _ _ (by decide)]
  rfl

theorem Point3.optionalY_run :
    deserializeFieldsSorted Point3.optionalY ⟨0, 5, 0⟩
      (JsonView.object f_sorted [⟨['x'], JsonView.ofSigned 1⟩, ⟨['z'], JsonView.ofSigned 3⟩])
      TraceFrame.root = .ok ⟨1, 5, 3⟩ := by
  unfold deserializeFieldsSorted
  rw [sortedField_flags _ _ _ _ (by decide)]
  rfl

theorem deserializeFieldsSorted_absent_field_witness :
    deserializeFieldsSorted Point3.optionalY ⟨0, 5, 0⟩
        (JsonView.object f_sorted [⟨['x'], JsonView.ofSigned 1⟩]) TraceFrame.root
      = .error (JsonError.KeyError ['z'] TraceFrame.root) ∧
    Point3.y ⟨1, 5, 3⟩ = Point3.y ⟨0, 5, 0⟩ :=
  ⟨(deserializeFieldsSorted_absent_field Point3.optionalY f_sorted
      [⟨['x'], JsonView.ofSigned 1⟩] TraceFrame.root ⟨0, 5, 0⟩
      [Point3.fieldX, { Point3.fieldY with attrSkipMissing := true }] [] Point3.fieldZ
      (by decide) rfl (by decide)).1 (by decide) ⟨1, 5, 0⟩ Point3.optionalY_first_two,
   ((deserializeFieldsSorted_absent_field Point3.optionalY f_sorted
      [⟨['x'], JsonView.ofSigned 1⟩, ⟨['z'], JsonView.ofSigned 3⟩] TraceFrame.root ⟨0, 5, 0⟩
      [Point3.fieldX] [Point3.fieldZ] { Point3.fieldY with attrSkipMissing := true }
      (by decide) rfl (by decide)).2 (by decide) rfl).2.2 Point3.optionalY_lawful ⟨1, 5, 3⟩
      Point3.optionalY_run⟩

/-! ## Sorted insertion -/

theorem keysAscending_iff {V : Type} (object : List (JsonPair V)) :
    keysAscending object ↔ object.Pairwise (fun a b => a.key < b.key) := by
  unfold keysAscending
  rw [List.pairwise_map]

/-- On ascending keys the search for the insertion point splits its window
into the entries below the key and the entries not below it. -/
theorem lowerBoundLoop_spec {V : Type} (object : List (JsonPair V)) (key : string_view)
    (hs : keysAscending object) :
    ∀ (len first : Nat), first + len ≤ object.length →
      first ≤ lowerBoundLoop object key first len ∧
      lowerBoundLoop object key first len ≤ first + len ∧
      (∀ (i : Nat) (p : JsonPair V), object[i]? = some p → first ≤ i →
        i < lowerBoundLoop object key first len → p.key < key) ∧
      (∀ (i : Nat) (p : JsonPair V), object[i]? = some p →
        lowerBoundLoop object key first len ≤ i → i < first + len → ¬ p.key < key) := by
  intro len
  induction len using Nat.strong_induction_on with
  | _ len ih =>
    intro first hlen
    rw [lowerBoundLoop]
    by_cases hpos : len > 0
    · have hhalf : len >>> 1 = len / 2 := by rw [Nat.shiftRight_eq_div_pow]
      simp only [hpos, if_true, hhalf]
      have hlt : first + len / 2 < object.length := by omega
      obtain ⟨m, hm⟩ : ∃ m, object[first + len / 2]? = some m :=
        ⟨object[first + len / 2], List.getElem?_eq_getElem hlt⟩
      rw [hm]
      simp only
      by_cases hmk : m.key < key
      · rw [if_pos hmk]
        obtain ⟨h1, h2, h3, h4⟩ := ih (len - len / 2 - 1) (by omega) (first + len / 2 + 1)
          (by omega)
        refine ⟨by omega, by omega, ?_, ?_⟩
        · intro i p hp hi1 hi2
          rcases Nat.lt_trichotomy i (first + len / 2) with hlt' | heq | hgt
          · exact lt_trans (keysAscending_lt hs hp hm hlt') hmk
          · subst heq
            rw [hp] at hm
            cases hm
            exact hmk
          · exact h3 i p hp (by omega) hi2
        · intro i p hp hi1 hi2
          exact h4 i p hp hi1 (by omega)
      · rw [if_neg hmk]
        obtain ⟨h1, h2, h3, h4⟩ := ih (len / 2) (by omega) first (by omega)
        refine ⟨h1, by omega, h3, ?_⟩
        intro i p hp hi1 hi2
        rcases Nat.lt_trichotomy i (first + len / 2) with hlt' | heq | hgt
        · exact h4 i p hp hi1 hlt'
        · subst heq
          rw [hp] at hm
          cases hm
          exact hmk
        · intro hpk
          exact hmk (lt_trans (keysAscending_lt hs hm hp hgt) hpk)
    · have : len = 0 := by omega
      subst this
      simp only [gt_iff_lt, lt_self_iff_false, if_false, Nat.add_zero, le_refl, true_and]
      exact ⟨fun i p _ h1 h2 => absurd h1 (by omega), fun i p _ h1 h2 => absurd h1 (by omega)⟩

/-- Inserting an entry with a new key into a filled, ascending storage gives
an ascending storage that holds the new entry and the old ones. -/
theorem SortedInsertJson_spec {V : Type} (obj : List (JsonPair V)) (count : Nat)
    (entry : JsonPair V) (cap : Nat) (hs : keysAscending obj) (hcount : count = obj.length)
    (hnew : ∀ p ∈ obj, p.key ≠ entry.key) :
    keysAscending (SortedInsertJson obj count entry cap).1 ∧
    (SortedInsertJson obj count entry cap).2 = (SortedInsertJson obj count entry cap).1.length ∧
    (SortedInsertJson obj count entry cap).2 = count + 1 ∧
    (SortedInsertJson obj count entry cap).1.Perm (entry :: obj) := by
  subst hcount
  obtain ⟨_, h2, h3, h4⟩ := lowerBoundLoop_spec obj entry.key hs obj.length 0 (by omega)
  simp only [Nat.zero_add] at h2 h4
  simp only [SortedInsertJson, List.take_length]
  generalize lowerBoundLoop obj entry.key 0 obj.length = pos at h2 h3 h4
  have hsplit : obj.take pos ++ obj.drop pos = obj := List.take_append_drop pos obj
  have hbelow : ∀ a ∈ obj.take pos, a.key < entry.key := by
    intro a ha
    obtain ⟨i, hi, rfl⟩ := List.mem_take_iff_getElem.mp ha
    have hi' : i < obj.length := by omega
    exact h3 i _ (List.getElem?_eq_getElem hi') (Nat.zero_le _) (by omega)
  have habove : ∀ b ∈ obj.drop pos, entry.key < b.key := by
    intro b hb
    obtain ⟨i, hi, rfl⟩ := List.mem_drop_iff_getElem.mp hb
    have hi' : pos + i < obj.length := by omega
    have hnlt := h4 (pos + i) _ (List.getElem?_eq_getElem hi') (by omega) hi'
    have hne := hnew _ (List.getElem_mem hi')
    exact lt_of_le_of_ne (not_lt.mp hnlt) (Ne.symm hne)
  have hpw := (keysAscending_iff obj).mp hs
  rw [← hsplit, List.pairwise_append] at hpw
  obtain ⟨hp1, hp2, hp3⟩ := hpw
  refine ⟨?_, ?_, trivial, ?_⟩
  · rw [keysAscending_iff, List.pairwise_append, List.pairwise_cons]
    refine ⟨hp1, ⟨habove, hp2⟩, ?_⟩
    intro a ha b hb
    rcases List.mem_cons.mp hb with rfl | hb
    · exact hbelow a ha
    · exact hp3 a ha b hb
  · simp only [List.length_append, List.length_cons, List.length_take, List.length_drop]
    omega
  · have hperm : (obj.take pos ++ entry :: obj.drop pos).Perm
        (entry :: (obj.take pos ++ obj.drop pos)) := List.perm_middle
    rw [hsplit] at hperm
    exact hperm

/-! ## Object encoding: serialization -/

theorem IntoJsonStructField_ok {T : Type} (value : T) (size : Nat)
    (st st1 : List (JsonPair JsonView) × Nat × Arena) (f : Field T)
    (h : IntoJsonStructField value size st f = .ok st1) :
    ∃ res, f.conv.DoIntoJson (f.get value) st.2.2 = .ok res ∧
      st1 = ((SortedInsertJson st.1 st.2.1 ⟨f.name, res.1⟩ size).1,
             (SortedInsertJson st.1 st.2.1 ⟨f.name, res.1⟩ size).2, res.2) := by
  simp only [IntoJsonStructField, bind_eq_ok] at h
  obtain ⟨res, h1, h2⟩ := h
  cases h2
  exact ⟨res, h1, rfl⟩

/-- What the loop of `IntoJson` of a struct leaves in the storage. -/
theorem IntoJsonStruct_fold {T : Type} (value : T) (size : Nat) (fs : List (Field T)) :
    ∀ (st st' : List (JsonPair JsonView) × Nat × Arena),
      keysAscending st.1 → st.2.1 = st.1.length →
      (fs.map (fun f => f.name)).Nodup →
      (∀ f ∈ fs, ∀ p ∈ st.1, p.key ≠ f.name) →
      fs.foldlM (IntoJsonStructField value size) st = .ok st' →
      keysAscending st'.1 ∧ st'.2.1 = st'.1.length ∧
      (st'.1.map (fun p => p.key)).Perm (fs.map (fun f => f.name) ++ st.1.map (fun p => p.key)) ∧
      (∀ p ∈ st.1, p ∈ st'.1) ∧
      (∀ f ∈ fs, ∃ (c : JsonView) (a a' : Arena),
        f.conv.DoIntoJson (f.get value) a = .ok (c, a') ∧ ⟨f.name, c⟩ ∈ st'.1) := by
  induction fs with
  | nil =>
    intro st st' hs hc _ _ h
    cases h
    exact ⟨hs, hc, List.Perm.refl _, fun p hp => hp, fun f hf => absurd hf (List.not_mem_nil f)⟩
  | cons f rest ih =>
    intro st st' hs hc hnd hdisj h
    simp only [List.foldlM_cons, bind_eq_ok] at h
    obtain ⟨st1, h1, h2⟩ := h
    obtain ⟨res, hres, rfl⟩ := IntoJsonStructField_ok value size st st1 f h1
    obtain ⟨i1, i2, _, i4⟩ := SortedInsertJson_spec st.1 st.2.1 ⟨f.name, res.1⟩ size hs hc
      (fun p hp => hdisj f (List.mem_cons_self _ _) p hp)
    simp only [List.map_cons, List.nodup_cons, List.mem_map, not_exists, not_and] at hnd
    have hdisj' : ∀ g ∈ rest, ∀ p ∈ (SortedInsertJson st.1 st.2.1 ⟨f.name, res.1⟩ size).1,
        p.key ≠ g.name := by
      intro g hg p hp
      rcases List.mem_cons.mp (i4.subset hp) with rfl | hp'
      · exact fun heq => hnd.1 g hg heq.symm
      · exact hdisj g (List.mem_cons_of_mem _ hg) p hp'
    obtain ⟨j1, j2, j3, j4, j5⟩ := ih _ st' i1 i2 hnd.2 hdisj' h2
    refine ⟨j1, j2, ?_, ?_, ?_⟩
    · refine j3.trans ?_
      have hk := i4.map (fun p => p.key)
      simp only [List.map_cons] at hk ⊢
      exact (List.Perm.append_left _ hk).trans List.perm_middle
    · intro p hp
      exact j4 p (i4.symm.subset (List.mem_cons_of_mem _ hp))
    · intro g hg
      rcases List.mem_cons.mp hg with rfl | hg'
      · exact ⟨res.1, st.2.2, res.2, hres,
          j4 _ (i4.symm.subset (List.mem_cons_self _ _))⟩
      · exact j5 g hg'

/-- The cell `IntoJson` returns for an object-encoded struct with distinct
field names. -/
theorem IntoJsonStruct_cell {T : Type} (desc : Description T) (value : T) (ctx ctx' : Arena)
    (cell : JsonView) (hobj : desc.attrStructAsTuple = false)
    (hnames : (desc.fields.map (fun f => f.name)).Nodup)
    (hser : IntoJsonStruct desc value ctx = .ok (cell, ctx')) :
    ∃ entries, cell = JsonView.object f_sorted entries ∧ keysAscending entries ∧
      entries.length = desc.fields.length ∧
      (entries.map (fun p => p.key)).Perm (desc.fields.map (fun f => f.name)) ∧
      (∀ f ∈ desc.fields, ∃ (c : JsonView) (a a' : Arena),
        f.conv.DoIntoJson (f.get value) a = .ok (c, a') ∧ ⟨f.name, c⟩ ∈ entries) := by
  simp only [IntoJsonStruct, hobj, Bool.false_eq_true, if_false, bind_eq_ok] at hser
  obtain ⟨made, _, st, hfold, hret⟩ := hser
  obtain ⟨h1, h2, h3, _, h5⟩ := IntoJsonStruct_fold value desc.fields.length desc.fields
    ([], 0, made.2) st List.Pairwise.nil rfl hnames (fun f _ p hp => absurd hp (List.not_mem_nil p))
    hfold
  cases hret
  rw [h2, List.take_length]
  simp only [List.map_nil, List.append_nil] at h3
  refine ⟨st.1, rfl, h1, ?_, h3, h5⟩
  have := h3.length_eq
  simpa using this

/-- C5: for an object-encoded record type with distinct field names and every
value of it, the cell returned by `IntoJson` is an object, carries the sorted
flag, has as many entries as there are declared fields, its keys are the
declared names, each exactly once (a duplicate-free rearrangement of them), and its entries are strictly ascending by
key, adjacent entries included, whatever the declaration order. -/
theorem IntoJsonStruct_sorted_object {T : Type} (desc : Description T) (value : T)
    (ctx ctx' : Arena) (cell : JsonView) (hobj : desc.attrStructAsTuple = false)
    (hnames : (desc.fields.map (fun f => f.name)).Nodup)
    (hser : IntoJsonStruct desc value ctx = .ok (cell, ctx')) :
    cell.GetType = t_object ∧ cell.HasFlag f_sorted = true ∧
    cell.size = desc.fields.length ∧
    (cell.entries.map (fun p => p.key)).Perm (desc.fields.map (fun f => f.name)) ∧
    (cell.entries.map (fun p => p.key)).Nodup ∧
    keysAscending cell.entries ∧
    (∀ (i : Nat) (h : i + 1 < cell.entries.length),
      (cell.entries[i]).key < (cell.entries[i + 1]).key) := by
  obtain ⟨entries, rfl, h1, h2, h3, _⟩ :=
    IntoJsonStruct_cell desc value ctx ctx' cell hobj hnames hser
  have hflag : (JsonView.object f_sorted entries).HasFlag f_sorted = true := by
    simp [JsonView.HasFlag, JsonView.GetFlags, f_sorted]
  refine ⟨rfl, hflag, h2, h3, ?_, h1, ?_⟩
  · exact h3.nodup_iff.mpr hnames
  · intro i h
    have h' : i + 1 < entries.length := h
    exact keysAscending_lt h1 (List.getElem?_eq_getElem (by omega))
      (List.getElem?_eq_getElem h') (Nat.lt_succ_self i)

theorem lowerBoundLoop_zero {V : Type} (object : List (JsonPair V)) (key : string_view)
    (first : Nat) : lowerBoundLoop object key first 0 = first := by
  rw [lowerBoundLoop]; rfl

theorem Point3.asObject_into :
    IntoJsonStruct Point3.asObject ⟨1, 2, 3⟩ Arena.unbounded
      = .ok (JsonView.object f_sorted
          [⟨['x'], JsonView.ofSigned 1⟩, ⟨['y'], JsonView.ofSigned 2⟩,
           ⟨['z'], JsonView.ofSigned 3⟩],
          { grants := fun _ => true, log := [(96, 8)] }) := by
  have h2 : lowerBoundLoop [(⟨['z'], JsonView.ofSigned 3⟩ : JsonPair JsonView)] ['x'] 0 1 = 0 := by
    rw [lowerBoundLoop]
    simp [lowerBoundLoop_zero]
    decide
  have h3 : lowerBoundLoop [(⟨['x'], JsonView.ofSigned 1⟩ : JsonPair JsonView),
      ⟨['z'], JsonView.ofSigned 3⟩] ['y'] 0 2 = 1 := by
    rw [lowerBoundLoop]
    simp
    rw [if_neg (by decide), lowerBoundLoop]
    simp [lowerBoundLoop_zero]
    decide
  have s1 : IntoJsonStructField (⟨1, 2, 3⟩ : Point3) 3 ([], 0, ⟨fun _ => true, [(96, 8)]⟩)
      Point3.fieldZ = .ok ([⟨['z'], JsonView.ofSigned 3⟩], 1, ⟨fun _ => true, [(96, 8)]⟩) := by
    simp only [IntoJsonStructField, SortedInsertJson, lowerBoundLoop_zero]
    rfl
  have s2 : IntoJsonStructField (⟨1, 2, 3⟩ : Point3) 3
      ([⟨['z'], JsonView.ofSigned 3⟩], 1, ⟨fun _ => true, [(96, 8)]⟩) Point3.fieldX
      = .ok ([⟨['x'], JsonView.ofSigned 1⟩, ⟨['z'], JsonView.ofSigned 3⟩], 2,
          ⟨fun _ => true, [(96, 8)]⟩) := by
    have : lowerBoundLoop [(⟨['z'], JsonView.ofSigned 3⟩ : JsonPair JsonView)]
        Point3.fieldX.name 0 1 = 0 := h2
    simp only [IntoJsonStructField, SortedInsertJson, ok_bind, this,
      show Point3.fieldX.conv.DoIntoJson (Point3.fieldX.get ⟨1, 2, 3⟩)
        ⟨fun _ => true, [(96, 8)]⟩ = .ok (JsonView.ofSigned 1, ⟨fun _ => true, [(96, 8)]⟩)
        from rfl]
    rfl
  have s3 : IntoJsonStructField (⟨1, 2, 3⟩ : Point3) 3
      ([⟨['x'], JsonView.ofSigned 1⟩, ⟨['z'], JsonView.ofSigned 3⟩], 2,
        ⟨fun _ => true, [(96, 8)]⟩) Point3.fieldY
      = .ok ([⟨['x'], JsonView.ofSigned 1⟩, ⟨['y'], JsonView.ofSigned 2⟩,
          ⟨['z'], JsonView.ofSigned 3⟩], 3, ⟨fun _ => true, [(96, 8)]⟩) := by
    have : lowerBoundLoop [(⟨['x'], JsonView.ofSigned 1⟩ : JsonPair JsonView),
      ⟨['z'], JsonView.ofSigned 3⟩] Point3.fieldY.name 0 2 = 1 := h3
    simp only [IntoJsonStructField, SortedInsertJson, ok_bind, this,
      show Point3.fieldY.conv.DoIntoJson (Point3.fieldY.get ⟨1, 2, 3⟩)
        ⟨fun _ => true, [(96, 8)]⟩ = .ok (JsonView.ofSigned 2, ⟨fun _ => true, [(96, 8)]⟩)
        from rfl]
    rfl
  have hmade : MakeObjectOf 3 Arena.unbounded = .ok (true, ⟨fun _ => true, [(96, 8)]⟩) := rfl
  simp only [IntoJsonStruct, Point3.asObject, Bool.false_eq_true, if_false, List.length_cons,
    List.length_nil, hmade, ok_bind, List.foldlM_cons, List.foldlM_nil, s1, s2, s3]
  rfl


theorem IntoJsonStruct_sorted_object_witness :
    (JsonView.object f_sorted
        [⟨['x'], JsonView.ofSigned 1⟩, ⟨['y'], JsonView.ofSigned 2⟩,
         ⟨['z'], JsonView.ofSigned 3⟩]).size = Point3.asObject.fields.length ∧
    keysAscending (JsonView.object f_sorted
        [⟨['x'], JsonView.ofSigned 1⟩, ⟨['y'], JsonView.ofSigned 2⟩,
         ⟨['z'], JsonView.ofSigned 3⟩]).entries :=
  ⟨(IntoJsonStruct_sorted_object Point3.asObject ⟨1, 2, 3⟩ Arena.unbounded _ _ rfl (by decide)
      Point3.asObject_into).2.2.1,
   (IntoJsonStruct_sorted_object Point3.asObject ⟨1, 2, 3⟩ Arena.unbounded _ _ rfl (by decide)
      Point3.asObject_into).2.2.2.2.2.1⟩

/-! ## Object encoding: round trip -/

theorem foldlM_eq_foldl {α : Type} {β : Type 1} (step : α → β → Except JsonError α) (g : α → β → α)
    (fs : List β) (h : ∀ f ∈ fs, ∀ o, step o f = .ok (g o f)) :
    ∀ o, fs.foldlM step o = .ok (fs.foldl g o) := by
  induction fs with
  | nil => intro o; rfl
  | cons f rest ih =>
    intro o
    simp only [List.foldlM_cons, List.foldl_cons, h f (List.mem_cons_self _ _) o, ok_bind]
    exact ih (fun f' hf' => h f' (List.mem_cons_of_mem _ hf')) _

theorem foldl_set_frame {T : Type} (x : T) (g : Field T) (fs : List (Field T))
    (hg : ∀ f ∈ fs, ∀ (o : T) (v : f.type), g.get (f.set o v) = g.get o) :
    ∀ o, g.get (fs.foldl (fun o f => f.set o (f.get x)) o) = g.get o := by
  induction fs with
  | nil => intro o; rfl
  | cons f rest ih =>
    intro o
    simp only [List.foldl_cons]
    rw [ih (fun f' hf' => hg f' (List.mem_cons_of_mem _ hf')), hg f (List.mem_cons_self _ _)]

theorem foldl_set_get {T : Type} (x : T) (fs : List (Field T))
    (hgs : ∀ f ∈ fs, ∀ (o : T) (v : f.type), f.get (f.set o v) = v)
    (hind : fs.Pairwise (fun f g =>
      (∀ (o : T) (v : f.type), g.get (f.set o v) = g.get o) ∧
      (∀ (o : T) (v : g.type), f.get (g.set o v) = f.get o))) :
    ∀ o, ∀ f ∈ fs, f.get (fs.foldl (fun o f => f.set o (f.get x)) o) = f.get x := by
  induction fs with
  | nil => intro o f hf; exact absurd hf (List.not_mem_nil f)
  | cons h rest ih =>
    intro o f hf
    rw [List.pairwise_cons] at hind
    simp only [List.foldl_cons]
    rcases List.mem_cons.mp hf with rfl | hf'
    · rw [foldl_set_frame x f rest (fun f' hf' => (hind.1 f' hf').2),
        hgs f (List.mem_cons_self _ _)]
    · exact ih (fun f' hf' => hgs f' (List.mem_cons_of_mem _ hf')) hind.2 _ f hf'

/-- C1: for an object-encoded record type with distinct field names, no
validators, lawful fields and field conversions that round-trip at the field
values of `x`: deserializing the cell produced by `IntoJson` of `x` into any
destination record succeeds and leaves the destination equal to `x`. -/
theorem struct_roundtrip {T : Type} (desc : Description T) (x : T) (ctx ctx' : Arena)
    (cell : JsonView) (hobj : desc.attrStructAsTuple = false)
    (hnames : (desc.fields.map (fun f => f.name)).Nodup)
    (hcv : desc.classValidator = none) (hfv : ∀ f ∈ desc.fields, f.validator = none)
    (hlaw : desc.Lawful)
    (hrt : ∀ f ∈ desc.fields, ∀ (a a' : Arena) (c : JsonView),
      f.conv.DoIntoJson (f.get x) a = .ok (c, a') →
      ∀ (out : f.type) (frame : TraceFrame), f.conv.DoFromJson out c frame = .ok (f.get x))
    (hser : IntoJsonStruct desc x ctx = .ok (cell, ctx')) :
    ∀ (dest : T) (frame : TraceFrame), FromJsonStruct desc dest cell frame = .ok x := by
  intro dest frame
  obtain ⟨entries, rfl, hs, _, _, hmem⟩ :=
    IntoJsonStruct_cell desc x ctx ctx' cell hobj hnames hser
  have hstep : ∀ f ∈ desc.fields, ∀ o,
      deserializeFieldsSortedField desc (JsonView.object f_sorted entries) frame o f
        = .ok (f.set o (f.get x)) := by
    intro f hf o
    obtain ⟨c, a, a', hc, hin⟩ := hmem f hf
    rw [sortedField_present desc f_sorted entries frame o f c hs hin (hfv f hf),
      hrt f hf a a' c hc, ok_bind]
  have hflag : (JsonView.object f_sorted entries).HasFlag f_sorted = true := by
    simp [JsonView.HasFlag, JsonView.GetFlags, f_sorted]
  have hfold := foldlM_eq_foldl _ (fun o (f : Field T) => f.set o (f.get x)) desc.fields hstep dest
  have hx : desc.fields.foldl (fun o (f : Field T) => f.set o (f.get x)) dest = x :=
    hlaw.ext _ _ (foldl_set_get x desc.fields hlaw.get_set hlaw.independent dest)
  simp only [FromJsonStruct, hobj, Bool.false_eq_true, if_false, hflag, if_true,
    AssertType_object, ok_bind, deserializeFieldsSorted, hfold, hx, hcv, runValidator]
  rfl

theorem Point3.asObject_lawful : Point3.asObject.Lawful := by
  constructor
  · intro f hf o v
    simp only [Point3.asObject, List.mem_cons, List.mem_singleton, List.not_mem_nil,
      or_false] at hf
    rcases hf with rfl | rfl | rfl <;> rfl
  · simp only [Point3.asObject, List.pairwise_cons, List.mem_cons, List.mem_singleton,
      List.not_mem_nil, or_false, forall_eq_or_imp, forall_eq, List.Pairwise.nil, and_true,
      IsEmpty.forall_iff, implies_true]
    refine ⟨⟨⟨?_, ?_⟩, ⟨?_, ?_⟩⟩, ⟨?_, ?_⟩⟩ <;> intro o v <;> rfl
  · intro a b h
    have hx := h Point3.fieldX (by simp [Point3.asObject])
    have hy := h Point3.fieldY (by simp [Point3.asObject])
    have hz := h Point3.fieldZ (by simp [Point3.asObject])
    cases a; cases b
    simp only [Point3.fieldX, Point3.fieldY, Point3.fieldZ, plainField] at hx hy hz
    simp only [Point3.mk.injEq]
    exact ⟨hx, hy, hz⟩

theorem Point3.asObject_fields_roundtrip :
    ∀ f ∈ Point3.asObject.fields, ∀ (a a' : Arena) (c : JsonView),
      f.conv.DoIntoJson (f.get ⟨1, 2, 3⟩) a = .ok (c, a') →
      ∀ (out : f.type) (frame : TraceFrame),
        f.conv.DoFromJson out c frame = .ok (f.get ⟨1, 2, 3⟩) := by
  intro f hf a a' c hc out frame
  simp only [Point3.asObject, List.mem_cons, List.mem_singleton, List.not_mem_nil,
    or_false] at hf
  rcases hf with rfl | rfl | rfl <;>
  · have hc' : c = _ := (Prod.mk.inj (Except.ok.inj hc)).1.symm
    subst hc'
    rfl

theorem struct_roundtrip_witness :
    FromJsonStruct Point3.asObject ⟨0, 0, 0⟩
      (JsonView.object f_sorted
        [⟨['x'], JsonView.ofSigned 1⟩, ⟨['y'], JsonView.ofSigned 2⟩,
         ⟨['z'], JsonView.ofSigned 3⟩]) TraceFrame.root = .ok ⟨1, 2, 3⟩ :=
  struct_roundtrip Point3.asObject ⟨1, 2, 3⟩ Arena.unbounded _ _ rfl (by decide) rfl
    (by
      intro f hf
      simp only [Point3.asObject, List.mem_cons, List.mem_singleton, List.not_mem_nil,
        or_false] at hf
      rcases hf with rfl | rfl | rfl <;> rfl)
    Point3.asObject_lawful Point3.asObject_fields_roundtrip Point3.asObject_into ⟨0, 0, 0⟩
    TraceFrame.root

/-! ## Tuple encoding: fields beyond the array -/

/-- C11 (the code at the failing inputs): in `deserializeAsTuple` a field that
is not required and whose index is beyond the array is converted from a null
cell: an integer field marked `SkipMissing` raises TypeMismatch, and an
optional field that held a value is emptied. -/
theorem deserializeAsTuple_converts_null_for_missing :
    isRequired Point3.tupleSkipZ { Point3.fieldZ with attrSkipMissing := true } = false ∧
    deserializeAsTuple Point3.tupleSkipZ ⟨0, 0, 9⟩
        (JsonView.array 0 [JsonView.ofSigned 1, JsonView.ofSigned 2]) TraceFrame.root
      = .error (JsonError.TypeMissmatch (t_signed ||| t_unsigned) t_null
          (TraceFrame.key ['z'] TraceFrame.root)) ∧
    FromJsonStruct Point3.tupleSkipZ ⟨0, 0, 9⟩
        (JsonView.array 0 [JsonView.ofSigned 1, JsonView.ofSigned 2]) TraceFrame.root
      = .error (JsonError.TypeMissmatch (t_signed ||| t_unsigned) t_null
          (TraceFrame.key ['z'] TraceFrame.root)) ∧
    isRequired WithOpt.asTuple WithOpt.fieldB = false ∧
    deserializeAsTuple WithOpt.asTuple ⟨0, some 5⟩
        (JsonView.array 0 [JsonView.ofSigned 1]) TraceFrame.root = .ok ⟨1, none⟩ := by
  decide

/-- C13 (the code at the failing input): with `x` at `FieldIndex<1>` and `y`
at `FieldIndex<0>`, `serializeAsTuple` stores `y` to slot 1, its position,
over `x`, and leaves slot 0 unwritten, while `deserializeAsTuple` reads `y`
from slot 0 and `x` from slot 1. -/
theorem tuple_slot_of_FieldIndex_zero :
    Point3.swappedTuple.fields.map (fun f => f.fieldIndex) = [some 1, some 0] ∧
    (serializeAsTuple Point3.swappedTuple ⟨1, 2, 3⟩ Arena.unbounded).map
        (fun r => r.1.items) = .ok [JsonView.indeterminate, JsonView.ofSigned 2] ∧
    deserializeAsTuple Point3.swappedTuple ⟨0, 0, 0⟩
        (JsonView.array 0 [JsonView.ofSigned 10, JsonView.ofSigned 20]) TraceFrame.root
      = .ok ⟨20, 10, 0⟩ := by
  refine ⟨rfl, rfl, by decide⟩

/-! ## Fixed tuples -/

/-- C14 (the code at the failing input): `FromJson` for `std::tuple<int, int>`
raises IndexError for an array of exactly two elements, the array `IntoJson`
produces for such a tuple included; an array of three elements is accepted. -/
theorem FromJsonTuple_exact_length :
    FromJsonTuple intPairElements (0, 0)
        (JsonView.array 0 [JsonView.ofSigned 1, JsonView.ofSigned 2]) TraceFrame.root
      = .error (JsonError.IndexError 2 2 TraceFrame.root) ∧
    (IntoJsonTuple intPairElements (1, 2) Arena.unbounded).map (fun r => r.1.items)
      = .ok [JsonView.ofSigned 1, JsonView.ofSigned 2] ∧
    ((IntoJsonTuple intPairElements (1, 2) Arena.unbounded).bind
        (fun r => FromJsonTuple intPairElements (0, 0) r.1 TraceFrame.root))
      = .error (JsonError.IndexError 2 2 TraceFrame.root) ∧
    FromJsonTuple intPairElements (0, 0)
        (JsonView.array 0 [JsonView.ofSigned 1, JsonView.ofSigned 2, JsonView.ofNull])
        TraceFrame.root = .ok (1, 2) := by
  refine ⟨by decide, rfl, rfl, by decide⟩

/-! ## Tuple encoding: round trip -/

theorem set_append_length {α : Type} (done : List α) (x c : α) (tail : List α) :
    (done ++ x :: tail).set done.length c = done ++ c :: tail := by
  induction done with
  | nil => rfl
  | cons d rest ih => simp [ih]

/-- What the loop of `serializeAsTuple` leaves in the array when no field
carries an explicit index: the cells of the fields, in declaration order. -/
theorem serializeAsTuple_fold {T : Type} (value : T) (P : Field T → JsonView → Prop)
    (fs : List (Field T)) (hnoidx : ∀ f ∈ fs, f.fieldIndex = none)
    (hP : ∀ f ∈ fs, ∀ (a a' : Arena) (c : JsonView),
      f.conv.DoIntoJson (f.get value) a = .ok (c, a') → P f c) :
    ∀ (done : List JsonView) (m : Nat) (a : Arena) (st' : List JsonView × Nat × Arena),
      fs.foldlM (serializeAsTupleField value)
        (done ++ List.replicate (fs.length + m) JsonView.indeterminate, done.length, a)
        = .ok st' →
      ∃ cs, st'.1 = done ++ cs ++ List.replicate m JsonView.indeterminate ∧
        List.Forall₂ P fs cs := by
  induction fs with
  | nil =>
    intro done m a st' h
    cases h
    exact ⟨[], by simp, List.Forall₂.nil⟩
  | cons f rest ih =>
    intro done m a st' h
    simp only [List.foldlM_cons, bind_eq_ok] at h
    obtain ⟨st1, h1, h2⟩ := h
    simp only [serializeAsTupleField, getIdxFor, hnoidx f (List.mem_cons_self _ _),
      ne_eq, not_true_eq_false, if_false, bind_eq_ok] at h1
    obtain ⟨res, hres, hst1⟩ := h1
    have hrep : List.replicate (rest.length + 1 + m) JsonView.indeterminate
        = JsonView.indeterminate :: List.replicate (rest.length + m) JsonView.indeterminate := by
      rw [show rest.length + 1 + m = (rest.length + m) + 1 by omega, List.replicate_succ]
    rw [List.length_cons, hrep, set_append_length] at hst1
    have hst1' : st1 = ((done ++ [res.1]) ++ List.replicate (rest.length + m)
        JsonView.indeterminate, (done ++ [res.1]).length, res.2) := by
      cases hst1
      simp
    rw [hst1'] at h2
    obtain ⟨cs, hcs, hall⟩ := ih (fun g hg => hnoidx g (List.mem_cons_of_mem _ hg))
      (fun g hg => hP g (List.mem_cons_of_mem _ hg)) _ m _ st' h2
    exact ⟨res.1 :: cs, by simp [hcs],
      List.Forall₂.cons (hP f (List.mem_cons_self _ _) a res.2 res.1 hres) hall⟩

/-- The loop of `deserializeAsTuple` over fields without explicit index and
without validator whose cells convert to the field values of `x`. -/
theorem deserializeAsTuple_fold {T : Type} (desc : Description T) (x : T) (arr : List JsonView)
    (frame : TraceFrame) (fs : List (Field T))
    (hnoidx : ∀ f ∈ fs, f.fieldIndex = none) (hfv : ∀ f ∈ fs, f.validator = none) :
    ∀ (k : Nat) (o : T),
      List.Forall₂ (fun (f : Field T) c => ∀ (out : f.type) (fr : TraceFrame),
        f.conv.DoFromJson out c fr = .ok (f.get x)) fs (arr.drop k) →
      fs.foldlM (deserializeAsTupleField desc arr arr.length frame) (o, k)
        = .ok (fs.foldl (fun o f => f.set o (f.get x)) o, k + fs.length) := by
  induction fs with
  | nil => intro k o _; rfl
  | cons f rest ih =>
    intro k o hall
    cases hdrop : arr.drop k with
    | nil => rw [hdrop] at hall; cases hall
    | cons c tl =>
      rw [hdrop] at hall
      cases hall with
      | cons hc hrest =>
        have hk : k < arr.length := by
          by_contra hge
          rw [List.drop_eq_nil_of_le (by omega)] at hdrop
          cases hdrop
        have hget : arr.getD k JsonView.indeterminate = c := by
          have h0 : (arr.drop k)[0]? = some c := by rw [hdrop]; simp
          rw [List.getElem?_drop, Nat.add_zero] at h0
          rw [List.getD_eq_getElem?_getD, h0]
          rfl
        have htl : arr.drop (k + 1) = tl := by
          have := List.drop_drop 1 k arr
          rw [hdrop] at this
          simpa using this.symm
        simp only [List.foldlM_cons, List.foldl_cons, deserializeAsTupleField,
          hnoidx f (List.mem_cons_self _ _), tupleGet, Nat.not_le.mpr hk, if_false, pure_eq,
          ok_bind, hget, hc, hfv f (List.mem_cons_self _ _), runValidator]
        have := ih (fun g hg => hnoidx g (List.mem_cons_of_mem _ hg))
          (fun g hg => hfv g (List.mem_cons_of_mem _ hg)) (k + 1) (f.set o (f.get x))
          (by rw [htl]; exact hrest)
        rw [this, List.length_cons]
        congr 2
        omega

theorem maxIdxForLoop_no_index (simple : Nat) (is : List Nat) (h : ∀ i ∈ is, i = 0) :
    maxIdxForLoop simple is = simple := by
  induction is with
  | nil => rfl
  | cons i rest ih =>
    have hi : i = 0 := h i (List.mem_cons_self _ _)
    subst hi
    simp only [maxIdxForLoop, gt_iff_lt, Nat.not_lt_zero, if_false]
    exact ih (fun j hj => h j (List.mem_cons_of_mem _ hj))

theorem AssertType_array (flags : Flags) (items : List JsonView) (frame : TraceFrame) :
    (JsonView.array flags items).AssertType t_array frame = .ok () := by
  simp [JsonView.AssertType, JsonView.Is, JsonView.GetType, t_array]
  rfl

/-- C12: for a tuple-encoded record type without explicit-index attributes
and without validators, with lawful fields and field conversions that
round-trip at the field values of `x`: the cell `serializeAsTuple` returns for
`x` is an array of exactly field-count elements whose i-th element is the
serialization of the i-th declared field, and deserializing it into any
destination succeeds and yields `x`. -/
theorem tuple_struct_roundtrip {T : Type} (desc : Description T) (x : T) (ctx ctx' : Arena)
    (cell : JsonView) (htup : desc.attrStructAsTuple = true)
    (hnoidx : ∀ f ∈ desc.fields, f.fieldIndex = none)
    (hcv : desc.classValidator = none) (hfv : ∀ f ∈ desc.fields, f.validator = none)
    (hlaw : desc.Lawful)
    (hrt : ∀ f ∈ desc.fields, ∀ (a a' : Arena) (c : JsonView),
      f.conv.DoIntoJson (f.get x) a = .ok (c, a') →
      ∀ (out : f.type) (frame : TraceFrame), f.conv.DoFromJson out c frame = .ok (f.get x))
    (hser : serializeAsTuple desc x ctx = .ok (cell, ctx')) :
    (∃ items, cell = JsonView.array 0 items ∧ items.length = desc.fields.length ∧
      List.Forall₂ (fun (f : Field T) c => ∃ (a a' : Arena),
        f.conv.DoIntoJson (f.get x) a = .ok (c, a')) desc.fields items) ∧
    IntoJsonStruct desc x ctx = .ok (cell, ctx') ∧
    ∀ (dest : T) (frame : TraceFrame), FromJsonStruct desc dest cell frame = .ok x := by
  have htotal : maxIdxFor desc = desc.fields.length := by
    unfold maxIdxFor
    apply maxIdxForLoop_no_index
    intro i hi
    obtain ⟨f, hf, rfl⟩ := List.mem_map.mp hi
    simp [getIdxFor, hnoidx f hf]
  have hser' := hser
  simp only [serializeAsTuple, htotal, bind_eq_ok] at hser'
  obtain ⟨made, _, st, hfold, hret⟩ := hser'
  obtain ⟨cs, hcs, hall⟩ := serializeAsTuple_fold x
    (fun f c => (∃ (a a' : Arena), f.conv.DoIntoJson (f.get x) a = .ok (c, a')) ∧
      ∀ (out : f.type) (fr : TraceFrame), f.conv.DoFromJson out c fr = .ok (f.get x))
    desc.fields hnoidx (fun f hf a a' c hc => ⟨⟨a, a', hc⟩, hrt f hf a a' c hc⟩)
    [] 0 made.2 st (by simpa using hfold)
  simp only [List.nil_append, List.replicate_zero, List.append_nil] at hcs
  cases hret
  rw [hcs]
  refine ⟨⟨cs, rfl, hall.length_eq.symm, hall.imp (fun _ _ h => h.1)⟩, ?_, ?_⟩
  · rw [← hcs]
    simp only [IntoJsonStruct, htup, if_true]
    exact hser
  · intro dest frame
    have hfold' := deserializeAsTuple_fold desc x cs frame desc.fields hnoidx hfv 0 dest
      (by rw [List.drop_zero]; exact hall.imp (fun _ _ h => h.2))
    have hx : desc.fields.foldl (fun o (f : Field T) => f.set o (f.get x)) dest = x :=
      hlaw.ext _ _ (foldl_set_get x desc.fields hlaw.get_set hlaw.independent dest)
    simp only [FromJsonStruct, htup, if_true, AssertType_array, ok_bind, deserializeAsTuple,
      JsonView.items, JsonView.size, hfold', hx, hcv, runValidator]
    rfl

theorem Point3.asTuple_lawful : Point3.asTuple.Lawful := by
  constructor
  · intro f hf o v
    simp only [Point3.asTuple, List.mem_cons, List.mem_singleton, List.not_mem_nil,
      or_false] at hf
    rcases hf with rfl | rfl | rfl <;> rfl
  · simp only [Point3.asTuple, List.pairwise_cons, List.mem_cons, List.mem_singleton,
      List.not_mem_nil, or_false, forall_eq_or_imp, forall_eq, List.Pairwise.nil, and_true,
      IsEmpty.forall_iff, implies_true]
    refine ⟨⟨⟨?_, ?_⟩, ⟨?_, ?_⟩⟩, ⟨?_, ?_⟩⟩ <;> intro o v <;> rfl
  · intro a b h
    have hx := h Point3.fieldX (by simp [Point3.asTuple])
    have hy := h Point3.fieldY (by simp [Point3.asTuple])
    have hz := h Point3.fieldZ (by simp [Point3.asTuple])
    cases a; cases b
    simp only [Point3.fieldX, Point3.fieldY, Point3.fieldZ, plainField] at hx hy hz
    simp only [Point3.mk.injEq]
    exact ⟨hx, hy, hz⟩

theorem Point3.asTuple_fields_roundtrip :
    ∀ f ∈ Point3.asTuple.fields, ∀ (a a' : Arena) (c : JsonView),
      f.conv.DoIntoJson (f.get ⟨1, 2, 3⟩) a = .ok (c, a') →
      ∀ (out : f.type) (frame : TraceFrame),
        f.conv.DoFromJson out c frame = .ok (f.get ⟨1, 2, 3⟩) := by
  intro f hf a a' c hc out frame
  simp only [Point3.asTuple, List.mem_cons, List.mem_singleton, List.not_mem_nil,
    or_false] at hf
  rcases hf with rfl | rfl | rfl <;>
  · have hc' : c = _ := (Prod.mk.inj (Except.ok.inj hc)).1.symm
    subst hc'
    rfl

theorem tuple_struct_roundtrip_witness :
    FromJsonStruct Point3.asTuple ⟨0, 0, 0⟩
      (JsonView.array 0 [JsonView.ofSigned 1, JsonView.ofSigned 2, JsonView.ofSigned 3])
      TraceFrame.root = .ok ⟨1, 2, 3⟩ :=
  (tuple_struct_roundtrip Point3.asTuple ⟨1, 2, 3⟩ Arena.unbounded
    { grants := fun _ => true, log := [(48, 8)] }
    (JsonView.array 0 [JsonView.ofSigned 1, JsonView.ofSigned 2, JsonView.ofSigned 3])
    rfl
    (by
      intro f hf
      simp only [Point3.asTuple, List.mem_cons, List.mem_singleton, List.not_mem_nil,
        or_false] at hf
      rcases hf with rfl | rfl | rfl <;> rfl)
    rfl
    (by
      intro f hf
      simp only [Point3.asTuple, List.mem_cons, List.mem_singleton, List.not_mem_nil,
        or_false] at hf
      rcases hf with rfl | rfl | rfl <;> rfl)
    Point3.asTuple_lawful Point3.asTuple_fields_roundtrip rfl).2.2 ⟨0, 0, 0⟩ TraceFrame.root

/-! ## Trace frames -/

theorem chainMemory_length (segs : List Key) (k : Nat) :
    (chainMemory segs k).length = segs.length + 1 := by
  simp [chainMemory]

theorem chainMemory_getElem? (segs : List Key) (k i : Nat) (hi : i ≤ segs.length) :
    (chainMemory segs k)[i]? = some (chainCell segs k i) := by
  simp only [chainMemory, List.getElem?_map]
  rw [List.getElem?_range (by omega)]
  rfl

theorem chainMemory_setNext (segs : List Key) (p : Nat) (hp : p < segs.length) :
    (chainMemory segs (p + 1)).setNext p (p + 1) = chainMemory segs p := by
  unfold FrameMemory.setNext
  rw [chainMemory_getElem? segs (p + 1) p (by omega)]
  apply List.ext_getElem?
  intro i
  rw [List.getElem?_set]
  by_cases hi : i ≤ segs.length
  · rw [chainMemory_getElem? segs p i hi, chainMemory_getElem? segs (p + 1) i hi,
      chainMemory_length]
    by_cases hpi : p = i
    · subst hpi
      simp [chainCell, hp]
      omega
    · simp only [hpi, if_false]
      simp only [chainCell, Option.some.injEq, FrameCell.mk.injEq, true_and, and_true]
      by_cases h1 : p + 1 ≤ i
      · have h2 : p ≤ i := by omega
        simp [h1, h2]
      · have h2 : ¬ p ≤ i := by omega
        simp [h1, h2]
  · have h1 : (chainMemory segs p)[i]? = none :=
      List.getElem?_eq_none (by rw [chainMemory_length]; omega)
    have h2 : (chainMemory segs (p + 1))[i]? = none :=
      List.getElem?_eq_none (by rw [chainMemory_length]; omega)
    rw [h1, h2]
    have hpi : p ≠ i := by omega
    simp [hpi]

theorem prepareWalkLoop_chain (segs : List Key) :
    ∀ (p fuel : Nat), p < segs.length → p + 1 ≤ fuel →
      prepareWalkLoop fuel (chainMemory segs (p + 1)) (some p) (p + 1)
        = some (chainMemory segs 0, 0) := by
  intro p
  induction p with
  | zero =>
    intro fuel hp hfuel
    obtain ⟨fuel', rfl⟩ : ∃ f', fuel = f' + 1 := ⟨fuel - 1, by omega⟩
    rw [prepareWalkLoop, chainMemory_getElem? segs 1 0 (by omega)]
    simp only
    rw [chainMemory_setNext segs 0 hp]
    simp [chainCell, prepareWalkLoop]
  | succ q ih =>
    intro fuel hp hfuel
    obtain ⟨fuel', rfl⟩ : ∃ f', fuel = f' + 1 := ⟨fuel - 1, by omega⟩
    rw [prepareWalkLoop, chainMemory_getElem? segs (q + 1 + 1) (q + 1) (by omega)]
    simp only
    rw [chainMemory_setNext segs (q + 1) hp]
    have : (chainCell segs (q + 1 + 1) (q + 1)).prev = some q := by simp [chainCell]
    rw [this]
    exact ih fuel' (by omega) (by omega)

theorem prepareWalk_freshChain (segs : List Key) :
    prepareWalk (freshChain segs) segs.length
      = some (if segs.length = 0 then freshChain segs else chainMemory segs 0,
          if segs.length = 0 then none else some 1) := by
  unfold prepareWalk freshChain
  rw [chainMemory_getElem? segs _ _ (le_refl _)]
  by_cases hn : segs.length = 0
  · simp [chainCell, hn]
  · obtain ⟨p, hp⟩ : ∃ p, segs.length = p + 1 := ⟨segs.length - 1, by omega⟩
    have hprev : (chainCell segs segs.length segs.length).prev = some p := by
      simp [chainCell, hp]
    simp only [hprev, hn, if_false]
    rw [chainMemory_length]
    have := prepareWalkLoop_chain segs p (segs.length + 1) (by omega) (by omega)
    rw [← hp] at this
    rw [this]
    simp only
    rw [chainMemory_getElem? segs 0 0 (by omega)]
    simp only [chainCell, Nat.zero_le, true_and, show 0 < segs.length by omega, if_true]

theorem WalkLoop_chain {σ : Type} (f : σ → Key → σ) (segs : List Key) :
    ∀ (d i fuel : Nat) (s : σ), 1 ≤ i → i + d = segs.length → d + 1 ≤ fuel →
      WalkLoop f fuel (chainMemory segs 0) (some i) s
        = some ((segs.drop (i - 1)).foldl f s) := by
  intro d
  induction d with
  | zero =>
    intro i fuel s hi hn hfuel
    obtain ⟨fuel', rfl⟩ : ∃ f', fuel = f' + 1 := ⟨fuel - 1, by omega⟩
    rw [WalkLoop, chainMemory_getElem? segs 0 i (by omega)]
    have hlt : i - 1 < segs.length := by omega
    have hdrop : segs.drop (i - 1) = [segs[i - 1]] := by
      rw [List.drop_eq_getElem_cons hlt, List.drop_eq_nil_of_le (by omega)]
    have hnext : (chainCell segs 0 i).next = none := by
      simp [chainCell]; omega
    have hkey : (chainCell segs 0 i).key = segs[i - 1] := by
      simp only [chainCell, show i ≠ 0 by omega, if_false]
      rw [List.getD_eq_getElem?_getD, List.getElem?_eq_getElem hlt]
      rfl
    simp only [hnext, hkey, hdrop, List.foldl_cons, List.foldl_nil]
    cases fuel' <;> rfl
  | succ d ih =>
    intro i fuel s hi hn hfuel
    obtain ⟨fuel', rfl⟩ : ∃ f', fuel = f' + 1 := ⟨fuel - 1, by omega⟩
    rw [WalkLoop, chainMemory_getElem? segs 0 i (by omega)]
    have hlt : i - 1 < segs.length := by omega
    have hdrop : segs.drop (i - 1) = segs[i - 1] :: segs.drop i := by
      rw [List.drop_eq_getElem_cons hlt]
      congr 2
      omega
    have hnext : (chainCell segs 0 i).next = some (i + 1) := by
      simp [chainCell]; omega
    have hkey : (chainCell segs 0 i).key = segs[i - 1] := by
      simp only [chainCell, show i ≠ 0 by omega, if_false]
      rw [List.getD_eq_getElem?_getD, List.getElem?_eq_getElem hlt]
      rfl
    simp only [hnext, hkey, hdrop, List.foldl_cons]
    have := ih (i + 1) fuel' (f s segs[i - 1]) (by omega) (by omega) (by omega)
    rw [this]
    simp

theorem foldl_renderKey (segs : List Key) :
    ∀ (acc : List Char), segs.foldl (fun result key => result ++ renderKey key) acc
      = acc ++ (segs.map renderKey).flatten := by
  induction segs with
  | nil => intro acc; simp
  | cons k rest ih => intro acc; simp [ih]

/-- C15: for the chain of frames built from a default-constructed frame by
appending the segments `segs` in turn, `PrintTrace` called on the last frame
returns the concatenation, from the root to the leaf, of the segments
rendered as `.name` and `.[N]` with `N` in decimal, and the empty string when
there is no segment; the segments `a`, `2`, `b` give `.a.[2].b`. -/
theorem PrintTrace_freshChain (segs : List Key) :
    (PrintTrace (freshChain segs) segs.length).map Prod.fst
      = some ((segs.map renderKey).flatten) ∧
    (PrintTrace (freshChain []) 0).map Prod.fst = some [] ∧
    renderKey (Key.name ['a']) = ['.', 'a'] ∧
    renderKey (Key.index 2) = ['.', '[', '2', ']'] ∧
    (PrintTrace (freshChain [Key.name ['a'], Key.index 2, Key.name ['b']]) 3).map Prod.fst
      = some ['.', 'a', '.', '[', '2', ']', '.', 'b'] := by
  refine ⟨?_, by decide, by decide, by decide, by decide⟩
  unfold PrintTrace Walk
  rw [prepareWalk_freshChain]
  by_cases hn : segs.length = 0
  · have : segs = [] := List.length_eq_zero.mp hn
    subst this
    rfl
  · simp only [hn, if_false]
    rw [chainMemory_length,
      WalkLoop_chain _ segs (segs.length - 1) 1 (segs.length + 1) [] (le_refl _) (by omega)
        (by omega)]
    simp [foldl_renderKey]

/-! ## Class validators -/

theorem FromJsonStruct_eq {T : Type} (desc : Description T) (out : T) (json : JsonView)
    (frame : TraceFrame) :
    FromJsonStruct desc out json frame
      = FromJsonStructFields desc out json frame >>= fun out =>
          runValidator desc.classValidator out (TraceFrame.key desc.name frame) := by
  unfold FromJsonStruct FromJsonStructFields
  split_ifs <;> simp only [bind_assoc]

/-- C16 (refuted as stated): the ForeignError raised for a failing class
validator carries the frame of the record extended by a segment holding the
name of the record type, not the frame of the record itself; its rendering
ends in `.WithId`. -/
theorem class_validator_path_names_type :
    FromJsonStruct WithId.validated ⟨0⟩
        (JsonView.object 0 [⟨['i', 'd'], JsonView.ofSigned 0⟩]) TraceFrame.root
      = .error (JsonError.ForeignError "" (some "id must be positive")
          (TraceFrame.key ['W', 'i', 't', 'h', 'I', 'd'] TraceFrame.root)) ∧
    FromJsonStruct WithId.validated ⟨0⟩
        (JsonView.object 0 [⟨['i', 'd'], JsonView.ofSigned 0⟩]) TraceFrame.root
      ≠ .error (JsonError.ForeignError "" (some "id must be positive") TraceFrame.root) ∧
    (PrintTrace (freshChain
        (TraceFrame.key ['W', 'i', 't', 'h', 'I', 'd'] TraceFrame.root).segments) 1).map Prod.fst
      = some ['.', 'W', 'i', 't', 'h', 'I', 'd'] ∧
    (PrintTrace (freshChain TraceFrame.root.segments) 0).map Prod.fst = some [] := by
  refine ⟨by decide, by decide, by decide, by decide⟩

/-- C16 (amended): for a record type carrying a class-level validator, struct
`FromJson` first populates the fields; when that succeeds it applies the
validator once, to the populated object: if the validator raises `e`, the call
raises ForeignError whose nested cause is `e` and whose frame is the frame of
the record extended by a key segment holding the name of the record type; if
it does not raise, the call raises nothing and yields the object the validator
leaves.  When populating fails, the call raises that failure whatever the
validator is. -/
theorem FromJsonStruct_class_validator {T : Type} (desc : Description T)
    (validate : Validator T) (hcv : desc.classValidator = some validate)
    (dest : T) (json : JsonView) (frame : TraceFrame) :
    (∀ out, FromJsonStructFields desc dest json frame = .ok out →
      (∀ e, validate out = .error e →
        FromJsonStruct desc dest json frame
          = .error (JsonError.ForeignError "" (some e) (TraceFrame.key desc.name frame))) ∧
      (∀ out', validate out = .ok out' → FromJsonStruct desc dest json frame = .ok out')) ∧
    (∀ err, FromJsonStructFields desc dest json frame = .error err →
      FromJsonStruct desc dest json frame = .error err) := by
  rw [FromJsonStruct_eq, hcv]
  refine ⟨fun out hout => ⟨fun e he => ?_, fun out' hout' => ?_⟩, fun err herr => ?_⟩
  · rw [hout, ok_bind]
    simp only [runValidator, he]
    rfl
  · rw [hout, ok_bind]
    simp only [runValidator, hout']
    rfl
  · rw [herr, error_bind]

theorem FromJsonStruct_class_validator_witness :
    FromJsonStruct WithId.validated ⟨0⟩
        (JsonView.object 0 [⟨['i', 'd'], JsonView.ofSigned 0⟩]) TraceFrame.root
      = .error (JsonError.ForeignError "" (some "id must be positive")
          (TraceFrame.key WithId.validated.name TraceFrame.root)) ∧
    FromJsonStruct WithId.validated ⟨0⟩
        (JsonView.object 0 [⟨['i', 'd'], JsonView.ofSigned 4⟩]) TraceFrame.root = .ok ⟨4⟩ ∧
    FromJsonStruct WithId.validated ⟨0⟩ JsonView.ofNull TraceFrame.root
      = .error (JsonError.TypeMissmatch t_object t_null TraceFrame.root) :=
  ⟨((FromJsonStruct_class_validator WithId.validated _ rfl ⟨0⟩
      (JsonView.object 0 [⟨['i', 'd'], JsonView.ofSigned 0⟩]) TraceFrame.root).1 ⟨0⟩
      (by decide)).1 _ (by decide),
   ((FromJsonStruct_class_validator WithId.validated _ rfl ⟨0⟩
      (JsonView.object 0 [⟨['i', 'd'], JsonView.ofSigned 4⟩]) TraceFrame.root).1 ⟨4⟩
      (by decide)).2 _ (by decide),
   (FromJsonStruct_class_validator WithId.validated _ rfl ⟨0⟩ JsonView.ofNull
      TraceFrame.root).2 _ (by decide)⟩

/-! ## Enums -/

theorem name_to_enum_of_mem (desc : EnumDescription) (s : string_view) (v : Int)
    (hnd : (desc.fields.map Prod.fst).Nodup) (hmem : (s, v) ∈ desc.fields) :
    name_to_enum desc s = some v := by
  unfold name_to_enum
  generalize desc.fields = fields at hnd hmem
  induction fields with
  | nil => cases hmem
  | cons f rest ih =>
    simp only [List.map_cons, List.nodup_cons] at hnd
    rw [List.find?_cons]
    by_cases hf : f.1 = s
    · simp only [hf, decide_True, Option.map_some']
      rcases List.mem_cons.mp hmem with h | h
      · rw [← h]
      · exact absurd (List.mem_map_of_mem Prod.fst h) (by rw [← hf]; exact hnd.1)
    · simp only [hf, decide_False]
      rcases List.mem_cons.mp hmem with h | h
      · exact absurd (by rw [← h]) hf
      · exact ih hnd.2 h

theorem name_to_enum_of_absent (desc : EnumDescription) (s : string_view)
    (habs : s ∉ desc.fields.map Prod.fst) : name_to_enum desc s = none := by
  unfold name_to_enum
  rw [Option.map_eq_none', List.find?_eq_none]
  intro f hf
  simp only [decide_eq_true_eq]
  intro heq
  exact habs (heq ▸ List.mem_map_of_mem Prod.fst hf)

theorem enum_to_name_mem (desc : EnumDescription) (v : Int) (n : string_view)
    (h : enum_to_name desc v = some n) : (n, v) ∈ desc.fields := by
  unfold enum_to_name at h
  rw [Option.map_eq_some'] at h
  obtain ⟨f, hf, rfl⟩ := h
  have hv := List.find?_some hf
  simp only [decide_eq_true_eq] at hv
  have := List.mem_of_find?_eq_some hf
  rw [← hv]
  exact this

theorem enum_to_name_of_absent (desc : EnumDescription) (v : Int)
    (habs : v ∉ desc.fields.map Prod.snd) : enum_to_name desc v = none := by
  unfold enum_to_name
  rw [Option.map_eq_none', List.find?_eq_none]
  intro f hf
  simp only [decide_eq_true_eq]
  intro heq
  exact habs (heq ▸ List.mem_map_of_mem Prod.snd hf)

theorem enum_to_name_of_mem (desc : EnumDescription) (v : Int)
    (hmem : v ∈ desc.fields.map Prod.snd) : ∃ n, enum_to_name desc v = some n := by
  cases h : enum_to_name desc v with
  | some n => exact ⟨n, rfl⟩
  | none =>
    unfold enum_to_name at h
    rw [Option.map_eq_none', List.find?_eq_none] at h
    obtain ⟨f, hf, rfl⟩ := List.mem_map.mp hmem
    exact absurd (h f hf) (by simp)

theorem FromJsonString_string (flags : Flags) (s : string_view) (frame : TraceFrame) :
    FromJsonString (JsonView.scalar flags (Scalar.string s)) frame = .ok s := by
  simp [FromJsonString, JsonView.AssertType, JsonView.Is, JsonView.GetType, t_string,
    JsonView.GetStringUnsafe]
  rfl

theorem FromJsonEnum_by_name_aux (desc : EnumDescription) (s : string_view) (v : Int)
    (out : Int) (frame : TraceFrame) (hname : desc.attrEnumAsInteger = false)
    (hnd : (desc.fields.map Prod.fst).Nodup) (hv : (s, v) ∈ desc.fields) :
    FromJsonEnum desc out (JsonView.ofString s) frame = .ok v := by
  simp only [FromJsonEnum, hname, Bool.false_eq_true, if_false, JsonView.ofString,
    FromJsonString_string, ok_bind, name_to_enum_of_mem desc s v hnd hv]
  rfl

/-- C17: for a name-encoded enum and a string cell `s`: if `s` is a declared
name, `FromJson` yields the value that name is declared with; if `s` is not a
declared name and a fallback is declared, it yields the fallback without
raising; if `s` is not a declared name and no fallback is declared, it raises
ForeignError. -/
theorem FromJsonEnum_by_name (desc : EnumDescription) (flags : Flags) (s : string_view)
    (out : Int) (frame : TraceFrame) (hname : desc.attrEnumAsInteger = false)
    (hnd : (desc.fields.map Prod.fst).Nodup) :
    (∀ v, (s, v) ∈ desc.fields →
      FromJsonEnum desc out (JsonView.scalar flags (Scalar.string s)) frame = .ok v) ∧
    (s ∉ desc.fields.map Prod.fst → ∀ X, desc.fallback = some X →
      FromJsonEnum desc out (JsonView.scalar flags (Scalar.string s)) frame = .ok X) ∧
    (s ∉ desc.fields.map Prod.fst → desc.fallback = none →
      ∃ msg, FromJsonEnum desc out (JsonView.scalar flags (Scalar.string s)) frame
        = .error (JsonError.ForeignError msg none frame)) := by
  refine ⟨fun v hv => ?_, fun habs X hX => ?_, fun habs hnone => ?_⟩
  · simp only [FromJsonEnum, hname, Bool.false_eq_true, if_false, FromJsonString_string,
      ok_bind, name_to_enum_of_mem desc s v hnd hv]
    rfl
  · simp only [FromJsonEnum, hname, Bool.false_eq_true, if_false, FromJsonString_string,
      ok_bind, name_to_enum_of_absent desc s habs, hX]
    rfl
  · refine ⟨"invalid string for enum '" ++ String.mk desc.name ++ "': " ++ String.mk s, ?_⟩
    simp only [FromJsonEnum, hname, Bool.false_eq_true, if_false, FromJsonString_string,
      ok_bind, name_to_enum_of_absent desc s habs, hnone]
    rfl

theorem FromJsonEnum_by_name_witness :
    FromJsonEnum Color.desc 0 (JsonView.ofString ['G', 'R', 'E', 'E', 'N']) TraceFrame.root
      = .ok 2 ∧
    FromJsonEnum Color.withFallback 0
      (JsonView.ofString ['U', 'N', 'K', 'N', 'O', 'W', 'N']) TraceFrame.root = .ok 1 ∧
    ∃ msg, FromJsonEnum Color.desc 0
      (JsonView.ofString ['U', 'N', 'K', 'N', 'O', 'W', 'N']) TraceFrame.root
        = .error (JsonError.ForeignError msg none TraceFrame.root) :=
  ⟨(FromJsonEnum_by_name Color.desc 0 ['G', 'R', 'E', 'E', 'N'] 0 TraceFrame.root rfl
      (by decide)).1 2 (by decide),
   (FromJsonEnum_by_name Color.withFallback 0 ['U', 'N', 'K', 'N', 'O', 'W', 'N'] 0
      TraceFrame.root rfl (by decide)).2.1 (by decide) 1 rfl,
   (FromJsonEnum_by_name Color.desc 0 ['U', 'N', 'K', 'N', 'O', 'W', 'N'] 0
      TraceFrame.root rfl (by decide)).2.2 (by decide) rfl⟩

/-- C18: for a name-encoded enum and a value `v`, `IntoJson` returns the
string cell of the declared name of `v` when `v` has one, of the declared
name of the fallback when `v` has no name and a fallback constant is declared,
and raises `std::runtime_error`, producing no cell, when `v` has no name and no
fallback is declared; hence for every declared value, the names being
distinct, `FromJson` of `IntoJson` of the value is the value. -/
theorem IntoJsonEnum_by_name (desc : EnumDescription) (v : Int) (ctx : Arena)
    (hname : desc.attrEnumAsInteger = false) :
    (v ∈ desc.fields.map Prod.snd →
      ∃ n, (n, v) ∈ desc.fields ∧ IntoJsonEnum desc v ctx = .ok (JsonView.ofString n, ctx)) ∧
    (v ∉ desc.fields.map Prod.snd → ∀ X, desc.fallback = some X →
      X ∈ desc.fields.map Prod.snd →
      ∃ n, (n, X) ∈ desc.fields ∧ IntoJsonEnum desc v ctx = .ok (JsonView.ofString n, ctx)) ∧
    (v ∉ desc.fields.map Prod.snd → desc.fallback = none →
      ∃ msg, IntoJsonEnum desc v ctx = .error (JsonError.runtime_error msg)) ∧
    (v ∈ desc.fields.map Prod.snd → (desc.fields.map Prod.fst).Nodup →
      ∀ (out : Int) (frame : TraceFrame), ∃ cell,
        IntoJsonEnum desc v ctx = .ok (cell, ctx) ∧ FromJsonEnum desc out cell frame = .ok v) := by
  have hdeclared : v ∈ desc.fields.map Prod.snd →
      ∃ n, (n, v) ∈ desc.fields ∧ IntoJsonEnum desc v ctx = .ok (JsonView.ofString n, ctx) := by
    intro hv
    obtain ⟨n, hn⟩ := enum_to_name_of_mem desc v hv
    refine ⟨n, enum_to_name_mem desc v n hn, ?_⟩
    simp only [IntoJsonEnum, hname, Bool.false_eq_true, if_false, hn]
    rfl
  refine ⟨hdeclared, fun habs X hX hXd => ?_, fun habs hnone => ?_, fun hv hnd out frame => ?_⟩
  · obtain ⟨n, hn⟩ := enum_to_name_of_mem desc X hXd
    refine ⟨n, enum_to_name_mem desc X n hn, ?_⟩
    simp only [IntoJsonEnum, hname, Bool.false_eq_true, if_false,
      enum_to_name_of_absent desc v habs, hX, hn]
    rfl
  · refine ⟨"invalid enum value for '" ++ String.mk desc.name ++ "': " ++ toString v, ?_⟩
    simp only [IntoJsonEnum, hname, Bool.false_eq_true, if_false,
      enum_to_name_of_absent desc v habs, hnone]
    rfl
  · obtain ⟨n, hmem, hinto⟩ := hdeclared hv
    exact ⟨_, hinto, (FromJsonEnum_by_name_aux desc n v out frame hname hnd hmem)⟩

theorem IntoJsonEnum_by_name_witness :
    (∃ n, (n, 2) ∈ Color.desc.fields ∧
      IntoJsonEnum Color.desc 2 Arena.unbounded = .ok (JsonView.ofString n, Arena.unbounded)) ∧
    (∃ n, (n, 1) ∈ Color.withFallback.fields ∧
      IntoJsonEnum Color.withFallback 7 Arena.unbounded
        = .ok (JsonView.ofString n, Arena.unbounded)) ∧
    (∃ msg, IntoJsonEnum Color.desc 7 Arena.unbounded = .error (JsonError.runtime_error msg)) ∧
    (∃ cell, IntoJsonEnum Color.desc 2 Arena.unbounded = .ok (cell, Arena.unbounded) ∧
      FromJsonEnum Color.desc 0 cell TraceFrame.root = .ok 2) :=
  ⟨(IntoJsonEnum_by_name Color.desc 2 Arena.unbounded rfl).1 (by decide),
   (IntoJsonEnum_by_name Color.withFallback 7 Arena.unbounded rfl).2.1 (by decide) 1 rfl
     (by decide),
   (IntoJsonEnum_by_name Color.desc 7 Arena.unbounded rfl).2.2.1 (by decide) rfl,
   (IntoJsonEnum_by_name Color.desc 2 Arena.unbounded rfl).2.2.2 (by decide) (by decide) 0
     TraceFrame.root⟩

theorem IntoJsonIntegral_roundtrip (U : IntType) (v : Int) (frame : TraceFrame)
    (hU : U.bits = 8 ∨ U.bits = 16 ∨ U.bits = 32 ∨ U.bits = 64)
    (hv : U.min ≤ v ∧ v ≤ U.max) :
    FromJsonIntegral U (IntoJsonIntegral U v) frame = .ok v := by
  obtain ⟨s, b⟩ := U
  simp only at hU
  cases s
  · have hnn : 0 ≤ v := by simpa [IntType.min] using hv.1
    have hlt : v < 2 ^ 64 := by
      have := hv.2
      rcases hU with rfl | rfl | rfl | rfl <;> simp [IntType.max] at this <;> omega
    have hcast : IntType.uint64.cast v = v := by
      simp [IntType.cast, IntType.uint64]
      omega
    simp only [IntoJsonIntegral, Bool.false_eq_true, if_false, hcast, JsonView.ofUnsigned,
      FromJsonIntegral]
    rw [intChecked_eq _ IntType.uint64 _ _ frame (Or.inr rfl) hU
      (by simp [IntType.min, IntType.max, IntType.uint64]; omega)]
    rw [Int.toNat_of_nonneg hnn, if_pos hv]
  · have hrange : -(2 ^ 63 : Int) ≤ v ∧ v < 2 ^ 63 := by
      have h1 := hv.1
      have h2 := hv.2
      rcases hU with rfl | rfl | rfl | rfl <;> simp [IntType.min, IntType.max] at h1 h2 <;>
        omega
    have hcast : IntType.int64.cast v = v := by
      simp [IntType.cast, IntType.int64]
      omega
    simp only [IntoJsonIntegral, if_true, hcast, JsonView.ofSigned, FromJsonIntegral]
    rw [intChecked_eq _ IntType.int64 _ _ frame (Or.inl rfl) hU
      (by simp [IntType.min, IntType.max, IntType.int64]; omega), if_pos hv]

/-- C19: for an enum marked `EnumAsInteger` with underlying type `U`,
`FromJson` is integer narrowing to `U`: for an integer cell with value `n` in
the range of `U` it yields the enum value with the representation `n`, declared
or not, for an integer cell with value outside that range it raises
IntRangeError, and `FromJson` of `IntoJson` of a value is the value, for every
value of the underlying type. -/
theorem EnumAsInteger_conversion (desc : EnumDescription) (out : Int) (frame : TraceFrame)
    (ctx : Arena) (hint : desc.attrEnumAsInteger = true)
    (hU : desc.underlying.bits = 8 ∨ desc.underlying.bits = 16 ∨ desc.underlying.bits = 32 ∨
      desc.underlying.bits = 64) :
    (∀ json, FromJsonEnum desc out json frame = FromJsonIntegral desc.underlying json frame) ∧
    (∀ (flags : Flags) (n : Int), IntType.int64.min ≤ n ∧ n ≤ IntType.int64.max →
      FromJsonEnum desc out (JsonView.scalar flags (Scalar.integer n)) frame
        = if desc.underlying.min ≤ n ∧ n ≤ desc.underlying.max then .ok n
          else .error (JsonError.IntRangeError false n desc.underlying.min
            desc.underlying.max frame)) ∧
    (∀ (flags : Flags) (u : Nat), (u : Int) ≤ IntType.uint64.max →
      FromJsonEnum desc out (JsonView.scalar flags (Scalar.uinteger u)) frame
        = if desc.underlying.min ≤ (u : Int) ∧ (u : Int) ≤ desc.underlying.max then .ok (u : Int)
          else .error (JsonError.IntRangeError true u desc.underlying.min
            desc.underlying.max frame)) ∧
    (∀ v, desc.underlying.min ≤ v ∧ v ≤ desc.underlying.max →
      IntoJsonEnum desc v ctx = .ok (IntoJsonIntegral desc.underlying v, ctx) ∧
      FromJsonEnum desc out (IntoJsonIntegral desc.underlying v) frame = .ok v) := by
  have h1 : ∀ json, FromJsonEnum desc out json frame
      = FromJsonIntegral desc.underlying json frame := by
    intro json
    simp only [FromJsonEnum, hint, if_true]
    cases FromJsonIntegral desc.underlying json frame <;> rfl
  refine ⟨h1, fun flags n hn => ?_, fun flags u hu => ?_, fun v hv => ⟨?_, ?_⟩⟩
  · rw [h1]
    simp only [FromJsonIntegral]
    rw [intChecked_eq _ IntType.int64 _ _ frame (Or.inl rfl) hU hn]
    rfl
  · rw [h1]
    simp only [FromJsonIntegral]
    rw [intChecked_eq _ IntType.uint64 _ _ frame (Or.inr rfl) hU
      ⟨by simp [IntType.min, IntType.uint64], hu⟩]
    rfl
  · simp only [IntoJsonEnum, hint, if_true]
    rfl
  · rw [h1]
    exact IntoJsonIntegral_roundtrip desc.underlying v frame hU hv

theorem EnumAsInteger_conversion_witness :
    FromJsonEnum Color.asInteger 0 (JsonView.scalar 0 (Scalar.integer 77)) TraceFrame.root
      = .ok 77 ∧
    FromJsonEnum Color.asInteger 0 (JsonView.scalar 0 (Scalar.integer (2 ^ 31))) TraceFrame.root
      = .error (JsonError.IntRangeError false (2 ^ 31) (-(2 ^ 31)) (2 ^ 31 - 1)
          TraceFrame.root) ∧
    FromJsonEnum Color.asInteger 0 (IntoJsonIntegral IntType.int32 77) TraceFrame.root
      = .ok 77 :=
  ⟨(EnumAsInteger_conversion Color.asInteger 0 TraceFrame.root Arena.unbounded rfl
      (Or.inr (Or.inr (Or.inl rfl)))).2.1 0 77 (by decide),
   (EnumAsInteger_conversion Color.asInteger 0 TraceFrame.root Arena.unbounded rfl
      (Or.inr (Or.inr (Or.inl rfl)))).2.1 0 (2 ^ 31) (by decide),
   ((EnumAsInteger_conversion Color.asInteger 0 TraceFrame.root Arena.unbounded rfl
      (Or.inr (Or.inr (Or.inl rfl)))).2.2.2 77 (by decide)).2⟩

/-! ## Depth -/

/-- Deserializing the array nested `k + 1` levels deep succeeds at every `k`. -/
theorem convertNested_from (k : Nat) :
    ∀ (out : NestedVector k) (frame : TraceFrame),
      (convertNested k).DoFromJson out (nestedArray k) frame = .ok (NestedVector.nest k) := by
  induction k with
  | zero => intro out frame; rfl
  | succ k ih =>
    intro out frame
    show FromJsonVector (convertNested k) (NestedVector.empty k) out
      (JsonView.array 0 [nestedArray k]) frame = .ok [NestedVector.nest k]
    simp only [FromJsonVector, AssertType_array, ok_bind, JsonView.items, List.foldlM_cons,
      List.foldlM_nil, FromJsonVectorElement, ih, pure_eq, List.nil_append]

/-- Serializing the vector nested `k + 1` levels deep succeeds at every `k`
on an arena that serves every request. -/
theorem convertNested_into (k : Nat) :
    ∀ (a : Arena), a.grants = (fun _ => true) →
      ∃ a', (convertNested k).DoIntoJson (NestedVector.nest k) a = .ok (nestedArray k, a') ∧
        a'.grants = (fun _ => true) := by
  induction k with
  | zero => intro a ha; exact ⟨a, rfl, ha⟩
  | succ k ih =>
    intro a ha
    obtain ⟨a', h1, h2⟩ := ih (a.alloc (sizeof_JsonView * 1) alignof_JsonView).2
      (by simpa [Arena.alloc] using ha)
    refine ⟨a', ?_, h2⟩
    show IntoJsonVector (convertNested k) [NestedVector.nest k] a = _
    have hmade : MakeArrayOf 1 a
        = .ok (true, (a.alloc (sizeof_JsonView * 1) alignof_JsonView).2) := by
      simp [MakeArrayOf, Arena.alloc, ha]
      rfl
    simp only [IntoJsonVector, List.length_cons, List.length_nil, Nat.zero_add, hmade, ok_bind,
      List.foldlM_cons, List.foldlM_nil, IntoJsonVectorElement, h1, pure_eq]
    rfl

/-- C20 (refuted as stated): the array nested one level deeper than the
default budget `JV_DEFAULT_DEPTH` is deserialized, and the matching vector
serialized, without DepthError; the conversions take no budget. -/
theorem nested_beyond_default_depth :
    JV_DEFAULT_DEPTH = 300 ∧
    (convertNested JV_DEFAULT_DEPTH).DoFromJson (NestedVector.empty JV_DEFAULT_DEPTH)
        (nestedArray JV_DEFAULT_DEPTH) TraceFrame.root
      = .ok (NestedVector.nest JV_DEFAULT_DEPTH) ∧
    (convertNested JV_DEFAULT_DEPTH).DoFromJson (NestedVector.empty JV_DEFAULT_DEPTH)
        (nestedArray JV_DEFAULT_DEPTH) TraceFrame.root
      ≠ .error JsonError.DepthError ∧
    ((convertNested JV_DEFAULT_DEPTH).DoIntoJson (NestedVector.nest JV_DEFAULT_DEPTH)
        Arena.unbounded).map Prod.fst ≠ .error JsonError.DepthError := by
  refine ⟨rfl, convertNested_from _ _ _, ?_, ?_⟩
  · rw [convertNested_from]
    intro h
    cases h
  · obtain ⟨a', h, _⟩ := convertNested_into JV_DEFAULT_DEPTH Arena.unbounded rfl
    rw [h]
    intro h'
    cases h'

/-- C20 (amended): `DepthError::Check(depth)` raises DepthError exactly when
`depth` is zero; the conversions of json_view.hpp take no depth budget and do
not call it: deserializing the array nested `depth` levels deep into the
nested vector type of as many levels succeeds for every `depth`, and so does
serializing the nested vector on an arena that serves every request. -/
theorem conversions_have_no_depth_budget :
    (∀ depth, DepthError.Check depth = .error JsonError.DepthError ↔ depth = 0) ∧
    (∀ (k : Nat) (out : NestedVector k) (frame : TraceFrame),
      (convertNested k).DoFromJson out (nestedArray k) frame = .ok (NestedVector.nest k)) ∧
    (∀ (k : Nat), ((convertNested k).DoIntoJson (NestedVector.nest k) Arena.unbounded).map
      Prod.fst = .ok (nestedArray k)) := by
  refine ⟨fun depth => ?_, convertNested_from, fun k => ?_⟩
  · unfold DepthError.Check
    by_cases h : depth = 0
    · simp [h]
      rfl
    · simp only [h, if_false, iff_false]
      intro h'
      cases h'
  · obtain ⟨a', h, _⟩ := convertNested_into k Arena.unbounded rfl
    rw [h]
    rfl

/-! ## Numeric destinations -/

/-- C21: `FromJson` into a floating destination succeeds exactly for the cells
of kind signed, unsigned or floating and raises TypeMismatch with wanted =
signed | unsigned | floating for every other kind; `FromJson` into an integer
destination raises TypeMismatch with wanted = signed | unsigned for every cell
that is neither signed nor unsigned, floating cells included, and for a signed
or unsigned cell it is `intChecked` of the payload. -/
theorem numeric_FromJson_kinds (T : IntType) (json : JsonView) (frame : TraceFrame) :
    ((∃ v, FromJsonFloating json frame = .ok v) ↔
      (json.GetType = t_signed ∨ json.GetType = t_unsigned ∨ json.GetType = t_number)) ∧
    (¬(json.GetType = t_signed ∨ json.GetType = t_unsigned ∨ json.GetType = t_number) →
      FromJsonFloating json frame =
        .error (JsonError.TypeMissmatch (t_signed ||| t_unsigned ||| t_number)
          json.GetType frame)) ∧
    (¬(json.GetType = t_signed ∨ json.GetType = t_unsigned) →
      FromJsonIntegral T json frame =
        .error (JsonError.TypeMissmatch (t_signed ||| t_unsigned) json.GetType frame)) ∧
    (∀ (flags : Flags) (bits : Nat),
      FromJsonIntegral T (JsonView.scalar flags (Scalar.number bits)) frame =
        .error (JsonError.TypeMissmatch (t_signed ||| t_unsigned) t_number frame)) ∧
    (json.GetType = t_signed → ∃ (flags : Flags) (i : Int),
      json = JsonView.scalar flags (Scalar.integer i) ∧
      FromJsonIntegral T json frame = intChecked T IntType.int64 json i frame) ∧
    (json.GetType = t_unsigned → ∃ (flags : Flags) (u : Nat),
      json = JsonView.scalar flags (Scalar.uinteger u) ∧
      FromJsonIntegral T json frame = intChecked T IntType.uint64 json u frame) := by
  refine ⟨?_, ?_, ?_, fun _ _ => rfl, ?_, ?_⟩
  · cases json with
    | scalar f d =>
      cases d <;>
        simp [FromJsonFloating, JsonView.GetType, JsonView.throwMissmatch, t_signed, t_unsigned,
          t_number, t_null, t_boolean, t_string, t_binary, t_discarded, t_custom, pure_eq]
    | array f xs =>
      simp [FromJsonFloating, JsonView.GetType, JsonView.throwMissmatch, t_signed, t_unsigned,
        t_number, t_array]
    | object f xs =>
      simp [FromJsonFloating, JsonView.GetType, JsonView.throwMissmatch, t_signed, t_unsigned,
        t_number, t_object]
  · intro h
    cases json with
    | scalar f d =>
      cases d <;> first
        | rfl
        | exact absurd (by simp [JsonView.GetType]) h
    | array f xs => rfl
    | object f xs => rfl
  · intro h
    cases json with
    | scalar f d =>
      cases d <;> first
        | rfl
        | exact absurd (by simp [JsonView.GetType]) h
    | array f xs => rfl
    | object f xs => rfl
  · intro h
    cases json with
    | scalar f d =>
      cases d <;> first
        | exact ⟨_, _, rfl, rfl⟩
        | exact absurd h (by simp [JsonView.GetType, t_signed, t_unsigned, t_number, t_null, t_boolean,
            t_string, t_binary, t_discarded, t_custom, t_array, t_object])
    | array f xs => exact absurd h (by simp [JsonView.GetType, t_signed, t_unsigned, t_number, t_null, t_boolean,
            t_string, t_binary, t_discarded, t_custom, t_array, t_object])
    | object f xs => exact absurd h (by simp [JsonView.GetType, t_signed, t_unsigned, t_number, t_null, t_boolean,
            t_string, t_binary, t_discarded, t_custom, t_array, t_object])
  · intro h
    cases json with
    | scalar f d =>
      cases d <;> first
        | exact ⟨_, _, rfl, rfl⟩
        | exact absurd h (by simp [JsonView.GetType, t_signed, t_unsigned, t_number, t_null, t_boolean,
            t_string, t_binary, t_discarded, t_custom, t_array, t_object])
    | array f xs => exact absurd h (by simp [JsonView.GetType, t_signed, t_unsigned, t_number, t_null, t_boolean,
            t_string, t_binary, t_discarded, t_custom, t_array, t_object])
    | object f xs => exact absurd h (by simp [JsonView.GetType, t_signed, t_unsigned, t_number, t_null, t_boolean,
            t_string, t_binary, t_discarded, t_custom, t_array, t_object])

theorem numeric_FromJson_kinds_witness :
    FromJsonFloating (JsonView.ofString ['1']) TraceFrame.root
      = .error (JsonError.TypeMissmatch (t_signed ||| t_unsigned ||| t_number) t_string
          TraceFrame.root) ∧
    FromJsonIntegral IntType.int32 (JsonView.scalar 0 (Scalar.boolean true)) TraceFrame.root
      = .error (JsonError.TypeMissmatch (t_signed ||| t_unsigned) t_boolean TraceFrame.root) ∧
    (∃ v, FromJsonFloating (JsonView.ofUnsigned 7) TraceFrame.root = .ok v) :=
  ⟨(numeric_FromJson_kinds IntType.int32 (JsonView.ofString ['1']) TraceFrame.root).2.1
      (by decide),
   (numeric_FromJson_kinds IntType.int32 (JsonView.scalar 0 (Scalar.boolean true))
      TraceFrame.root).2.2.1 (by decide),
   (numeric_FromJson_kinds IntType.int32 (JsonView.ofUnsigned 7) TraceFrame.root).1.mpr
      (Or.inr (Or.inl rfl))⟩

/-! ## Lookup in objects not flagged sorted -/

/-- The linear scan returns the first entry with the key. -/
theorem linearFind_first {V : Type} (object : List (JsonPair V)) (key : string_view) :
    ∀ (off i : Nat) (p : JsonPair V), object[i]? = some p → p.key = key →
      (∀ (j : Nat) (q : JsonPair V), j < i → object[j]? = some q → q.key ≠ key) →
      linearFind object key off = some (off + i, p) := by
  induction object with
  | nil => intro off i p h; simp at h
  | cons c rest ih =>
    intro off i p hp hk hmin
    cases i with
    | zero =>
      simp only [List.getElem?_cons_zero, Option.some.injEq] at hp
      subst hp
      simp [linearFind, hk]
    | succ i =>
      have hc : c.key ≠ key := hmin 0 c (Nat.succ_pos i) (by simp)
      rw [linearFind, if_neg hc]
      rw [List.getElem?_cons_succ] at hp
      have := ih (off + 1) i p hp hk (fun j q hj hq =>
        hmin (j + 1) q (Nat.succ_lt_succ hj) (by rw [List.getElem?_cons_succ]; exact hq))
      rw [this]
      congr 2
      omega

theorem Find_unsorted (flags : Flags) (entries : List (JsonPair JsonView)) (key : string_view)
    (frame : TraceFrame) (hu : (JsonView.object flags entries).HasFlag f_sorted = false) :
    (JsonView.object flags entries).Find key frame = .ok (linearFind entries key 0) := by
  unfold JsonView.Find
  rw [AssertType_object]
  show (if (JsonView.object flags entries).HasFlag f_sorted = true then _ else _) = _
  rw [if_neg (by simp [hu])]; rfl

/-- C22: for an object cell that does not carry the sorted flag (entries in any
order, keys may repeat) and every key `k`: `Find` returns the pointer to the
entry at the smallest position whose key is `k`, and `At` that entry's value;
when no entry has the key `k`, `Find` returns the null pointer and `At` raises
KeyError for `k`; and one of the two cases applies. -/
theorem Find_unsorted_first_match (flags : Flags) (entries : List (JsonPair JsonView))
    (k : string_view) (frame : TraceFrame)
    (hu : (JsonView.object flags entries).HasFlag f_sorted = false) :
    (∀ (i : Nat) (p : JsonPair JsonView), entries[i]? = some p → p.key = k →
      (∀ (j : Nat) (q : JsonPair JsonView), j < i → entries[j]? = some q → q.key ≠ k) →
      (JsonView.object flags entries).Find k frame = .ok (some (i, p)) ∧
      (JsonView.object flags entries).At k frame = .ok p.value) ∧
    ((∀ p ∈ entries, p.key ≠ k) →
      (JsonView.object flags entries).Find k frame = .ok none ∧
      (JsonView.object flags entries).At k frame = .error (JsonError.KeyError k frame)) ∧
    ((∀ p ∈ entries, p.key ≠ k) ∨
      ∃ (i : Nat) (p : JsonPair JsonView), entries[i]? = some p ∧ p.key = k ∧
        ∀ (j : Nat) (q : JsonPair JsonView), j < i → entries[j]? = some q → q.key ≠ k) := by
  have hF := Find_unsorted flags entries k frame hu
  refine ⟨?_, ?_, ?_⟩
  · intro i p hp hk hmin
    have h := linearFind_first entries k 0 i p hp hk hmin
    rw [Nat.zero_add] at h
    refine ⟨by rw [hF, h], ?_⟩
    simp only [JsonView.At, hF, h, ok_bind]
    rfl
  · intro ha
    have h := linearFind_of_absent entries k ha
    refine ⟨by rw [hF, h], ?_⟩
    simp only [JsonView.At, hF, h, ok_bind]
    rfl
  · by_cases hex : ∃ (i : Nat) (p : JsonPair JsonView), entries[i]? = some p ∧ p.key = k
    · right
      classical
      have hex' : ∃ (i : Nat) (p : JsonPair JsonView), entries[i]? = some p ∧ p.key = k := hex
      refine ⟨Nat.find hex', ?_⟩
      obtain ⟨p, hp, hk⟩ := Nat.find_spec hex'
      refine ⟨p, hp, hk, ?_⟩
      intro j q hj hq hqk
      exact Nat.find_min hex' hj ⟨q, hq, hqk⟩
    · left
      intro p hp hk
      obtain ⟨i, hi⟩ := List.mem_iff_getElem?.mp hp
      exact hex ⟨i, p, hi, hk⟩

theorem Find_unsorted_first_match_witness :
    (JsonView.object 0 [⟨['b'], .ofSigned 1⟩, ⟨['a'], .ofSigned 2⟩, ⟨['a'], .ofSigned 3⟩]).Find
        ['a'] TraceFrame.root = .ok (some (1, ⟨['a'], .ofSigned 2⟩)) ∧
    (JsonView.object 0 [⟨['b'], .ofSigned 1⟩, ⟨['a'], .ofSigned 2⟩, ⟨['a'], .ofSigned 3⟩]).At
        ['a'] TraceFrame.root = .ok (.ofSigned 2) ∧
    (JsonView.object 0 [⟨['b'], .ofSigned 1⟩, ⟨['a'], .ofSigned 2⟩, ⟨['a'], .ofSigned 3⟩]).At
        ['c'] TraceFrame.root = .error (JsonError.KeyError ['c'] TraceFrame.root) :=
  ⟨((Find_unsorted_first_match 0
      [⟨['b'], .ofSigned 1⟩, ⟨['a'], .ofSigned 2⟩, ⟨['a'], .ofSigned 3⟩] ['a'] TraceFrame.root
      (by decide)).1 1 ⟨['a'], .ofSigned 2⟩ rfl rfl (by
        intro j q hj hq
        have hj0 : j = 0 := by omega
        subst hj0
        simp only [List.getElem?_cons_zero, Option.some.injEq] at hq
        subst hq
        decide)).1,
   ((Find_unsorted_first_match 0
      [⟨['b'], .ofSigned 1⟩, ⟨['a'], .ofSigned 2⟩, ⟨['a'], .ofSigned 3⟩] ['a'] TraceFrame.root
      (by decide)).1 1 ⟨['a'], .ofSigned 2⟩ rfl rfl (by
        intro j q hj hq
        have hj0 : j = 0 := by omega
        subst hj0
        simp only [List.getElem?_cons_zero, Option.some.injEq] at hq
        subst hq
        decide)).2,
   ((Find_unsorted_first_match 0
      [⟨['b'], .ofSigned 1⟩, ⟨['a'], .ofSigned 2⟩, ⟨['a'], .ofSigned 3⟩] ['c'] TraceFrame.root
      (by decide)).2.1 (by
        intro p hp
        simp only [List.mem_cons, List.mem_singleton, List.not_mem_nil, or_false] at hp
        rcases hp with rfl | rfl | rfl <;> decide)).2⟩

/-! ## Sets of kinds and sizes -/

theorem GetType_mem_kinds (j : JsonView) : j.GetType ∈ kinds := by
  cases j with
  | scalar f d => cases d <;> simp [JsonView.GetType, kinds]
  | array f xs => simp [JsonView.GetType, kinds]
  | object f xs => simp [JsonView.GetType, kinds]

/-- Two kinds have a bit in common exactly when they are the same kind and not null. -/
theorem kind_and_kind (a b : Type_) (ha : a ∈ kinds) (hb : b ∈ kinds) :
    a &&& b ≠ 0 ↔ (a = b ∧ a ≠ 0) := by
  simp only [kinds, List.mem_cons, List.mem_singleton, List.not_mem_nil, or_false] at ha hb
  rcases ha with rfl | rfl | rfl | rfl | rfl | rfl | rfl | rfl | rfl | rfl | rfl <;>
    rcases hb with rfl | rfl | rfl | rfl | rfl | rfl | rfl | rfl | rfl | rfl | rfl <;>
    decide

theorem or_eq_zero_iff (x y : Nat) : x ||| y = 0 ↔ (x = 0 ∧ y = 0) := by
  constructor
  · intro h
    have hb : ∀ i, (x.testBit i || y.testBit i) = false := by
      intro i
      rw [← Nat.testBit_or, h, Nat.zero_testBit]
    constructor
    · apply Nat.eq_of_testBit_eq
      intro i
      have := hb i
      rw [Bool.or_eq_false_iff] at this
      rw [this.1, Nat.zero_testBit]
    · apply Nat.eq_of_testBit_eq
      intro i
      have := hb i
      rw [Bool.or_eq_false_iff] at this
      rw [this.2, Nat.zero_testBit]
  · rintro ⟨rfl, rfl⟩
    rfl

theorem kind_and_kindMask (a : Type_) (ha : a ∈ kinds) (W : List Type_)
    (hW : ∀ w ∈ W, w ∈ kinds) : a &&& kindMask W ≠ 0 ↔ (a ∈ W ∧ a ≠ 0) := by
  induction W with
  | nil => simp [kindMask]
  | cons w rest ih =>
    have h1 := kind_and_kind a w ha (hW w (List.mem_cons_self _ _))
    have h2 := ih (fun x hx => hW x (List.mem_cons_of_mem _ hx))
    rw [kindMask, Nat.and_or_distrib_left]
    have hor : ∀ x y : Nat, x ||| y ≠ 0 ↔ (x ≠ 0 ∨ y ≠ 0) := by
      intro x y
      rw [Ne, or_eq_zero_iff]
      tauto
    rw [hor, h1, h2, List.mem_cons]
    tauto

theorem kindMask_eq_zero (W : List Type_) : kindMask W = 0 ↔ ∀ w ∈ W, w = 0 := by
  induction W with
  | nil => simp [kindMask]
  | cons w rest ih =>
    rw [kindMask, or_eq_zero_iff, ih]
    simp

/-- C23 (refuted as stated): the set of the kinds null and string is the mask
of the kind string alone, and `AssertType` with it raises TypeMismatch for a
null cell, a member of the set. -/
theorem AssertType_null_in_union :
    kindMask [t_null, t_string] = t_null ||| t_string ∧
    JsonView.ofNull.GetType ∈ [t_null, t_string] ∧
    JsonView.ofNull.AssertType (t_null ||| t_string) TraceFrame.root
      = .error (JsonError.TypeMissmatch t_string t_null TraceFrame.root) := by
  decide

/-- C23 (amended): for every cell and every non-empty set `W` of kinds that is
the set of null alone or does not hold null, `AssertType` with the mask of `W`
succeeds exactly when the kind of the cell is a member of `W`, and otherwise
raises TypeMismatch with the mask and the kind.  `Size` returns the stored
size exactly when the kind is one of string, binary, array, object, and raises
TypeMismatch for every other kind. -/
theorem AssertType_iff_member (j : JsonView) (W : List Type_) (frame : TraceFrame)
    (hne : W ≠ []) (hW : ∀ w ∈ W, w ∈ kinds)
    (hnull : t_null ∉ W ∨ ∀ w ∈ W, w = t_null) :
    (j.AssertType (kindMask W) frame = .ok () ↔ j.GetType ∈ W) ∧
    (j.GetType ∉ W →
      j.AssertType (kindMask W) frame
        = .error (JsonError.TypeMissmatch (kindMask W) j.GetType frame)) ∧
    (j.Size = .ok j.size ↔ j.GetType ∈ [t_string, t_binary, t_array, t_object]) ∧
    (j.GetType ∉ [t_string, t_binary, t_array, t_object] →
      j.Size = .error (JsonError.TypeMissmatch (t_array ||| t_object ||| t_string ||| t_binary)
        j.GetType TraceFrame.root)) := by
  have hmem : ∀ (V : List Type_), V ≠ [] → (∀ w ∈ V, w ∈ kinds) →
      (t_null ∉ V ∨ ∀ w ∈ V, w = t_null) → (j.Is (kindMask V) = true ↔ j.GetType ∈ V) := by
    intro V hVne hV hVnull
    unfold JsonView.Is
    rcases hVnull with h0 | h0
    · have hm : kindMask V ≠ 0 := by
        intro hz
        obtain ⟨w, hw⟩ := List.exists_mem_of_ne_nil V hVne
        have := (kindMask_eq_zero V).mp hz w hw
        rw [this] at hw
        exact h0 hw
      rw [if_pos hm, decide_eq_true_iff, kind_and_kindMask _ (GetType_mem_kinds j) V hV]
      constructor
      · exact fun h => h.1
      · intro h
        refine ⟨h, fun hz => h0 ?_⟩
        rw [hz] at h
        exact h
    · have hm : kindMask V = 0 := (kindMask_eq_zero V).mpr h0
      rw [if_neg (by simp [hm]), decide_eq_true_iff]
      constructor
      · intro h
        obtain ⟨w, hw⟩ := List.exists_mem_of_ne_nil V hVne
        have hw0 := h0 w hw
        rw [hw0] at hw
        rw [h]
        exact hw
      · intro h
        exact h0 _ h
  have hassert : ∀ (V : List Type_) (fr : TraceFrame), V ≠ [] → (∀ w ∈ V, w ∈ kinds) →
      (t_null ∉ V ∨ ∀ w ∈ V, w = t_null) →
      (j.GetType ∈ V → j.AssertType (kindMask V) fr = .ok ()) ∧
      (j.GetType ∉ V → j.AssertType (kindMask V) fr
        = .error (JsonError.TypeMissmatch (kindMask V) j.GetType fr)) := by
    intro V fr hVne hV hVnull
    have := hmem V hVne hV hVnull
    constructor
    · intro h
      simp [JsonView.AssertType, this.mpr h, pure_eq]
    · intro h
      have hf : j.Is (kindMask V) = false := by
        cases hI : j.Is (kindMask V)
        · rfl
        · exact absurd (this.mp hI) h
      simp [JsonView.AssertType, hf, JsonView.throwMissmatch]
  have hsized : kindMask [t_string, t_binary, t_array, t_object]
      = t_array ||| t_object ||| t_string ||| t_binary := by decide
  have hS := hassert [t_string, t_binary, t_array, t_object] TraceFrame.root (by simp)
    (by decide) (Or.inl (by decide))
  rw [hsized] at hS
  have hA := hassert W frame hne hW hnull
  refine ⟨⟨?_, hA.1⟩, hA.2, ⟨?_, ?_⟩, ?_⟩
  · intro h
    by_contra hn
    rw [hA.2 hn] at h
    cases h
  · intro h
    by_contra hn
    have := hS.2 hn
    simp only [JsonView.Size, this, error_bind] at h
    cases h
  · intro h
    simp only [JsonView.Size, hS.1 h, ok_bind]
    rfl
  · intro h
    simp only [JsonView.Size, hS.2 h, error_bind]

theorem AssertType_iff_member_witness :
    (JsonView.ofString ['a']).AssertType (t_signed ||| t_string) TraceFrame.root = .ok () ∧
    (JsonView.ofSigned 1).Size
      = .error (JsonError.TypeMissmatch (t_array ||| t_object ||| t_string ||| t_binary)
          t_signed TraceFrame.root) ∧
    (JsonView.ofString ['a', 'b']).Size = .ok 2 :=
  ⟨(AssertType_iff_member (JsonView.ofString ['a']) [t_signed, t_string] TraceFrame.root
      (by decide) (by decide) (Or.inl (by decide))).1.mpr (by decide),
   (AssertType_iff_member (JsonView.ofSigned 1) [t_signed, t_string] TraceFrame.root
      (by decide) (by decide) (Or.inl (by decide))).2.2.2 (by decide),
   (AssertType_iff_member (JsonView.ofString ['a', 'b']) [t_signed, t_string] TraceFrame.root
      (by decide) (by decide) (Or.inl (by decide))).2.2.1.mpr (by decide)⟩

/-! ## Optionals -/

/-- C24: `IntoJson` of an empty optional is the null cell and of an engaged
optional the serialization of its content; `FromJson` stores the empty
optional for a null cell and otherwise the conversion of the cell as `T`,
raising what that conversion raises.  Hence, when the content of `o` (if any)
serializes to a cell that is not null and converts back to it, `FromJson` of
`IntoJson` of `o` is `o`. -/
theorem optional_null_or_value {T : Type} (conv : Convert T) (init : T) (o out : Option T)
    (ctx ctx' : Arena) (j : JsonView) (frame : TraceFrame)
    (hinto : IntoJsonOptional conv o ctx = .ok (j, ctx'))
    (hround : ∀ v, o = some v → ∀ (c : JsonView) (a : Arena),
      conv.DoIntoJson v ctx = .ok (c, a) →
        c.Is t_null = false ∧ conv.DoFromJson init c frame = .ok v) :
    IntoJsonOptional conv none ctx = .ok (JsonView.ofNull, ctx) ∧
    (∀ v, IntoJsonOptional conv (some v) ctx = conv.DoIntoJson v ctx) ∧
    (∀ json : JsonView, json.Is t_null = true →
      FromJsonOptional conv init out json frame = .ok none) ∧
    (∀ json : JsonView, json.Is t_null = false →
      (∀ v, conv.DoFromJson init json frame = .ok v →
        FromJsonOptional conv init out json frame = .ok (some v)) ∧
      (∀ e, conv.DoFromJson init json frame = .error e →
        FromJsonOptional conv init out json frame = .error e)) ∧
    FromJsonOptional conv init out j frame = .ok o := by
  have hnull : ∀ json : JsonView, json.Is t_null = true →
      FromJsonOptional conv init out json frame = .ok none := by
    intro json h
    simp [FromJsonOptional, h, pure_eq]
  have hval : ∀ json : JsonView, json.Is t_null = false →
      (∀ v, conv.DoFromJson init json frame = .ok v →
        FromJsonOptional conv init out json frame = .ok (some v)) ∧
      (∀ e, conv.DoFromJson init json frame = .error e →
        FromJsonOptional conv init out json frame = .error e) := by
    intro json h
    constructor
    · intro v hv
      simp only [FromJsonOptional, h, Bool.false_eq_true, if_false, hv, ok_bind]
      rfl
    · intro e he
      simp only [FromJsonOptional, h, Bool.false_eq_true, if_false, he, error_bind]
  refine ⟨rfl, fun _ => rfl, hnull, hval, ?_⟩
  cases o with
  | none =>
    simp only [IntoJsonOptional, pure_eq, Except.ok.injEq, Prod.mk.injEq] at hinto
    rw [← hinto.1]
    exact hnull _ (by decide)
  | some v =>
    have h := hround v rfl j ctx' hinto
    exact (hval j h.1).1 v h.2

theorem optional_null_or_value_witness :
    FromJsonOptional (convertIntegral IntType.int32) 0 none (JsonView.ofSigned 5)
        TraceFrame.root = .ok (some 5) ∧
    FromJsonOptional (convertIntegral IntType.int32) 0 (some 3) JsonView.ofNull
        TraceFrame.root = .ok none :=
  ⟨(optional_null_or_value (convertIntegral IntType.int32) 0 (some 5) none Arena.unbounded
      Arena.unbounded (JsonView.ofSigned 5) TraceFrame.root rfl (by
        intro v hv c a hc
        cases hv
        cases hc
        exact ⟨by decide, by decide⟩)).2.2.2.2,
   (optional_null_or_value (convertIntegral IntType.int32) 0 none (some 3) Arena.unbounded
      Arena.unbounded JsonView.ofNull TraceFrame.root rfl (by
        intro v hv
        cases hv)).2.2.2.2⟩

/-! ## Ordered sequences -/

/-- The loop of `FromJson` for a vector-like type over elements that convert:
the conversions are appended to `out`. -/
theorem FromJsonVector_fold_ok {E : Type} (conv : Convert E) (init : E) (frame : TraceFrame) :
    ∀ (items : List JsonView) (vs done : List E) (count : Nat),
      vs.length = items.length →
      (∀ (i : Nat) (c : JsonView) (v : E), items[i]? = some c → vs[i]? = some v →
        conv.DoFromJson init c (TraceFrame.idx (count + i) frame) = .ok v) →
      items.foldlM (FromJsonVectorElement conv init frame) (done, count)
        = .ok (done ++ vs, count + items.length) := by
  intro items
  induction items with
  | nil =>
    intro vs done count hlen _
    have : vs = [] := List.length_eq_zero.mp hlen
    subst this
    simp [pure_eq]
  | cons c rest ih =>
    intro vs done count hlen h
    cases vs with
    | nil => simp at hlen
    | cons v vs =>
      have h0 := h 0 c v (by simp) (by simp)
      rw [Nat.add_zero] at h0
      rw [List.foldlM_cons]
      simp only [FromJsonVectorElement, h0, ok_bind]
      have := ih vs (done ++ [v]) (count + 1) (by simpa using hlen) (by
        intro i c' v' hc hv
        have := h (i + 1) c' v' (by rw [List.getElem?_cons_succ]; exact hc)
          (by rw [List.getElem?_cons_succ]; exact hv)
        rw [show count + 1 + i = count + (i + 1) by omega]
        exact this)
      rw [pure_eq, ok_bind, this]
      simp only [List.append_assoc, List.singleton_append, List.length_cons]
      congr 2
      omega

/-- The loop of `FromJson` for a vector-like type stops at the first element
that does not convert, with what that conversion raises. -/
theorem FromJsonVector_fold_error {E : Type} (conv : Convert E) (init : E) (frame : TraceFrame) :
    ∀ (pre : List JsonView) (bad : JsonView) (rest : List JsonView) (done : List E)
      (count : Nat) (e : JsonError),
      (∀ (i : Nat) (c : JsonView), pre[i]? = some c →
        ∃ v, conv.DoFromJson init c (TraceFrame.idx (count + i) frame) = .ok v) →
      conv.DoFromJson init bad (TraceFrame.idx (count + pre.length) frame) = .error e →
      (pre ++ bad :: rest).foldlM (FromJsonVectorElement conv init frame) (done, count)
        = .error e := by
  intro pre
  induction pre with
  | nil =>
    intro bad rest done count e _ hbad
    rw [List.length_nil, Nat.add_zero] at hbad
    rw [List.nil_append, List.foldlM_cons]
    simp only [FromJsonVectorElement, hbad, error_bind]
  | cons c pre ih =>
    intro bad rest done count e hpre hbad
    obtain ⟨v, hv⟩ := hpre 0 c (by simp)
    rw [Nat.add_zero] at hv
    rw [List.cons_append, List.foldlM_cons]
    simp only [FromJsonVectorElement, hv, ok_bind, pure_eq]
    apply ih
    · intro i c' hc
      have := hpre (i + 1) c' (by rw [List.getElem?_cons_succ]; exact hc)
      rw [show count + 1 + i = count + (i + 1) by omega]
      exact this
    · rw [show count + 1 + pre.length = count + (c :: pre).length by
        simp only [List.length_cons]; omega]
      exact hbad

/-- C25: `FromJson` for an ordered sequence and an array cell of `n` elements.
If every element converts, the destination afterwards holds exactly `n`
elements, whatever it held before, the element at `i` being the conversion of
the array element at `i` under the path of the container extended by the
index segment `i`.  If the element at `i` does not convert and all before it
do, the error raised is the one its conversion raises under that extended
path, whatever elements follow it; the index segment renders as `.[i]`. -/
theorem FromJsonVector_elementwise {E : Type} (conv : Convert E) (init : E) (out : List E)
    (flags : Flags) (items : List JsonView) (frame : TraceFrame) :
    (∀ vs : List E, vs.length = items.length →
      (∀ (i : Nat) (c : JsonView) (v : E), items[i]? = some c → vs[i]? = some v →
        conv.DoFromJson init c (TraceFrame.idx i frame) = .ok v) →
      FromJsonVector conv init out (JsonView.array flags items) frame = .ok vs) ∧
    (∀ (i : Nat) (bad : JsonView) (e : JsonError), items[i]? = some bad →
      (∀ (k : Nat) (c : JsonView), k < i → items[k]? = some c →
        ∃ v, conv.DoFromJson init c (TraceFrame.idx k frame) = .ok v) →
      conv.DoFromJson init bad (TraceFrame.idx i frame) = .error e →
      FromJsonVector conv init out (JsonView.array flags items) frame = .error e ∧
      ∀ rest : List JsonView,
        FromJsonVector conv init out (JsonView.array flags (items.take i ++ bad :: rest)) frame
          = .error e) ∧
    (∀ i : Nat, (TraceFrame.idx i frame).segments = frame.segments ++ [Key.index i] ∧
      renderKey (Key.index i) = ['.', '['] ++ Nat.toDigits 10 i ++ [']']) := by
  refine ⟨?_, ?_, fun i => ⟨rfl, rfl⟩⟩
  · intro vs hlen h
    have := FromJsonVector_fold_ok conv init frame items vs [] 0 hlen (by
      intro i c v hc hv
      rw [Nat.zero_add]
      exact h i c v hc hv)
    simp only [FromJsonVector, AssertType_array, ok_bind, JsonView.items, this]
    rfl
  · intro i bad e hbad hpre he
    have hi : i < items.length := by
      by_contra hn
      rw [List.getElem?_eq_none (by omega)] at hbad
      cases hbad
    have key : ∀ rest : List JsonView,
        FromJsonVector conv init out (JsonView.array flags (items.take i ++ bad :: rest)) frame
          = .error e := by
      intro rest
      have := FromJsonVector_fold_error conv init frame (items.take i) bad rest [] 0 e (by
        intro k c hc
        rw [Nat.zero_add]
        rw [List.getElem?_take] at hc
        split at hc
        · rename_i hk
          exact hpre k c hk hc
        · cases hc) (by
        rw [List.length_take, Nat.min_eq_left (Nat.le_of_lt hi), Nat.zero_add]
        exact he)
      simp only [FromJsonVector, AssertType_array, ok_bind, JsonView.items, this, error_bind]
    refine ⟨?_, key⟩
    have hsplit : items = items.take i ++ bad :: items.drop (i + 1) := by
      have h1 : items.drop i = bad :: items.drop (i + 1) := by
        rw [List.drop_eq_getElem_cons hi]
        congr 1
        rw [List.getElem?_eq_getElem hi] at hbad
        exact Option.some.inj hbad
      rw [← h1, List.take_append_drop]
    have := key (items.drop (i + 1))
    rw [← hsplit] at this
    exact this

theorem FromJsonVector_elementwise_witness :
    FromJsonVector (convertIntegral IntType.int32) 0 [9, 9, 9]
        (JsonView.array 0 [JsonView.ofSigned 1, JsonView.ofSigned 2]) TraceFrame.root
      = .ok [1, 2] ∧
    FromJsonVector (convertIntegral IntType.int32) 0 []
        (JsonView.array 0 [JsonView.ofSigned 1, JsonView.ofNull, JsonView.ofString ['x']])
        (TraceFrame.key ['a'] TraceFrame.root)
      = .error (JsonError.TypeMissmatch (t_signed ||| t_unsigned) t_null
          (TraceFrame.idx 1 (TraceFrame.key ['a'] TraceFrame.root))) :=
  ⟨(FromJsonVector_elementwise (convertIntegral IntType.int32) 0 [9, 9, 9] 0
      [JsonView.ofSigned 1, JsonView.ofSigned 2] TraceFrame.root).1 [1, 2] rfl (by
        intro i c v hc hv
        match i, hc, hv with
        | 0, hc, hv => cases hc; cases hv; decide
        | 1, hc, hv => cases hc; cases hv; decide
        | _ + 2, hc, _ => cases hc),
   ((FromJsonVector_elementwise (convertIntegral IntType.int32) 0 [] 0
      [JsonView.ofSigned 1, JsonView.ofNull, JsonView.ofString ['x']]
      (TraceFrame.key ['a'] TraceFrame.root)).2.1 1 JsonView.ofNull _ rfl (by
        intro k c hk hc
        have hk0 : k = 0 := by omega
        subst hk0
        cases hc
        exact ⟨1, by decide⟩) (by decide)).1⟩

/-! ## Builders -/

/-- C26: `MakeArrayOf` and `MakeObjectOf` return the null pointer exactly for
the count 0, and then request no memory; for a count `n > 0` they make the one
request of `n * sizeof(element)` bytes at the alignment of the element and
return the non-null block when the arena serves it, and raise `bad_alloc` when
it does not.  `CopyString` returns a view equal to its source whenever it
returns, makes no request for an empty source, and for a non-empty source
makes the one request of its size and raises `bad_alloc` when the arena does
not serve it. -/
theorem builders_allocate_exactly (n : Nat) (src : string_view) (alloc : Arena) :
    MakeArrayOf 0 alloc = .ok (false, alloc) ∧
    MakeObjectOf 0 alloc = .ok (false, alloc) ∧
    (∀ (r : Bool) (a : Arena), MakeArrayOf n alloc = .ok (r, a) → (r = false ↔ n = 0)) ∧
    (∀ (r : Bool) (a : Arena), MakeObjectOf n alloc = .ok (r, a) → (r = false ↔ n = 0)) ∧
    (0 < n →
      (alloc.grants (alloc.log ++ [(sizeof_JsonView * n, alignof_JsonView)]) = true →
        MakeArrayOf n alloc = .ok (true,
          { alloc with log := alloc.log ++ [(sizeof_JsonView * n, alignof_JsonView)] })) ∧
      (alloc.grants (alloc.log ++ [(sizeof_JsonView * n, alignof_JsonView)]) = false →
        MakeArrayOf n alloc = .error JsonError.bad_alloc) ∧
      (alloc.grants (alloc.log ++ [(sizeof_JsonPair * n, alignof_JsonPair)]) = true →
        MakeObjectOf n alloc = .ok (true,
          { alloc with log := alloc.log ++ [(sizeof_JsonPair * n, alignof_JsonPair)] })) ∧
      (alloc.grants (alloc.log ++ [(sizeof_JsonPair * n, alignof_JsonPair)]) = false →
        MakeObjectOf n alloc = .error JsonError.bad_alloc)) ∧
    CopyString [] alloc = .ok ([], alloc) ∧
    (∀ (v : string_view) (a : Arena), CopyString src alloc = .ok (v, a) →
      v = src ∧ v.length = src.length) ∧
    (src ≠ [] →
      (alloc.grants (alloc.log ++ [(src.length, alignof_char)]) = true →
        CopyString src alloc = .ok (src,
          { alloc with log := alloc.log ++ [(src.length, alignof_char)] })) ∧
      (alloc.grants (alloc.log ++ [(src.length, alignof_char)]) = false →
        CopyString src alloc = .error JsonError.bad_alloc)) := by
  refine ⟨rfl, rfl, ?_, ?_, ?_, rfl, ?_, ?_⟩
  · intro r a h
    unfold MakeArrayOf at h
    split at h
    · rename_i h0
      cases h
      simp [h0]
    · rename_i h0
      simp only at h
      split at h
      · cases h
      · cases h
        simp [h0]
  · intro r a h
    unfold MakeObjectOf at h
    split at h
    · rename_i h0
      cases h
      simp [h0]
    · rename_i h0
      simp only at h
      split at h
      · cases h
      · cases h
        simp [h0]
  · intro hn
    have h0 : n ≠ 0 := by omega
    refine ⟨?_, ?_, ?_, ?_⟩ <;> intro hg <;>
      simp [MakeArrayOf, MakeObjectOf, Arena.alloc, h0, hg, pure_eq, throw_eq]
  · intro v a h
    unfold CopyString at h
    split at h
    · rename_i h0
      cases h
      have : src = [] := by simpa using h0
      simp [this]
    · simp only at h
      split at h
      · cases h
      · cases h
        exact ⟨rfl, rfl⟩
  · intro hne
    have h0 : src.isEmpty = false := by
      cases src with
      | nil => exact absurd rfl hne
      | cons _ _ => rfl
    refine ⟨?_, ?_⟩ <;> intro hg <;>
      simp [CopyString, Arena.alloc, h0, hg, pure_eq, throw_eq]

theorem builders_allocate_exactly_witness :
    MakeArrayOf 3 Arena.null = .error JsonError.bad_alloc ∧
    (MakeObjectOf 3 Arena.unbounded).map (fun r => (r.1, r.2.log))
      = .ok (true, [(3 * sizeof_JsonPair, alignof_JsonPair)]) ∧
    CopyString ['a', 'b'] Arena.null = .error JsonError.bad_alloc ∧
    (CopyString ['a', 'b'] Arena.unbounded).map (fun r => (r.1, r.2.log))
      = .ok (['a', 'b'], [(2, 1)]) :=
  ⟨((builders_allocate_exactly 3 ['a', 'b'] Arena.null).2.2.2.2.1 (by decide)).2.1 rfl,
   by
    rw [((builders_allocate_exactly 3 ['a', 'b'] Arena.unbounded).2.2.2.2.1
      (by decide)).2.2.1 rfl]
    rfl,
   ((builders_allocate_exactly 3 ['a', 'b'] Arena.null).2.2.2.2.2.2.2 (by decide)).2 rfl,
   by
    rw [((builders_allocate_exactly 3 ['a', 'b'] Arena.unbounded).2.2.2.2.2.2.2
      (by decide)).1 rfl]
    rfl⟩

/-! ## Field validators -/

/-- C27 (the code at the failing inputs): the field `id` is not required and
carries a validator that accepts positive values; the destination holds
`id = 0`.  For the empty object flagged sorted, `deserializeFieldsSorted`
leaves the field as it is and still invokes its validator, so that struct
`FromJson` raises ForeignError at `.id`; for the same object not flagged
sorted, `deserializeFields` does not invoke it and succeeds.  On the tuple
path a non-required optional field beyond the array is emptied and its
validator invoked.  For a field that is present, both object paths invoke the
validator on the converted value and a failure it raises surfaces as
ForeignError with the failure nested and the path ending in the name of the
field. -/
theorem field_validator_runs_for_absent_field :
    isRequired WithId.checked WithId.fieldChecked = false ∧
    deserializeFieldsSorted WithId.checked ⟨0⟩ (JsonView.object f_sorted []) TraceFrame.root
      = .error (JsonError.ForeignError "" (some "id must be positive")
          (TraceFrame.key ['i', 'd'] TraceFrame.root)) ∧
    FromJsonStruct WithId.checked ⟨0⟩ (JsonView.object f_sorted []) TraceFrame.root
      = .error (JsonError.ForeignError "" (some "id must be positive")
          (TraceFrame.key ['i', 'd'] TraceFrame.root)) ∧
    deserializeFields WithId.checked ⟨0⟩ (JsonView.object 0 []) TraceFrame.root = .ok ⟨0⟩ ∧
    FromJsonStruct WithId.checked ⟨0⟩ (JsonView.object 0 []) TraceFrame.root = .ok ⟨0⟩ ∧
    deserializeAsTuple WithOpt.checkedTuple ⟨0, some 5⟩ (JsonView.array 0 [JsonView.ofSigned 1])
        TraceFrame.root
      = .error (JsonError.ForeignError "" (some "b must hold a value")
          (TraceFrame.key ['b'] TraceFrame.root)) ∧
    FromJsonStruct WithId.checked ⟨0⟩
        (JsonView.object f_sorted [⟨['i', 'd'], JsonView.ofSigned (-1)⟩]) TraceFrame.root
      = .error (JsonError.ForeignError "" (some "id must be positive")
          (TraceFrame.key ['i', 'd'] TraceFrame.root)) ∧
    FromJsonStruct WithId.checked ⟨0⟩
        (JsonView.object 0 [⟨['i', 'd'], JsonView.ofSigned (-1)⟩]) TraceFrame.root
      = .error (JsonError.ForeignError "" (some "id must be positive")
          (TraceFrame.key ['i', 'd'] TraceFrame.root)) ∧
    FromJsonStruct WithId.checked ⟨0⟩
        (JsonView.object f_sorted [⟨['i', 'd'], JsonView.ofSigned 4⟩]) TraceFrame.root
      = .ok ⟨4⟩ := by
  have hs : ∀ (entries : List (JsonPair JsonView)), keysAscending entries →
      FromJsonStruct WithId.checked ⟨0⟩ (JsonView.object f_sorted entries) TraceFrame.root
        = (deserializeFieldsSorted WithId.checked ⟨0⟩ (JsonView.object 0 entries)
            TraceFrame.root) := by
    intro entries hasc
    rw [FromJsonStruct_eq]
    have h1 : FromJsonStructFields WithId.checked ⟨0⟩ (JsonView.object f_sorted entries)
        TraceFrame.root
        = deserializeFieldsSorted WithId.checked ⟨0⟩ (JsonView.object f_sorted entries)
            TraceFrame.root := by
      unfold FromJsonStructFields
      rw [if_neg (by decide),
        if_pos (by simp [JsonView.HasFlag, JsonView.GetFlags, f_sorted]), AssertType_object]
      rfl
    rw [h1]
    unfold deserializeFieldsSorted
    rw [sortedField_flags _ _ _ _ hasc]
    cases (WithId.checked.fields.foldlM
      (deserializeFieldsSortedField WithId.checked (JsonView.object 0 entries) TraceFrame.root)
      (⟨0⟩ : WithId)) <;> rfl
  refine ⟨by decide, ?_, ?_, by decide, by decide, by decide, ?_, by decide, ?_⟩
  · unfold deserializeFieldsSorted
    rw [sortedField_flags _ _ _ _ (by decide)]
    decide
  · rw [hs [] (by decide)]
    decide
  · rw [hs _ (by decide)]
    decide
  · rw [hs _ (by decide)]
    decide

/-! ## Fixed tuples and a failing arena -/

/-- C28 (the code at the failing input): with an arena that fails every
request, the block `IntoJson` for `std::tuple<int, int>` gets is null; it
raises nothing, converts both elements and stores them to `arr[0]` and
`arr[1]` of that block, and returns an array cell of two elements.
`MakeArrayOf` and `IntoJson` for a vector of the same two elements raise
`bad_alloc` with the same arena. -/
theorem IntoJsonTuple_ignores_failed_allocation :
    intPairElements.length = 2 ∧
    (Arena.null.alloc (sizeof_JsonView * 2) alignof_default).1 = false ∧
    (IntoJsonTuple intPairElements (1, 2) Arena.null).map (fun r => (r.1.items, r.2.log))
      = .ok ([JsonView.ofSigned 1, JsonView.ofSigned 2], [(sizeof_JsonView * 2, alignof_default)]) ∧
    IntoJsonTuple intPairElements (1, 2) Arena.null ≠ .error JsonError.bad_alloc ∧
    MakeArrayOf 2 Arena.null = .error JsonError.bad_alloc ∧
    IntoJsonVector (convertIntegral IntType.int32) [1, 2] Arena.null
      = .error JsonError.bad_alloc := by
  refine ⟨rfl, rfl, rfl, ?_, rfl, rfl⟩
  intro h
  have : (IntoJsonTuple intPairElements (1, 2) Arena.null).map (fun r => r.2.log)
      = .ok [(sizeof_JsonView * 2, alignof_default)] := rfl
  rw [h] at this
  cases this

/-! ## Trace frames after an earlier walk -/

/-- C29 (the code at the failing input): for the frames root, A (key `a`, built
from root) and B (key `b`, built from A), `PrintTrace` on A returns `.a` on the
chain as built, but after `PrintTrace` has been called on B it returns `.a.b`:
the walk follows the `next` member that the walk on B stored in A and visits
B.  `PrintTrace` called twice on B returns `.a.b` both times. -/
theorem PrintTrace_follows_stale_next :
    (PrintTrace (freshChain [Key.name ['a'], Key.name ['b']]) 1).map Prod.fst
      = some ['.', 'a'] ∧
    (PrintTrace (freshChain [Key.name ['a'], Key.name ['b']]) 2).map Prod.fst
      = some ['.', 'a', '.', 'b'] ∧
    ((PrintTrace (freshChain [Key.name ['a'], Key.name ['b']]) 2).bind
        (fun r => (PrintTrace r.2 1).map Prod.fst)) = some ['.', 'a', '.', 'b'] ∧
    ((PrintTrace (freshChain [Key.name ['a'], Key.name ['b']]) 2).bind
        (fun r => (PrintTrace r.2 2).map Prod.fst)) = some ['.', 'a', '.', 'b'] ∧
    ((PrintTrace (freshChain [Key.name ['a'], Key.name ['b']]) 2).map
        (fun r => r.2.map (fun c => c.next))) = some [some 1, some 2, none] := by
  decide

/-! ## Tuple encoding: slots and the allocated block -/

/-- The step of `serializeAsTuple` for a field stores to the slot
`serializeAsTupleSlot` names. -/
theorem serializeAsTupleField_slot {T : Type} (value : T) (arr : List JsonView) (count : Nat)
    (alloc : Arena) (f : Field T) :
    serializeAsTupleField value (arr, count, alloc) f
      = (f.conv.DoIntoJson (f.get value) alloc) >>= fun res =>
          .ok (arr.set (serializeAsTupleSlot f count) res.1, count + 1, res.2) := rfl

theorem maxIdxForLoop_cases (simple : Nat) (is : List Nat) :
    (maxIdxForLoop simple is = simple ∧ ∀ i ∈ is, i ≤ simple) ∨
    (maxIdxForLoop simple is ∈ is ∧ simple < maxIdxForLoop simple is) := by
  induction is with
  | nil => left; exact ⟨rfl, by simp⟩
  | cons i rest ih =>
    rw [maxIdxForLoop]
    split
    · rename_i h
      right
      exact ⟨List.mem_cons_self _ _, h⟩
    · rename_i h
      rcases ih with ⟨h1, h2⟩ | ⟨h1, h2⟩
      · left
        refine ⟨h1, ?_⟩
        intro j hj
        rcases List.mem_cons.mp hj with rfl | hj
        · omega
        · exact h2 j hj
      · right
        exact ⟨List.mem_cons_of_mem _ h1, h2⟩

theorem serializeAsTupleSlotsFrom_mem {T : Type} (fs : List (Field T)) :
    ∀ (count s : Nat), s ∈ serializeAsTupleSlotsFrom count fs →
      (∃ f ∈ fs, getIdxFor f ≠ 0 ∧ s = getIdxFor f) ∨ (count ≤ s ∧ s < count + fs.length) := by
  induction fs with
  | nil => intro count s h; simp [serializeAsTupleSlotsFrom] at h
  | cons f rest ih =>
    intro count s h
    rw [serializeAsTupleSlotsFrom, List.mem_cons] at h
    rcases h with rfl | h
    · unfold serializeAsTupleSlot
      by_cases hm : getIdxFor f ≠ 0
      · left
        exact ⟨f, List.mem_cons_self _ _, hm, by simp [hm]⟩
      · right
        simp only [hm, if_false, List.length_cons]
        omega
    · rcases ih (count + 1) s h with ⟨g, hg, h1, h2⟩ | ⟨h1, h2⟩
      · left
        exact ⟨g, List.mem_cons_of_mem _ hg, h1, h2⟩
      · right
        simp only [List.length_cons]
        omega

theorem serializeAsTupleSlotsFrom_manual {T : Type} (fs : List (Field T)) :
    ∀ (count : Nat) (f : Field T), f ∈ fs → getIdxFor f ≠ 0 →
      getIdxFor f ∈ serializeAsTupleSlotsFrom count fs := by
  induction fs with
  | nil => intro count f h; simp at h
  | cons g rest ih =>
    intro count f hf hm
    rw [serializeAsTupleSlotsFrom, List.mem_cons]
    rcases List.mem_cons.mp hf with rfl | hf
    · left
      simp [serializeAsTupleSlot, hm]
    · right
      exact ih (count + 1) f hf hm

/-- C30 (the code, and its failing inputs): every slot `serializeAsTuple`
stores to lies inside the block of `maxIdxFor` slots it allocated exactly when
every explicit index is less than the number of fields.  With two fields of
which the first carries `FieldIndex<5>`, 5 slots are allocated and the first
field is stored to slot 5, so that the array returned does not hold it; with
the second carrying `FieldIndex<2>`, 2 slots are allocated and it is stored to
slot 2. -/
theorem serializeAsTuple_slots_in_block_iff {T : Type} (desc : Description T) :
    ((∀ s ∈ serializeAsTupleSlots desc, s < maxIdxFor desc) ↔
      (∀ f ∈ desc.fields, getIdxFor f < desc.fields.length)) ∧
    maxIdxFor Point3.sparseTuple = 5 ∧
    serializeAsTupleSlots Point3.sparseTuple = [5, 1] ∧
    (serializeAsTuple Point3.sparseTuple ⟨1, 2, 3⟩ Arena.unbounded).map (fun r => r.1.items)
      = .ok [JsonView.indeterminate, JsonView.ofSigned 2, JsonView.indeterminate,
          JsonView.indeterminate, JsonView.indeterminate] ∧
    maxIdxFor Point3.indexTwoTuple = 2 ∧
    serializeAsTupleSlots Point3.indexTwoTuple = [0, 2] := by
  refine ⟨?_, by decide, by decide, rfl, by decide, by decide⟩
  have hmax : maxIdxFor desc = maxIdxForLoop desc.fields.length (desc.fields.map getIdxFor) :=
    rfl
  rw [hmax]
  unfold serializeAsTupleSlots
  constructor
  · intro h f hf
    by_cases hm : getIdxFor f = 0
    · rw [hm]
      exact List.length_pos_of_mem hf
    · have hslot := h _ (serializeAsTupleSlotsFrom_manual desc.fields 0 f hf hm)
      rcases maxIdxForLoop_cases desc.fields.length (desc.fields.map getIdxFor) with
        ⟨h1, _⟩ | ⟨h1, h2⟩
      · rw [h1] at hslot
        exact hslot
      · exfalso
        obtain ⟨g, hg, hgi⟩ := List.mem_map.mp h1
        have hgm : getIdxFor g ≠ 0 := by omega
        have := h _ (serializeAsTupleSlotsFrom_manual desc.fields 0 g hg hgm)
        omega
  · intro h s hs
    have htotal : maxIdxForLoop desc.fields.length (desc.fields.map getIdxFor)
        = desc.fields.length := by
      rcases maxIdxForLoop_cases desc.fields.length (desc.fields.map getIdxFor) with
        ⟨h1, _⟩ | ⟨h1, h2⟩
      · exact h1
      · exfalso
        obtain ⟨g, hg, hgi⟩ := List.mem_map.mp h1
        have := h g hg
        omega
    rw [htotal]
    rcases serializeAsTupleSlotsFrom_mem desc.fields 0 s hs with ⟨f, hf, _, rfl⟩ | ⟨_, h2⟩
    · exact h f hf
    · omega

/-! ## The unsorted path -/

theorem prepFields_foldl {Cls : Type} (desc : Description Cls) (fs : List (Field Cls)) :
    ∀ (res : List fieldHelper) (idx : Nat),
      (fs.foldl
        (fun (st : List fieldHelper × Nat) field =>
          let res := st.1
          let idx := st.2
          let curr := res.getD idx {}
          let curr := { curr with name := field.name }
          let curr := { curr with hit := false }
          let _curr := { curr with required := isRequired desc field }
          (res, idx + 1))
        (res, idx)).1 = res := by
  induction fs with
  | nil => intro res idx; rfl
  | cons f rest ih =>
    intro res idx
    rw [List.foldl_cons]
    exact ih res (idx + 1)

/-- The helpers `prepFields` returns are value-initialised: the loop assigns to
copies. -/
theorem prepFields_eq {Cls : Type} (desc : Description Cls) :
    prepFields desc = List.replicate desc.fields.length {} := by
  unfold prepFields
  exact prepFields_foldl desc desc.fields _ 0

theorem markHit_required (run : List fieldHelper) :
    ∀ (count : Nat), (∀ h ∈ run, h.required = false) →
      ∀ h ∈ markHit run count, h.required = false := by
  unfold markHit
  induction run with
  | nil => intro count _ h hh; simp at hh
  | cons a rest ih =>
    intro count hall h hh
    cases count with
    | zero =>
      rw [List.modify_zero_cons] at hh
      rcases List.mem_cons.mp hh with rfl | hh
      · exact hall a (List.mem_cons_self _ _)
      · exact hall h (List.mem_cons_of_mem _ hh)
    | succ n =>
      rw [List.modify_succ_cons] at hh
      rcases List.mem_cons.mp hh with rfl | hh
      · exact hall _ (List.mem_cons_self _ _)
      · exact ih n (fun x hx => hall x (List.mem_cons_of_mem _ hx)) h hh

theorem checkRequired_ok (json : JsonView) (frame : TraceFrame) (run : List fieldHelper)
    (hall : ∀ h ∈ run, h.required = false) : checkRequired json frame run = .ok () := by
  induction run with
  | nil => rfl
  | cons a rest ih =>
    rw [checkRequired, hall a (List.mem_cons_self _ _)]
    simp only [Bool.false_and, Bool.false_eq_true, if_false]
    exact ih (fun x hx => hall x (List.mem_cons_of_mem _ hx))

/-- A step of the inner loop of `deserializeFields`, by whether the names match. -/
theorem deserializeFieldsField_match {T : Type} (pair : JsonPair JsonView) (frame : TraceFrame)
    (o : T) (run : List fieldHelper) (count : Nat) (f : Field T) (hk : pair.key = f.name) :
    deserializeFieldsField pair frame (o, run, count) f
      = (f.conv.DoFromJson (f.get o) pair.value (TraceFrame.key f.name frame)) >>= fun w0 =>
          (runValidator f.validator w0 (TraceFrame.key f.name frame)) >>= fun w =>
            .ok (f.set o w, markHit run count, count + 1) := by
  simp only [deserializeFieldsField, hk, if_true]
  rfl

theorem deserializeFieldsField_skip {T : Type} (pair : JsonPair JsonView) (frame : TraceFrame)
    (st : T × List fieldHelper × Nat) (f : Field T) (hk : pair.key ≠ f.name) :
    deserializeFieldsField pair frame st f = .ok st := by
  simp only [deserializeFieldsField, hk, if_false]
  rfl

/-- What a successful step of the inner loop is. -/
theorem deserializeFieldsField_shape {T : Type} (pair : JsonPair JsonView) (frame : TraceFrame)
    (st st' : T × List fieldHelper × Nat) (f : Field T)
    (h : deserializeFieldsField pair frame st f = .ok st') :
    (pair.key ≠ f.name ∧ st' = st) ∨
    (pair.key = f.name ∧ ∃ w0 w,
      f.conv.DoFromJson (f.get st.1) pair.value (TraceFrame.key f.name frame) = .ok w0 ∧
      runValidator f.validator w0 (TraceFrame.key f.name frame) = .ok w ∧
      st' = (f.set st.1 w, markHit st.2.1 st.2.2, st.2.2 + 1)) := by
  by_cases hk : pair.key = f.name
  · right
    obtain ⟨o, run, count⟩ := st
    rw [deserializeFieldsField_match pair frame o run count f hk] at h
    simp only [bind_eq_ok] at h
    obtain ⟨w0, h0, w, h1, h2⟩ := h
    cases h2
    exact ⟨hk, w0, w, h0, h1, rfl⟩
  · left
    rw [deserializeFieldsField_skip pair frame st f hk] at h
    cases h
    exact ⟨hk, rfl⟩

/-- The inner loop keeps the helpers without a required one, and leaves a
field alone that the stores of the matching fields leave alone. -/
theorem innerFold_frame {T : Type} (pair : JsonPair JsonView) (frame : TraceFrame)
    (fs : List (Field T)) :
    ∀ (st st' : T × List fieldHelper × Nat),
      fs.foldlM (deserializeFieldsField pair frame) st = .ok st' →
      ((∀ h ∈ st.2.1, h.required = false) → ∀ h ∈ st'.2.1, h.required = false) ∧
      (∀ g : Field T,
        (∀ f ∈ fs, pair.key = f.name → ∀ (o : T) (v : f.type), g.get (f.set o v) = g.get o) →
        g.get st'.1 = g.get st.1) := by
  induction fs with
  | nil =>
    intro st st' h
    cases h
    exact ⟨fun h => h, fun _ _ => rfl⟩
  | cons f rest ih =>
    intro st st' h
    simp only [List.foldlM_cons, bind_eq_ok] at h
    obtain ⟨st1, h1, h2⟩ := h
    obtain ⟨ihr, ihg⟩ := ih st1 st' h2
    rcases deserializeFieldsField_shape pair frame st st1 f h1 with ⟨_, rfl⟩ | ⟨hk, w0, w, _, _, rfl⟩
    · exact ⟨ihr, fun g hg => ihg g (fun f' hf' => hg f' (List.mem_cons_of_mem _ hf'))⟩
    · refine ⟨fun hall => ihr (markHit_required _ _ hall), fun g hg => ?_⟩
      rw [ihg g (fun f' hf' => hg f' (List.mem_cons_of_mem _ hf'))]
      exact hg f (List.mem_cons_self _ _) hk _ _

theorem innerFold_nomatch {T : Type} (pair : JsonPair JsonView) (frame : TraceFrame)
    (fs : List (Field T)) (hno : ∀ f ∈ fs, pair.key ≠ f.name) :
    ∀ (st : T × List fieldHelper × Nat),
      fs.foldlM (deserializeFieldsField pair frame) st = .ok st := by
  induction fs with
  | nil => intro st; rfl
  | cons f rest ih =>
    intro st
    rw [List.foldlM_cons, deserializeFieldsField_skip pair frame st f
      (hno f (List.mem_cons_self _ _)), ok_bind]
    exact ih (fun f' hf' => hno f' (List.mem_cons_of_mem _ hf')) st

/-- The inner loop stores to a matching field the validated conversion of the
value of the entry. -/
theorem innerFold_hit {T : Type} (pair : JsonPair JsonView) (frame : TraceFrame)
    (pre post : List (Field T)) (f : Field T) (hk : pair.key = f.name)
    (hgs : ∀ (o : T) (v : f.type), f.get (f.set o v) = v)
    (hind : ∀ g, g ∈ pre ∨ g ∈ post → ∀ (o : T) (v : g.type), f.get (g.set o v) = f.get o)
    (st st' : T × List fieldHelper × Nat)
    (h : (pre ++ f :: post).foldlM (deserializeFieldsField pair frame) st = .ok st') :
    ∃ w0,
      f.conv.DoFromJson (f.get st.1) pair.value (TraceFrame.key f.name frame) = .ok w0 ∧
      runValidator f.validator w0 (TraceFrame.key f.name frame) = .ok (f.get st'.1) := by
  simp only [List.foldlM_append, List.foldlM_cons, bind_eq_ok] at h
  obtain ⟨st1, h1, st2, h2, h3⟩ := h
  have e1 := (innerFold_frame pair frame pre st st1 h1).2 f
    (fun g hg _ => hind g (Or.inl hg))
  have e3 := (innerFold_frame pair frame post st2 st' h3).2 f
    (fun g hg _ => hind g (Or.inr hg))
  rcases deserializeFieldsField_shape pair frame st1 st2 f h2 with ⟨hne, _⟩ | ⟨_, w0, w, hc, hv, rfl⟩
  · exact absurd hk hne
  · refine ⟨w0, by rw [← e1]; exact hc, ?_⟩
    rw [e3]
    simp only [hgs]
    exact hv

/-- Fields of a lawful description with different names are different members:
a store to one leaves the other as it was. -/
theorem Lawful_indep_of_name_ne {T : Type} {desc : Description T} (hlaw : desc.Lawful)
    (f g : Field T) (hf : f ∈ desc.fields) (hg : g ∈ desc.fields) (hne : f.name ≠ g.name) :
    ∀ (o : T) (v : f.type), g.get (f.set o v) = g.get o := by
  have hsymm : Symmetric (fun (f g : Field T) =>
      (∀ (o : T) (v : f.type), g.get (f.set o v) = g.get o) ∧
      (∀ (o : T) (v : g.type), f.get (g.set o v) = f.get o)) := by
    intro a b hab
    exact ⟨hab.2, hab.1⟩
  have hfg : f ≠ g := fun h => hne (by rw [h])
  exact (List.Pairwise.forall hsymm hlaw.independent hf hg hfg).1

theorem deserializeFieldsPair_nomatch {T : Type} (desc : Description T) (frame : TraceFrame)
    (st : T × List fieldHelper) (p : JsonPair JsonView)
    (hno : ∀ f ∈ desc.fields, p.key ≠ f.name) :
    deserializeFieldsPair desc frame st p = .ok st := by
  obtain ⟨o, run⟩ := st
  simp only [deserializeFieldsPair, innerFold_nomatch p frame desc.fields hno, ok_bind]
  rfl

theorem deserializeFieldsPair_frame {T : Type} (desc : Description T) (frame : TraceFrame)
    (st st' : T × List fieldHelper) (p : JsonPair JsonView)
    (h : deserializeFieldsPair desc frame st p = .ok st') :
    ((∀ h ∈ st.2, h.required = false) → ∀ h ∈ st'.2, h.required = false) ∧
    (desc.Lawful → ∀ g ∈ desc.fields, p.key ≠ g.name → g.get st'.1 = g.get st.1) := by
  simp only [deserializeFieldsPair, bind_eq_ok] at h
  obtain ⟨st1, h1, h2⟩ := h
  cases h2
  obtain ⟨hr, hg⟩ := innerFold_frame p frame desc.fields _ st1 h1
  refine ⟨hr, ?_⟩
  intro hlaw g hgm hne
  exact hg g (fun f hf hk => Lawful_indep_of_name_ne hlaw f g hf hgm (by rw [← hk]; exact hne))

theorem deserializeFieldsPair_hit {T : Type} (desc : Description T) (hlaw : desc.Lawful)
    (frame : TraceFrame) (st st' : T × List fieldHelper) (p : JsonPair JsonView)
    (f : Field T) (hf : f ∈ desc.fields) (hk : p.key = f.name)
    (h : deserializeFieldsPair desc frame st p = .ok st') :
    ∃ w0,
      f.conv.DoFromJson (f.get st.1) p.value (TraceFrame.key f.name frame) = .ok w0 ∧
      runValidator f.validator w0 (TraceFrame.key f.name frame) = .ok (f.get st'.1) := by
  simp only [deserializeFieldsPair, bind_eq_ok] at h
  obtain ⟨st1, h1, h2⟩ := h
  cases h2
  obtain ⟨pre, post, hsplit⟩ := List.append_of_mem hf
  have hind := hlaw.independent
  rw [hsplit, List.pairwise_append, List.pairwise_cons] at hind
  obtain ⟨_, ⟨hpost, _⟩, hpre⟩ := hind
  rw [hsplit] at h1
  exact innerFold_hit p frame pre post f hk (hlaw.get_set f hf)
    (fun g hg => hg.elim (fun hg => (hpre g hg f (List.mem_cons_self _ _)).1)
      (fun hg => (hpost g hg).2)) _ st1 h1

/-- The outer loop keeps the helpers without a required one, and on a lawful
description leaves a field alone whose name is no key of the entries. -/
theorem outerFold_frame {T : Type} (desc : Description T) (frame : TraceFrame)
    (entries : List (JsonPair JsonView)) :
    ∀ (st st' : T × List fieldHelper),
      entries.foldlM (deserializeFieldsPair desc frame) st = .ok st' →
      ((∀ h ∈ st.2, h.required = false) → ∀ h ∈ st'.2, h.required = false) ∧
      (desc.Lawful → ∀ g ∈ desc.fields, (∀ p ∈ entries, p.key ≠ g.name) →
        g.get st'.1 = g.get st.1) := by
  induction entries with
  | nil =>
    intro st st' h
    cases h
    exact ⟨fun h => h, fun _ _ _ _ => rfl⟩
  | cons p rest ih =>
    intro st st' h
    simp only [List.foldlM_cons, bind_eq_ok] at h
    obtain ⟨st1, h1, h2⟩ := h
    obtain ⟨ihr, ihg⟩ := ih st1 st' h2
    obtain ⟨hr, hg⟩ := deserializeFieldsPair_frame desc frame st st1 p h1
    refine ⟨fun hall => ihr (hr hall), ?_⟩
    intro hlaw g hgm hno
    rw [ihg hlaw g hgm (fun q hq => hno q (List.mem_cons_of_mem _ hq)),
      hg hlaw g hgm (hno p (List.mem_cons_self _ _))]

/-- The function `deserializeFields` on an object cell is its loop over the
entries: the closing loop over the helpers raises nothing, since no helper is
marked required. -/
theorem deserializeFields_eq {T : Type} (desc : Description T) (obj : T) (flags : Flags)
    (entries : List (JsonPair JsonView)) (frame : TraceFrame) :
    deserializeFields desc obj (JsonView.object flags entries) frame
      = (entries.foldlM (deserializeFieldsPair desc frame) (obj, prepFields desc)) >>=
          fun st => .ok st.1 := by
  unfold deserializeFields
  simp only [AssertType_object, ok_bind, JsonView.entries]
  cases h : entries.foldlM (deserializeFieldsPair desc frame) (obj, prepFields desc) with
  | error e => rfl
  | ok st =>
    have hreq := (outerFold_frame desc frame entries _ st h).1 (by
      intro x hx
      rw [prepFields_eq] at hx
      rw [List.eq_of_mem_replicate hx])
    simp only [ok_bind, checkRequired_ok _ frame st.2 hreq]
    rfl

/-! ## The sorted path against the unsorted path -/

/-- After a successful run of the sorted path over fields without validators,
a field whose name is a key holds the conversion of the value of that entry,
and a field whose name is no key holds what it held before. -/
theorem sortedFold_field_value {T : Type} (desc : Description T) (hlaw : desc.Lawful)
    (hfv : ∀ f ∈ desc.fields, f.validator = none) (flags : Flags)
    (entries : List (JsonPair JsonView)) (hs : keysAscending entries) (frame : TraceFrame)
    (obj o' : T)
    (h : deserializeFieldsSorted desc obj (JsonView.object flags entries) frame = .ok o')
    (f : Field T) (hf : f ∈ desc.fields) :
    (∀ c, (⟨f.name, c⟩ : JsonPair JsonView) ∈ entries →
      f.conv.DoFromJson (f.get obj) c (TraceFrame.key f.name frame) = .ok (f.get o')) ∧
    ((∀ p ∈ entries, p.key ≠ f.name) → f.get o' = f.get obj) := by
  obtain ⟨pre, post, hsplit⟩ := List.append_of_mem hf
  have hind := hlaw.independent
  rw [hsplit, List.pairwise_append, List.pairwise_cons] at hind
  obtain ⟨_, ⟨hpost, _⟩, hpre⟩ := hind
  unfold deserializeFieldsSorted at h
  rw [hsplit] at h
  simp only [List.foldlM_append, List.foldlM_cons, bind_eq_ok] at h
  obtain ⟨o1, h1, o2, h2, h3⟩ := h
  have e1 : f.get o1 = f.get obj :=
    sortedFold_frame desc _ frame f pre (fun g hg => (hpre g hg f (List.mem_cons_self _ _)).1)
      _ _ h1
  have e3 : f.get o' = f.get o2 :=
    sortedFold_frame desc _ frame f post (fun g hg => (hpost g hg).2) _ _ h3
  constructor
  · intro c hc
    rw [sortedField_present desc flags entries frame o1 f c hs hc (hfv f hf), bind_eq_ok] at h2
    obtain ⟨w, hw, hret⟩ := h2
    cases hret
    rw [e3, hlaw.get_set f hf, ← e1]
    exact hw
  · intro hno
    cases hreq : isRequired desc f
    · rw [sortedField_optional_absent desc flags entries frame o1 f hs hno hreq (hfv f hf)] at h2
      cases h2
      rw [e3, hlaw.get_set f hf, e1]
    · rw [sortedField_required_absent desc flags entries frame o1 f hs hno hreq] at h2
      cases h2

/-- With distinct field names, an entry whose key is the name of a field
without validator is one conversion and one store. -/
theorem deserializeFieldsPair_single {T : Type} (desc : Description T)
    (hnames : (desc.fields.map (fun f => f.name)).Nodup) (frame : TraceFrame)
    (st : T × List fieldHelper) (p : JsonPair JsonView) (f : Field T) (hf : f ∈ desc.fields)
    (hk : p.key = f.name) (hval : f.validator = none) (w : f.type)
    (hc : f.conv.DoFromJson (f.get st.1) p.value (TraceFrame.key f.name frame) = .ok w) :
    ∃ run', deserializeFieldsPair desc frame st p = .ok (f.set st.1 w, run') := by
  obtain ⟨pre, post, hsplit⟩ := List.append_of_mem hf
  rw [hsplit, List.map_append, List.map_cons, List.nodup_append, List.nodup_cons] at hnames
  obtain ⟨_, ⟨hpostn, _⟩, hdisj⟩ := hnames
  have hpre : ∀ g ∈ pre, p.key ≠ g.name := by
    intro g hg heq
    exact hdisj (List.mem_map_of_mem (fun f => f.name) hg)
      (by rw [← heq, hk]; exact List.mem_cons_self _ _)
  have hpost : ∀ g ∈ post, p.key ≠ g.name := by
    intro g hg heq
    exact hpostn (by rw [← hk, heq]; exact List.mem_map_of_mem (fun f => f.name) hg)
  obtain ⟨o, run⟩ := st
  simp only [deserializeFieldsPair, hsplit, List.foldlM_append, List.foldlM_cons,
    innerFold_nomatch p frame pre hpre, ok_bind,
    deserializeFieldsField_match p frame o run 0 f hk]
  simp only at hc
  rw [hc, ok_bind, hval]
  simp only [runValidator, pure_eq, ok_bind, innerFold_nomatch p frame post hpost]
  exact ⟨_, rfl⟩

/-- The loop of the unsorted path over entries with distinct keys succeeds
when each entry that names a field converts from what the field holds at the
start. -/
theorem outerFold_succeeds {T : Type} (desc : Description T) (hlaw : desc.Lawful)
    (hnames : (desc.fields.map (fun f => f.name)).Nodup)
    (hfv : ∀ f ∈ desc.fields, f.validator = none) (frame : TraceFrame) (o' : T) :
    ∀ (rest : List (JsonPair JsonView)) (st : T × List fieldHelper),
      (rest.map (fun p => p.key)).Nodup →
      (∀ f ∈ desc.fields, ∀ c, (⟨f.name, c⟩ : JsonPair JsonView) ∈ rest →
        f.conv.DoFromJson (f.get st.1) c (TraceFrame.key f.name frame) = .ok (f.get o')) →
      ∃ st', rest.foldlM (deserializeFieldsPair desc frame) st = .ok st' := by
  intro rest
  induction rest with
  | nil => intro st _ _; exact ⟨st, rfl⟩
  | cons p rest ih =>
    intro st hnd hconv
    rw [List.map_cons, List.nodup_cons] at hnd
    by_cases hex : ∃ f ∈ desc.fields, p.key = f.name
    · obtain ⟨f, hf, hk⟩ := hex
      have hp : (⟨f.name, p.value⟩ : JsonPair JsonView) = p := by
        cases p
        simp only at hk
        rw [hk]
      have hc := hconv f hf p.value (by rw [hp]; exact List.mem_cons_self _ _)
      obtain ⟨run', hstep⟩ := deserializeFieldsPair_single desc hnames frame st p f hf hk
        (hfv f hf) _ hc
      rw [List.foldlM_cons, hstep, ok_bind]
      apply ih _ hnd.2
      intro g hg c hcmem
      have hne : f.name ≠ g.name := by
        intro heq
        apply hnd.1
        rw [hk, heq]
        exact List.mem_map_of_mem (fun p => p.key) hcmem
      simp only
      rw [Lawful_indep_of_name_ne hlaw f g hf hg hne]
      exact hconv g hg c (List.mem_cons_of_mem _ hcmem)
    · have hno : ∀ f ∈ desc.fields, p.key ≠ f.name := fun f hf hk => hex ⟨f, hf, hk⟩
      rw [List.foldlM_cons, deserializeFieldsPair_nomatch desc frame st p hno, ok_bind]
      exact ih st hnd.2 (fun f hf c hc => hconv f hf c (List.mem_cons_of_mem _ hc))

/-- Whenever the sorted path succeeds on entries with ascending keys, the
unsorted path succeeds on the same entries and leaves the same record (lawful
fields with distinct names, no field validators). -/
theorem deserializeFieldsSorted_ok_deserializeFields {T : Type} (desc : Description T)
    (hlaw : desc.Lawful) (hnames : (desc.fields.map (fun f => f.name)).Nodup)
    (hfv : ∀ f ∈ desc.fields, f.validator = none) (fs fu : Flags)
    (entries : List (JsonPair JsonView)) (hs : keysAscending entries) (frame : TraceFrame)
    (obj o' : T)
    (h : deserializeFieldsSorted desc obj (JsonView.object fs entries) frame = .ok o') :
    deserializeFields desc obj (JsonView.object fu entries) frame = .ok o' := by
  have hnd : (entries.map (fun p => p.key)).Nodup :=
    List.Pairwise.imp (fun hab => ne_of_lt hab) hs
  have hval := sortedFold_field_value desc hlaw hfv fs entries hs frame obj o' h
  obtain ⟨st', hfold⟩ := outerFold_succeeds desc hlaw hnames hfv frame o' entries
    (obj, prepFields desc) hnd (fun f hf c hc => (hval f hf).1 c hc)
  rw [deserializeFields_eq, hfold, ok_bind]
  congr 1
  apply hlaw.ext
  intro f hf
  by_cases hex : ∃ c, (⟨f.name, c⟩ : JsonPair JsonView) ∈ entries
  · obtain ⟨c, hc⟩ := hex
    obtain ⟨pre, post, hsplit⟩ := List.append_of_mem hc
    rw [hsplit, List.map_append, List.map_cons, List.nodup_append, List.nodup_cons] at hnd
    obtain ⟨_, ⟨hpostn, _⟩, hdisj⟩ := hnd
    have hpre : ∀ q ∈ pre, q.key ≠ f.name := by
      intro q hq heq
      exact hdisj (List.mem_map_of_mem (fun p => p.key) hq)
        (by rw [heq]; exact List.mem_cons_self _ _)
    have hpost : ∀ q ∈ post, q.key ≠ f.name := by
      intro q hq heq
      exact hpostn (by rw [← heq]; exact List.mem_map_of_mem (fun p => p.key) hq)
    rw [hsplit] at hfold
    simp only [List.foldlM_append, List.foldlM_cons, bind_eq_ok] at hfold
    obtain ⟨st1, h1, st2, h2, h3⟩ := hfold
    obtain ⟨w0, hw0, hv⟩ := deserializeFieldsPair_hit desc hlaw frame st1 st2 ⟨f.name, c⟩ f hf
      rfl h2
    rw [(outerFold_frame desc frame pre _ st1 h1).2 hlaw f hf hpre, (hval f hf).1 c hc] at hw0
    have e0 : f.get o' = w0 := Except.ok.inj hw0
    rw [hfv f hf] at hv
    have e2 : w0 = f.get st2.1 := Except.ok.inj hv
    rw [(outerFold_frame desc frame post st2 st' h3).2 hlaw f hf hpost, ← e2, e0]
  · have hno : ∀ p ∈ entries, p.key ≠ f.name := by
      intro p hp heq
      apply hex
      refine ⟨p.value, ?_⟩
      rw [← heq]
      exact hp
    rw [(outerFold_frame desc frame entries _ st' hfold).2 hlaw f hf hno, (hval f hf).2 hno]

/-- Struct `FromJson` of an object cell into an object-encoded record without
class validator is the path the sorted flag selects. -/
theorem FromJsonStruct_object {T : Type} (desc : Description T)
    (hobj : desc.attrStructAsTuple = false) (hcv : desc.classValidator = none) (flags : Flags)
    (entries : List (JsonPair JsonView)) (obj : T) (frame : TraceFrame) :
    FromJsonStruct desc obj (JsonView.object flags entries) frame
      = if (JsonView.object flags entries).HasFlag f_sorted = true
        then deserializeFieldsSorted desc obj (JsonView.object flags entries) frame
        else deserializeFields desc obj (JsonView.object flags entries) frame := by
  rw [FromJsonStruct_eq]
  unfold FromJsonStructFields
  rw [if_neg (by simp [hobj]), hcv]
  split
  · rw [AssertType_object]
    cases deserializeFieldsSorted desc obj (JsonView.object flags entries) frame <;> rfl
  · rw [AssertType_object]
    cases deserializeFields desc obj (JsonView.object flags entries) frame <;> rfl

/-- On ascending keys the sorted path does not depend on the flags. -/
theorem deserializeFieldsSorted_flags {T : Type} (desc : Description T) (flags : Flags)
    (entries : List (JsonPair JsonView)) (hs : keysAscending entries) (obj : T)
    (frame : TraceFrame) :
    deserializeFieldsSorted desc obj (JsonView.object flags entries) frame
      = deserializeFieldsSorted desc obj (JsonView.object 0 entries) frame := by
  unfold deserializeFieldsSorted
  rw [sortedField_flags desc flags entries frame hs]

/-- C31 (the code, and its failing inputs): for an object-encoded record type
without validators, with lawful fields of distinct names, and an object whose
entries have strictly ascending keys, struct `FromJson` succeeds without the
sorted flag whenever it succeeds with it, leaving the same record.  The
converse fails: for the empty object and a record with the required field
`id`, `FromJson` raises KeyError naming `id` with the flag and succeeds
without it.  And when both fail they need not name the same field: with the
fields declared in the order `z`, `x`, `y` and the values of `x` and `z` null,
the TypeMismatch names `z` with the flag and `x` without it. -/
theorem sorted_flag_changes_FromJsonStruct :
    (∀ (T : Type) (desc : Description T), desc.Lawful →
      (desc.fields.map (fun f => f.name)).Nodup → desc.attrStructAsTuple = false →
      desc.classValidator = none → (∀ f ∈ desc.fields, f.validator = none) →
      ∀ (fs fu : Flags) (entries : List (JsonPair JsonView)), keysAscending entries →
        (JsonView.object fs entries).HasFlag f_sorted = true →
        (JsonView.object fu entries).HasFlag f_sorted = false →
        ∀ (frame : TraceFrame) (obj o' : T),
          FromJsonStruct desc obj (JsonView.object fs entries) frame = .ok o' →
          FromJsonStruct desc obj (JsonView.object fu entries) frame = .ok o') ∧
    (isRequired WithId.desc
        (plainField ['i', 'd'] IntType.int32 WithId.id (fun _ v => { id := v })) = true ∧
      FromJsonStruct WithId.desc ⟨7⟩ (JsonView.object f_sorted []) TraceFrame.root
        = .error (JsonError.KeyError ['i', 'd'] TraceFrame.root) ∧
      FromJsonStruct WithId.desc ⟨7⟩ (JsonView.object 0 []) TraceFrame.root = .ok ⟨7⟩) ∧
    (Point3.asObject.fields.map (fun f => f.name) = [['z'], ['x'], ['y']] ∧
      keysAscending [(⟨['x'], JsonView.ofNull⟩ : JsonPair JsonView),
        ⟨['y'], JsonView.ofSigned 2⟩, ⟨['z'], JsonView.ofNull⟩] ∧
      FromJsonStruct Point3.asObject ⟨0, 0, 0⟩
          (JsonView.object f_sorted [⟨['x'], JsonView.ofNull⟩, ⟨['y'], JsonView.ofSigned 2⟩,
            ⟨['z'], JsonView.ofNull⟩]) TraceFrame.root
        = .error (JsonError.TypeMissmatch (t_signed ||| t_unsigned) t_null
            (TraceFrame.key ['z'] TraceFrame.root)) ∧
      FromJsonStruct Point3.asObject ⟨0, 0, 0⟩
          (JsonView.object 0 [⟨['x'], JsonView.ofNull⟩, ⟨['y'], JsonView.ofSigned 2⟩,
            ⟨['z'], JsonView.ofNull⟩]) TraceFrame.root
        = .error (JsonError.TypeMissmatch (t_signed ||| t_unsigned) t_null
            (TraceFrame.key ['x'] TraceFrame.root))) := by
  refine ⟨?_, ⟨by decide, ?_, by decide⟩, ⟨by decide, by decide, ?_, by decide⟩⟩
  · intro T desc hlaw hnames hobj hcv hfv fs fu entries hs hfs hfu frame obj o' h
    rw [FromJsonStruct_object desc hobj hcv, if_pos hfs] at h
    rw [FromJsonStruct_object desc hobj hcv, if_neg (by simp [hfu])]
    exact deserializeFieldsSorted_ok_deserializeFields desc hlaw hnames hfv fs fu entries hs
      frame obj o' h
  · rw [FromJsonStruct_object WithId.desc rfl rfl, if_pos (by decide),
      deserializeFieldsSorted_flags _ _ _ (by decide)]
    decide
  · rw [FromJsonStruct_object Point3.asObject rfl rfl, if_pos (by decide),
      deserializeFieldsSorted_flags _ _ _ (by decide)]
    decide

theorem sorted_flag_changes_FromJsonStruct_witness :
    FromJsonStruct Point3.asObject ⟨0, 0, 0⟩
        (JsonView.object 0 [⟨['x'], JsonView.ofSigned 1⟩, ⟨['y'], JsonView.ofSigned 2⟩,
          ⟨['z'], JsonView.ofSigned 3⟩]) TraceFrame.root = .ok ⟨1, 2, 3⟩ :=
  sorted_flag_changes_FromJsonStruct.1 Point3 Point3.asObject Point3.asObject_lawful
    (by decide) rfl rfl (by
      intro f hf
      simp only [Point3.asObject, List.mem_cons, List.mem_singleton, List.not_mem_nil,
        or_false] at hf
      rcases hf with rfl | rfl | rfl <;> rfl)
    f_sorted 0 [⟨['x'], JsonView.ofSigned 1⟩, ⟨['y'], JsonView.ofSigned 2⟩,
      ⟨['z'], JsonView.ofSigned 3⟩] (by decide) (by decide) (by decide) TraceFrame.root
    ⟨0, 0, 0⟩ ⟨1, 2, 3⟩ (by
      rw [FromJsonStruct_object Point3.asObject rfl rfl, if_pos (by decide),
        deserializeFieldsSorted_flags _ _ _ (by decide)]
      decide)

/-! ## The unsorted path: what the fields hold -/

/-- C32: `deserializeFields` on an object cell (entries in any order, keys may
repeat) into a record whose described fields behave as members.  An entry
whose key is the name of no field is ignored: the call does what it does
without the entry.  When the call succeeds, a field whose name is a key holds
the validated conversion of the value of the last entry with that key, the
conversion having started from what the entries before it left in the field,
and a field whose name is no key holds what it held before.  What the entries
up to some point raise is raised by the call, whatever entries follow. -/
theorem deserializeFields_unsorted {T : Type} (desc : Description T) (hlaw : desc.Lawful)
    (flags : Flags) (entries : List (JsonPair JsonView)) (frame : TraceFrame) (obj : T) :
    (∀ (pre : List (JsonPair JsonView)) (p : JsonPair JsonView) (post : List (JsonPair JsonView)),
      entries = pre ++ p :: post → (∀ f ∈ desc.fields, p.key ≠ f.name) →
      deserializeFields desc obj (JsonView.object flags entries) frame
        = deserializeFields desc obj (JsonView.object flags (pre ++ post)) frame) ∧
    (∀ obj' : T, deserializeFields desc obj (JsonView.object flags entries) frame = .ok obj' →
      ∀ f ∈ desc.fields,
        (∀ (pre : List (JsonPair JsonView)) (c : JsonView) (post : List (JsonPair JsonView)),
          entries = pre ++ ⟨f.name, c⟩ :: post → (∀ p ∈ post, p.key ≠ f.name) →
          ∃ (o1 : T) (w0 : f.type),
            deserializeFields desc obj (JsonView.object flags pre) frame = .ok o1 ∧
            f.conv.DoFromJson (f.get o1) c (TraceFrame.key f.name frame) = .ok w0 ∧
            runValidator f.validator w0 (TraceFrame.key f.name frame) = .ok (f.get obj')) ∧
        ((∀ p ∈ entries, p.key ≠ f.name) → f.get obj' = f.get obj)) ∧
    (∀ (pre post : List (JsonPair JsonView)) (e : JsonError), entries = pre ++ post →
      deserializeFields desc obj (JsonView.object flags pre) frame = .error e →
      deserializeFields desc obj (JsonView.object flags entries) frame = .error e) := by
  refine ⟨?_, ?_, ?_⟩
  · intro pre p post hsplit hno
    rw [deserializeFields_eq, deserializeFields_eq, hsplit]
    simp only [List.foldlM_append, List.foldlM_cons]
    cases pre.foldlM (deserializeFieldsPair desc frame) (obj, prepFields desc) with
    | error e => rfl
    | ok st => simp only [ok_bind, deserializeFieldsPair_nomatch desc frame st p hno]
  · intro obj' h f hf
    rw [deserializeFields_eq, bind_eq_ok] at h
    obtain ⟨st', hfold, hret⟩ := h
    cases hret
    constructor
    · intro pre c post hsplit hlast
      rw [hsplit] at hfold
      simp only [List.foldlM_append, List.foldlM_cons, bind_eq_ok] at hfold
      obtain ⟨st1, h1, st2, h2, h3⟩ := hfold
      obtain ⟨w0, hc, hv⟩ := deserializeFieldsPair_hit desc hlaw frame st1 st2 ⟨f.name, c⟩ f hf
        rfl h2
      refine ⟨st1.1, w0, ?_, hc, ?_⟩
      · rw [deserializeFields_eq, h1, ok_bind]
      · rw [(outerFold_frame desc frame post st2 st' h3).2 hlaw f hf hlast]
        exact hv
    · intro hno
      exact (outerFold_frame desc frame entries _ st' hfold).2 hlaw f hf hno
  · intro pre post e hsplit h
    rw [deserializeFields_eq] at h ⊢
    rw [hsplit, List.foldlM_append]
    cases hp : pre.foldlM (deserializeFieldsPair desc frame) (obj, prepFields desc) with
    | error e' =>
      rw [hp, error_bind] at h
      cases h
      rfl
    | ok st =>
      rw [hp, ok_bind] at h
      cases h

theorem deserializeFields_unsorted_witness :
    deserializeFields Point3.asObject ⟨0, 7, 0⟩
        (JsonView.object 0 [⟨['x'], .ofSigned 1⟩, ⟨['q'], .ofSigned 9⟩, ⟨['x'], .ofSigned 5⟩,
          ⟨['z'], .ofSigned 3⟩]) TraceFrame.root
      = deserializeFields Point3.asObject ⟨0, 7, 0⟩
        (JsonView.object 0 [⟨['x'], .ofSigned 1⟩, ⟨['x'], .ofSigned 5⟩, ⟨['z'], .ofSigned 3⟩])
        TraceFrame.root ∧
    deserializeFields Point3.asObject ⟨0, 7, 0⟩
        (JsonView.object 0 [⟨['x'], .ofSigned 1⟩, ⟨['q'], .ofSigned 9⟩, ⟨['x'], .ofSigned 5⟩,
          ⟨['z'], .ofSigned 3⟩]) TraceFrame.root = .ok ⟨5, 7, 3⟩ ∧
    deserializeFields Point3.asObject ⟨0, 7, 0⟩
        (JsonView.object 0 [⟨['x'], .ofNull⟩, ⟨['x'], .ofSigned 5⟩]) TraceFrame.root
      = .error (JsonError.TypeMissmatch (t_signed ||| t_unsigned) t_null
          (TraceFrame.key ['x'] TraceFrame.root)) :=
  ⟨(deserializeFields_unsorted Point3.asObject Point3.asObject_lawful 0
      [⟨['x'], .ofSigned 1⟩, ⟨['q'], .ofSigned 9⟩, ⟨['x'], .ofSigned 5⟩, ⟨['z'], .ofSigned 3⟩]
      TraceFrame.root ⟨0, 7, 0⟩).1 [⟨['x'], .ofSigned 1⟩] ⟨['q'], .ofSigned 9⟩
      [⟨['x'], .ofSigned 5⟩, ⟨['z'], .ofSigned 3⟩] rfl (by
        intro f hf
        simp only [Point3.asObject, List.mem_cons, List.mem_singleton, List.not_mem_nil,
          or_false] at hf
        rcases hf with rfl | rfl | rfl <;> decide),
   by decide,
   (deserializeFields_unsorted Point3.asObject Point3.asObject_lawful 0
      [⟨['x'], .ofNull⟩, ⟨['x'], .ofSigned 5⟩] TraceFrame.root ⟨0, 7, 0⟩).2.2
      [⟨['x'], .ofNull⟩] [⟨['x'], .ofSigned 5⟩] _ rfl (by decide)⟩

end jv

namespace rpcxx

/-! ## The request-scoped store -/

theorem Context.Value_fst {Any : Type} (this : Context Any) (name : List Char) :
    (this.Value name).1 ≠ none ↔ this.data name ≠ none := by
  unfold Context.Value
  cases this.data name <;> simp

theorem Context.after_data {Any : Type} [Inhabited Any] (this : Context Any)
    (c : ContextCall Any) (name : List Char) (hc : ∀ other, c ≠ ContextCall.CloneFrom other) :
    (this.after c).data name ≠ none ↔ (this.data name ≠ none ∨ c = ContextCall.SetValue name) := by
  cases c with
  | SetValue n =>
    simp only [Context.after, Context.SetValue, Context.dataIndex, ContextCall.SetValue.injEq]
    cases hn : this.data n with
    | some v =>
      simp only
      constructor
      · exact fun h => Or.inl h
      · rintro (h | h)
        · exact h
        · rw [← h, hn]; simp
    | none =>
      simp only
      by_cases hk : name = n
      · simp [hk]
      · simp [hk, Ne.symm hk]
  | Value n =>
    simp only [Context.after, Context.Value]
    cases this.data n <;> simp
  | CloneFrom other => exact absurd rfl (hc other)

theorem Context.foldl_after_data {Any : Type} [Inhabited Any] (name : List Char)
    (calls : List (ContextCall Any)) :
    ∀ (this : Context Any), (∀ other, ContextCall.CloneFrom other ∉ calls) →
      ((calls.foldl Context.after this).data name ≠ none ↔
        (this.data name ≠ none ∨ ContextCall.SetValue name ∈ calls)) := by
  induction calls with
  | nil => intro this _; simp
  | cons c rest ih =>
    intro this hno
    rw [List.foldl_cons, ih (this.after c) (fun o ho => hno o (List.mem_cons_of_mem _ ho)),
      Context.after_data this c name (fun o ho => hno o (by rw [ho]; exact List.mem_cons_self _ _)),
      List.mem_cons]
    constructor
    · rintro ((h | h) | h)
      · exact Or.inl h
      · exact Or.inr (Or.inl h.symm)
      · exact Or.inr (Or.inr h)
    · rintro (h | h | h)
      · exact Or.inl (Or.inl h)
      · exact Or.inl (Or.inr h.symm)
      · exact Or.inr h

/-- C33 (refuted as stated): after `SetValue` for the name `a` and then
`CloneFrom` of a newly constructed context, `Value` for `a` returns the null
pointer, although `a` was created by `SetValue` before. -/
theorem Context.Value_null_after_CloneFrom :
    ContextCall.SetValue ['a'] ∈
      [ContextCall.SetValue ['a'], ContextCall.CloneFrom (Context.construct : Context (Option Nat))] ∧
    ((Context.run [ContextCall.SetValue ['a'],
        ContextCall.CloneFrom (Context.construct : Context (Option Nat))]).Value ['a']).1 = none ∧
    ((Context.run [(ContextCall.SetValue ['a'] : ContextCall (Option Nat))]).Value ['a']).1
      = some ['a'] :=
  ⟨List.mem_cons_self _ _, by decide, by decide⟩

/-- C33 (amended): `Value` returns a non-null pointer exactly when the store
holds an entry for the name, and leaves the context as it is.  `SetValue`
returns the reference to the entry of the name: when there is one, the context
stays as it is; when there is none, an entry holding nothing is inserted for
the name and every other name keeps what it had; a second `SetValue` for the
name returns the same reference and changes nothing.  `CloneFrom` replaces the
store by that of the other context.  So after calls on a context without a
`CloneFrom` among them, the store holds an entry for a name exactly when it
held one before or `SetValue` was called for the name; a newly constructed
context holds none. -/
theorem Context.store_entries {Any : Type} [Inhabited Any] (this : Context Any)
    (name : List Char) :
    ((this.Value name).1 ≠ none ↔ this.data name ≠ none) ∧
    ((this.Value name).1 = none ∨ (this.Value name).1 = some name) ∧
    (this.Value name).2 = this ∧
    (this.data name ≠ none → this.SetValue name = (name, this)) ∧
    (this.data name = none →
      (this.SetValue name).1 = name ∧
      (this.SetValue name).2.data name = some default ∧
      ∀ k, k ≠ name → (this.SetValue name).2.data k = this.data k) ∧
    ((this.SetValue name).2.SetValue name = ((this.SetValue name).1, (this.SetValue name).2)) ∧
    (∀ other : Context Any, (this.CloneFrom other).data = other.data) ∧
    (∀ calls : List (ContextCall Any), (∀ other, ContextCall.CloneFrom other ∉ calls) →
      (((calls.foldl Context.after this).Value name).1 ≠ none ↔
        (this.data name ≠ none ∨ ContextCall.SetValue name ∈ calls))) ∧
    (Context.construct : Context Any).data name = none := by
  refine ⟨Context.Value_fst this name, ?_, ?_, ?_, ?_, ?_, fun _ => rfl, ?_, rfl⟩
  · unfold Context.Value
    cases this.data name <;> simp
  · unfold Context.Value
    cases this.data name <;> rfl
  · intro h
    unfold Context.SetValue
    cases hd : this.data name with
    | none => exact absurd hd h
    | some v => rfl
  · intro h
    simp only [Context.SetValue, h, Context.dataIndex]
    refine ⟨trivial, by simp, ?_⟩
    intro k hk
    simp [hk]
  · cases hd : this.data name with
    | some v =>
      simp only [Context.SetValue, hd]
    | none =>
      simp only [Context.SetValue, hd, Context.dataIndex, if_true]
  · intro calls hno
    rw [Context.Value_fst]
    exact Context.foldl_after_data name calls this hno

theorem Context.store_entries_witness :
    ((Context.run [(ContextCall.SetValue ['a'] : ContextCall (Option Nat)),
        ContextCall.Value ['b']]).Value ['a']).1 ≠ none ∧
    ¬ ((Context.run [(ContextCall.SetValue ['a'] : ContextCall (Option Nat)),
        ContextCall.Value ['b']]).Value ['b']).1 ≠ none :=
  ⟨((Context.store_entries (Context.construct : Context (Option Nat)) ['a']).2.2.2.2.2.2.2.1
      [ContextCall.SetValue ['a'], ContextCall.Value ['b']] (by
        intro other h
        simp at h)).mpr (Or.inr (List.mem_cons_self _ _)),
   fun h => by
    have := ((Context.store_entries (Context.construct : Context (Option Nat)) ['b']).2.2.2.2.2.2.2.1
      [ContextCall.SetValue ['a'], ContextCall.Value ['b']] (by
        intro other h
        simp at h)).mp h
    rcases this with h1 | h1
    · exact h1 rfl
    · simp at h1⟩

end rpcxx
